import Mathlib

/-!
# MM-DIRECT instant recovery: indexed log, indexer and restorers

A shallow embedding of `src/instant_recovery.c`.

Conventions of the embedding.

* A `char *` is the list of its bytes up to the terminating NUL (`Bytes`).  Binary data that the
  code reads with an explicit length is cut at the first NUL where the C code hands it to a
  `str*`/`sdscpy` function (`cstr`).
* The Berkeley DB file behind the indexed log is the list of its key/data pairs in cursor
  order (`DB`); a cursor is the pair it stands on together with the pairs after it (`DBC`).
* A result of type `Option` is `none` when the run does not complete in a defined way: the
  process exits, memory outside an allocated block or array is accessed with an outcome the
  source does not fix, or a loop runs out of the fuel the
  caller supplied.  Every caller supplies more fuel than there are records left to read.
* `int` arithmetic is two's complement on 32 bits, `long` and `long long` on 64 bits;
  `unsigned long` and `unsigned long long` count modulo `2 ^ 64`.  An object is stored lowest
  byte first, as on the x86-64 machines the store is built for.
* An offset file is the number it holds, or missing; `writeFinalLogSeek` and `readFinalLogSeek`
  are given on the bytes of the file.  A Berkeley DB file is missing, not openable, or the list
  of its records (`LogFile`).
* A file is the list of its bytes; an open stream is the part still unread.  The sequential
  log is read by `indexesSequentialLogToIndexedLogV2` from its bytes with `fgets` and `fread`.
  `walBytes` gives the bytes of a log made of complete frames (`LogFrame`, the list of the
  bulk-string arguments of a command): header lines end in CR LF and CR LF follows each
  argument, the two bytes the reader discards after an argument.  On such a file the reader
  is the loop `readFrames` over the frames (`indexesSequentialLogToIndexedLogV2_walBytes`).
* Threads are not modelled: every function runs alone on the state it is given, and the flags
  other threads set (`instant_recovery_performing_stop`, `indexer_state`) keep their value
  during a call.  The one exception is `checkpointProcess`, which takes as a parameter the
  moment at which another thread turns `checkpoint_state` off.
* Where a claim speaks of what a function leaves behind when it calls `exit(1)`, a second
  function with the suffix `_exit` gives the label taken (`ReadError`) and the state at that
  moment; whenever it gives a state the function itself gives `none`
  (`indexesSequentialLogToIndexedLogV2_none_of_exit`, `initialIndexes_while_none_of_exit`).
* Redis commands sent with `redisCommand` are the lists of their arguments; an argument
  printed with `%s` is cut at its first NUL.
-/

namespace InstantRecovery

/-! ## C strings and the C library -/

/-- Bytes of a C string, the terminating NUL not included. -/
abbrev Bytes := List Char

/-- Text that `strlen`, `strcpy`, `sdsnew` and `sdscpy` see in a buffer: the bytes before the
first NUL. -/
def cstr (s : Bytes) : Bytes := s.takeWhile (fun c => c != '\x00')

/-- In-place upper-casing `sdstoupper` (C locale: only `a`..`z` change). -/
def sdstoupper (s : Bytes) : Bytes := s.map Char.toUpper

/-- Split of a non-empty text at every newline: n newlines give n+1 tokens. -/
def splitNewline : Bytes → List Bytes
  | [] => [[]]
  | c :: cs =>
    if c = '\n' then [] :: splitNewline cs
    else
      match splitNewline cs with
      | [] => [[c]]
      | t :: ts => (c :: t) :: ts

/-- Tokens of `sdssplitlen(s, sdslen(s), "\n", 1, &count)`: no token for the empty text,
otherwise the text between the newlines (a trailing newline gives a last empty token). -/
def sdssplitlen (s : Bytes) : List Bytes :=
  match s with
  | [] => []
  | _ :: _ => splitNewline s

/-- White space of `isspace` in the C locale. -/
def isspace (c : Char) : Bool :=
  c = ' ' || c = '\t' || c = '\n' || c = '\x0b' || c = '\x0c' || c = '\r'

/-- Value of the leading decimal digits of a text, on top of an accumulator. -/
def strtolDigits : Nat → Bytes → Nat
  | acc, [] => acc
  | acc, c :: cs => if c.isDigit then strtolDigits (acc * 10 + (c.toNat - 48)) cs else acc

/-- Largest `long`. -/
def LONG_MAX : Int := 2 ^ 63 - 1

/-- Smallest `long`. -/
def LONG_MIN : Int := -(2 ^ 63)

/-- Optional sign and digits of `strtol`, after the white space has been skipped. -/
def strtolSigned (s : Bytes) : Int :=
  match s with
  | [] => 0
  | c :: t =>
    if c = '-' then max LONG_MIN (-(strtolDigits 0 t : Int))
    else if c = '+' then min LONG_MAX (strtolDigits 0 t : Int)
    else min LONG_MAX (strtolDigits 0 (c :: t) : Int)

/-- Function `strtol(s, NULL, 10)`: leading white space, an optional sign, decimal digits; 0 when
no digit follows; out-of-range values are clamped to `LONG_MIN`/`LONG_MAX`. -/
def strtol (s : Bytes) : Int := strtolSigned (s.dropWhile isspace)

/-- Conversion of an integer to `int` (32 bits, two's complement). -/
def toInt32 (x : Int) : Int := (x + 2 ^ 31) % 2 ^ 32 - 2 ^ 31

/-- Conversion of an integer to `long`/`long long` (64 bits, two's complement). -/
def toInt64 (x : Int) : Int := (x + 2 ^ 63) % 2 ^ 64 - 2 ^ 63

/-- Function `atoi(s)`, which glibc defines as `(int) strtol(s, NULL, 10)`. -/
def atoi (s : Bytes) : Int := toInt32 (strtol s)

/-- Text printed by `%d` and `%ld`: decimal digits, a leading `-` for a negative number. -/
def sprintf_d (n : Int) : Bytes :=
  if n < 0 then '-' :: Nat.toDigits 10 n.natAbs else Nat.toDigits 10 n.toNat

/-! ## Indexed log (Berkeley DB opened with `DB_DUP`) -/

/-- One key/data pair of the indexed log. -/
abbrev DBRecord := Bytes × Bytes

/-- Content of an indexed log: its key/data pairs in cursor order. -/
abbrev DB := List DBRecord

/-- Berkeley DB `DB->put` on a B-tree with unsorted duplicates (`DB_DUP`): keys are kept in
byte-wise lexicographic order and a pair with an already present key goes to the end of that
key's duplicate set. -/
def dbPut (k d : Bytes) : DB → DB
  | [] => [(k, d)]
  | r :: rest => if r.1 ≤ k then r :: dbPut k d rest else (k, d) :: r :: rest

/-- Berkeley DB `DB->del`: removes every pair stored under the key. -/
def dbDel (k : Bytes) (db : DB) : DB := db.filter (fun r => r.1 != k)

/-- Function `addRecordIndexedLog(dbp, key, data)`: stores the two C strings as one pair. -/
def addRecordIndexedLog (dbp : DB) (key data : Bytes) : DB := dbPut key data dbp

/-- Function `delRecordIndexdLog(dbp, key)`. -/
def delRecordIndexdLog (dbp : DB) (key : Bytes) : DB := dbDel key dbp

/-- Duplicate chain of a key: the data stored under it, in cursor order. -/
def chainOf (db : DB) (k : Bytes) : List Bytes :=
  (db.filter (fun r => r.1 == k)).map Prod.snd

/-- Keys are in non-decreasing byte order (what a B-tree file guarantees). -/
def keySorted (db : DB) : Prop := db.Pairwise (fun a b => a.1 ≤ b.1)

/-- The pairs of one key are contiguous: once the cursor has left a key it does not meet it
again (true of B-tree and of hash files). -/
def grouped : DB → Bool
  | [] => true
  | r :: rest => (rest.dropWhile (fun x => x.1 == r.1)).all (fun x => x.1 != r.1) && grouped rest

/-- Cursor standing on a pair: the pair and the pairs after it. -/
structure DBC where
  /-- Key of the pair under the cursor. -/
  key : Bytes
  /-- Data of the pair under the cursor. -/
  data : Bytes
  /-- Pairs after the cursor. -/
  rest : DB
deriving DecidableEq

/-- First pair of the file: `DB_NEXT` on a cursor that was just opened (`none` is
`DB_NOTFOUND`). -/
def DB_FIRST (db : DB) : Option DBC :=
  match db with
  | [] => none
  | r :: rest => some ⟨r.1, r.2, rest⟩

/-- Flag `DB_NEXT` on a positioned cursor: the following pair. -/
def DB_NEXT (c : DBC) : Option DBC := DB_FIRST c.rest

/-- Flag `DB_NEXT_NODUP`: the first following pair whose key differs from the current one. -/
def DB_NEXT_NODUP (c : DBC) : Option DBC := DB_FIRST (c.rest.dropWhile (fun x => x.1 == c.key))

/-- Flag `DB_NEXT_DUP`: the following pair when it has the current key, otherwise
`DB_NOTFOUND`. -/
def DB_NEXT_DUP (c : DBC) : Option DBC :=
  match c.rest with
  | [] => none
  | r :: rest => if r.1 = c.key then some ⟨r.1, r.2, rest⟩ else none

/-- Flag `DB_SET`: the first pair stored under the key. -/
def DB_SET (db : DB) (k : Bytes) : Option DBC := DB_FIRST (db.dropWhile (fun x => x.1 != k))

/-! ## Restored-key set (`hash_restored_tuples`) -/

/-- Function `addRestoredTuple(key)`: adds an entry for the key (uthash does not look for an entry that
is already there). -/
def addRestoredTuple (hash_restored_tuples : List Bytes) (key : Bytes) : List Bytes :=
  key :: hash_restored_tuples

/-- Function `isRestoredTuple(key)`: true when the hash holds an entry for the key. -/
def isRestoredTuple (hash_restored_tuples : List Bytes) (key : Bytes) : Bool :=
  hash_restored_tuples.contains key

/-- Function `clearHashRestoredTuples()`: removes every entry. -/
def clearHashRestoredTuples (_hash_restored_tuples : List Bytes) : List Bytes := []

/-! ## Restorers -/

/-- Part of the global `server` and of its surroundings that the restorers use. -/
structure redisServer where
  /-- Content of the file `server.indexedlog_filename`. -/
  indexedlog : DB
  /-- Whether `openIndexedLog` succeeds on that file. -/
  indexedlog_opens : Bool
  /-- Whether `openRedisClient` succeeds. -/
  redis_connects : Bool
  /-- Restored-key set. -/
  hash_restored_tuples : List Bytes
  /-- Redo commands `SETIR key value` handed to the store so far, oldest first. -/
  setIR : List (Bytes × Bytes)
  /-- Number of keys restored on demand. -/
  count_tuples_loaded_ondemand : Nat
  /-- Number of on-demand requests for keys that are not in the indexed log. -/
  count_tuples_not_in_log : Nat
  /-- Number of keys restored incrementally. -/
  count_tuples_loaded_incr : Nat
  /-- Number of incremental redo commands whose reply carried no string. -/
  count_inconsistent_load_incr : Nat
  /-- Flag set while the incremental restorer runs. -/
  instant_recovery_performing : Bool
  /-- Stop signal of the incremental restorer. -/
  instant_recovery_performing_stop : Bool
deriving DecidableEq

/-- Body of the `while(error != DB_NOTFOUND)` loop of `loadRecordFromIndexedLog` up to the
cursor call: the new `valueIR` after the record under the cursor.  Lines 2 and 6 of the split
record are read without a bounds check.  The `INCR` branch prints with `sprintf` into the sds
buffer of `valueIR`; the capacity of that buffer is not part of the embedding. -/
def loadRecord_redo (valueIR data : Bytes) : Option Bytes :=
  let array_log_record_lines := sdssplitlen data
  match array_log_record_lines[2]? with
  | none => none
  | some line2 =>
    let commandIR := sdstoupper line2
    if commandIR = "SET".toList then array_log_record_lines[6]?
    else if commandIR = "INCR".toList then some (sprintf_d (toInt32 (atoi valueIR + 1)))
    else some valueIR

/-- The `while(error != DB_NOTFOUND)` loop of `loadRecordFromIndexedLog`, entered with the cursor
on the first record of the key; returns the final `valueIR`. -/
def loadRecord_scan : Nat → Bytes → DBC → Option Bytes
  | 0, _, _ => none
  | fuel + 1, valueIR, c =>
    match loadRecord_redo valueIR c.data with
    | none => none
    | some valueIR1 =>
      match DB_NEXT_DUP c with
      | none => some valueIR1
      | some c1 => loadRecord_scan fuel valueIR1 c1

/-- Function `loadRecordFromIndexedLog(key_searched)`: return value and new server state.  After the scan
the function builds the lines `*3`, `$5`, `SETIR`, `$<len>`, key, `$<len>`, valueIR and runs them
through a fake client, that is, the store executes `SETIR key_searched valueIR`. -/
def loadRecordFromIndexedLog (server : redisServer) (key_searched : Bytes) :
    Option (Nat × redisServer) :=
  if server.indexedlog_opens = false then some (0, server)
  else
    match DB_SET server.indexedlog key_searched with
    | none =>
      some (0, { server with
        hash_restored_tuples := addRestoredTuple server.hash_restored_tuples key_searched
        count_tuples_not_in_log := server.count_tuples_not_in_log + 1 })
    | some c =>
      match loadRecord_scan (c.rest.length + 1) "0".toList c with
      | none => none
      | some valueIR =>
        some (1, { server with
          setIR := server.setIR ++ [(key_searched, valueIR)]
          count_tuples_loaded_ondemand := server.count_tuples_loaded_ondemand + 1
          hash_restored_tuples := addRestoredTuple server.hash_restored_tuples key_searched })

/-- Local variables of `loadDBFromIndexedLog`. -/
structure IRVars where
  /-- Key of the record under the cursor. -/
  current_key : Bytes
  /-- Key whose records are being collected. -/
  old_key : Bytes
  /-- Command of the last record read (`INCR` is turned into `SET`). -/
  commandIR : Bytes
  /-- Key of the redo command. -/
  keyIR : Bytes
  /-- Value of the redo command. -/
  valueIR : Bytes
  /-- Number of redo commands whose reply carried a string. -/
  count_tuples_loaded : Nat
  /-- Number of redo commands whose reply carried no string. -/
  count_inconsistent_load : Nat
deriving DecidableEq

/-- Body of the `while(1)` loop of `loadDBFromIndexedLog` from the split of the record to the
cursor call.  Lines 2 and 6 of the split record are read without a bounds check.  The `INCR`
branch prints with `sprintf(valueIR, "%d", atoi(valueIR) + 1)` into the sds buffer of `valueIR`;
the capacity of that buffer is not part of the embedding. -/
def loadDB_redo (v : IRVars) (data : Bytes) : Option IRVars :=
  let array_log_record_lines := sdssplitlen data
  match array_log_record_lines[2]? with
  | none => none
  | some line2 =>
    let commandIR := sdstoupper line2
    if commandIR = "SET".toList then
      match array_log_record_lines[6]? with
      | none => none
      | some line6 => some { v with commandIR := commandIR, keyIR := v.current_key, valueIR := line6 }
    else if commandIR = "INCR".toList then
      some { v with
        commandIR := "SET".toList
        keyIR := v.current_key
        valueIR := sprintf_d (toInt32 (atoi v.valueIR + 1)) }
    else some { v with commandIR := commandIR }

/-- The loop `while(isRestoredTuple(current_key))`: moves to the next distinct key until one is
not in the restored-key set; the second component is `none` when the cursor call returned
`DB_NOTFOUND`. -/
def loadDB_skip (hash_restored_tuples : List Bytes) : Nat → IRVars → DBC → Option (IRVars × Option DBC)
  | 0, _, _ => none
  | fuel + 1, v, c =>
    if isRestoredTuple hash_restored_tuples v.current_key then
      match DB_NEXT_NODUP c with
      | some c1 => loadDB_skip hash_restored_tuples fuel { v with current_key := c1.key } c1
      | none => some (v, none)
    else some (v, some c)

/-- The loop `while(1)`: reads the records of `old_key` until the key changes or the file
ends. -/
def loadDB_collect : Nat → IRVars → DBC → Option (IRVars × Option DBC)
  | 0, _, _ => none
  | fuel + 1, v, c =>
    if v.current_key ≠ v.old_key then some ({ v with old_key := v.current_key }, some c)
    else
      match loadDB_redo v c.data with
      | none => none
      | some v1 =>
        match DB_NEXT c with
        | none => some (v1, none)
        | some c1 => loadDB_collect fuel { v1 with current_key := c1.key } c1

/-- The outer loop `while (error != DB_NOTFOUND && server.instant_recovery_performing_stop ==
IR_OFF)`.  `replyStr key value` tells whether the store's reply to `setIR key value` carries a
string (`reply->str != NULL`). -/
def loadDB_scan (replyStr : Bytes → Bytes → Bool) :
    Nat → redisServer → IRVars → Option DBC → Option (redisServer × IRVars)
  | 0, _, _, _ => none
  | fuel + 1, server, v, error =>
    match error with
    | none => some (server, v)
    | some c =>
      if server.instant_recovery_performing_stop then some (server, v)
      else
        match loadDB_skip server.hash_restored_tuples (c.rest.length + 1)
            { v with valueIR := "0".toList } c with
        | none => none
        | some (v1, none) => some (server, v1)
        | some (v1, some c1) =>
          match loadDB_collect (c1.rest.length + 2) { v1 with old_key := v1.current_key } c1 with
          | none => none
          | some (v2, error2) =>
            let v3 := { v2 with commandIR := sdstoupper v2.commandIR }
            if v3.commandIR = "SET".toList then
              loadDB_scan replyStr fuel
                { server with
                  setIR := server.setIR ++ [(v3.keyIR, v3.valueIR)]
                  hash_restored_tuples := addRestoredTuple server.hash_restored_tuples v3.keyIR
                  count_tuples_loaded_incr :=
                    if replyStr v3.keyIR v3.valueIR then v3.count_tuples_loaded + 1
                    else server.count_tuples_loaded_incr }
                (if replyStr v3.keyIR v3.valueIR then
                  { v3 with count_tuples_loaded := v3.count_tuples_loaded + 1 }
                else { v3 with count_inconsistent_load := v3.count_inconsistent_load + 1 })
                error2
            else loadDB_scan replyStr fuel server v3 error2

/-- Function `loadDBFromIndexedLog()`: the server state when the function returns (`none` when it calls
`exit`).  The threads it starts are not part of the state. -/
def loadDBFromIndexedLog (replyStr : Bytes → Bytes → Bool) (server : redisServer) :
    Option redisServer :=
  if server.indexedlog_opens = false then none
  else if server.redis_connects = false then none
  else
    let error := DB_FIRST server.indexedlog
    let v : IRVars :=
      { current_key := match error with
          | some c => c.key
          | none => []
        old_key := []
        commandIR := []
        keyIR := []
        valueIR := "0".toList
        count_tuples_loaded := 0
        count_inconsistent_load := 0 }
    match loadDB_scan replyStr (server.indexedlog.length + 1)
        { server with instant_recovery_performing := true } v error with
    | none => none
    | some (server1, v1) =>
      some { server1 with
        count_tuples_loaded_incr := v1.count_tuples_loaded
        count_inconsistent_load_incr := v1.count_inconsistent_load
        hash_restored_tuples := clearHashRestoredTuples server1.hash_restored_tuples
        instant_recovery_performing := false }

/-! ## Asynchronous indexer -/

/-- Node of the linked list of records to index (`recordToIndex`): the arrays
`char command[20]`, `char key[50]` and `char value[50]`, followed by the pointer `next`, 128
bytes in all.  The fields hold the three texts as `writeToIndexedLog` reads them back, each up
to the first NUL at or after the start of its array.  The key and value arrays are not sds
strings, so `sdslen(ri->key)` and `sdslen(ri->value)` read as a length whatever bytes lie in
front of each array; the node carries these two readings. -/
structure recordToIndex where
  /-- Text read at `ri->command`. -/
  command : Bytes
  /-- Text read at `ri->key`. -/
  key : Bytes
  /-- Text read at `ri->value`. -/
  value : Bytes
  /-- What `sdslen(ri->key)` returns for this node. -/
  sdslen_key : Int
  /-- What `sdslen(ri->value)` returns for this node. -/
  sdslen_value : Int
deriving DecidableEq

/-- Text read at `new->key` after the three `strcpy` calls of `addRecordToIndex`, the value
being shorter than 50 bytes.  A key of 50 bytes or more fills `key[50]` without a NUL; what it
wrote behind the array lies in `value[]` and is overwritten by the copy of the value, which
comes last, so the text runs on through the value to the NUL that ends it. -/
def recordToIndex_key (key value : Bytes) : Bytes :=
  if key.length < 50 then key else key.take 50 ++ value

/-- Text read at `new->command` after the three `strcpy` calls of `addRecordToIndex`: a command
of 20 bytes or more fills `command[20]` without a NUL, and the text runs on into the key
array, which the second `strcpy` has written. -/
def recordToIndex_command (command key value : Bytes) : Bytes :=
  if command.length < 20 then command else command.take 20 ++ recordToIndex_key key value

/-- Function `addRecordToIndex(&last, command, key, value)`: appends a node made by
`strcpy(new->command, command)`, `strcpy(new->key, key)`, `strcpy(new->value, value)`.  There
is no length test: a string that does not fit runs over the arrays behind it inside the node,
and the later copies overwrite what it wrote there.  `none` stands for the two cases whose
outcome the source does not fix: a value of 50 bytes or more, whose text runs on into the
pointer `next`, and a copy that writes past the 128 bytes of the node (a command of 128 bytes
or a key of 108 bytes or more).  `mem` is what the fresh node's memory makes the two `sdslen`
calls return. -/
def addRecordToIndex (list : List recordToIndex) (command key value : Bytes) (mem : Int × Int) :
    Option (List recordToIndex) :=
  if command.length < 128 ∧ key.length < 108 ∧ value.length < 50 then
    some (list ++ [{ command := recordToIndex_command command key value
                     key := recordToIndex_key key value
                     value := value
                     sdslen_key := mem.1, sdslen_value := mem.2 }])
  else none

/-- The sds variables `command`, `key` and `value` of `indexesSequentialLogToIndexedLogV2`,
which keep their content from one record to the next. -/
structure IndexerVars where
  /-- Command of the last record read. -/
  command : Bytes
  /-- Key of the last record that had one. -/
  key : Bytes
  /-- Third argument of the last record that had one. -/
  value : Bytes
deriving DecidableEq

/-- One complete frame of the sequential log, as the `fgets`/`fread` calls of the indexer
deliver it: the bulk strings of its `argc` arguments. -/
abbrev LogFrame := List Bytes

/-- The three `if` statements at the end of the body of the loop `for (j = 0; j < argc; j++)` of
`indexesSequentialLogToIndexedLogV2`: argument 0 is copied to `command` and upper-cased,
argument 1 to `key`, argument 2 to `value`; `sdscpy` copies up to the first NUL. -/
def storeArgument (j : Nat) (v : IndexerVars) (argsds : Bytes) : IndexerVars :=
  let v1 := if j = 0 then { v with command := sdstoupper (cstr argsds) } else v
  let v2 := if j = 1 then { v1 with key := cstr argsds } else v1
  if j = 2 then { v2 with value := cstr argsds } else v2

/-- The loop `for (j = 0; j < argc; j++)` of `indexesSequentialLogToIndexedLogV2` over the
arguments of a complete frame, from argument `j` on. -/
def readArguments : Nat → IndexerVars → List Bytes → IndexerVars
  | _, v, [] => v
  | j, v, argsds :: more => readArguments (j + 1) (storeArgument j v argsds) more

/-- The inner `do ... while(fgets(buf,sizeof(buf),fp) != NULL)` loop of
`indexesSequentialLogToIndexedLogV2` over the complete frames of the file: every frame becomes a
node of the list.  A frame with `argc < 1` is a format error (`exit(1)`).  `mem n` is the pair of
`sdslen` readings of the node allocated when the list holds `n` nodes. -/
def readFrames (mem : Nat → Int × Int) :
    IndexerVars → List recordToIndex → List LogFrame → Option (IndexerVars × List recordToIndex)
  | v, list, [] => some (v, list)
  | v, list, frame :: more =>
    if frame.length < 1 then none
    else
      let v1 := readArguments 0 v frame
      match addRecordToIndex list v1.command v1.key v1.value (mem list.length) with
      | none => none
      | some list1 => readFrames mem v1 list1 more

/-- Calls that reach the storage, in the order they are made. -/
inductive StorageCall where
  /-- Call `DB->put` on the indexed log. -/
  | put (key data : Bytes)
  /-- Call `DB->del` on the indexed log. -/
  | del (key : Bytes)
  /-- Call `dbp->sync(dbp, 0)`. -/
  | sync
  /-- Call `writeFinalLogSeek(FINAL_LOG_SEEK, seek)`. -/
  | writeFinalLogSeek (seek : Nat)
  /-- Call `closeIndexedLog(dbp)`, which flushes the indexed log. -/
  | close
deriving DecidableEq

/-- What the indexer works on. -/
structure IndexerState where
  /-- The open indexed log. -/
  dbp : DB
  /-- Content of the file `FINAL_LOG_SEEK` (`none`: no such file). -/
  final_log_seek : Option Nat
  /-- Field `server.seek_log_file`. -/
  seek_log_file : Nat
  /-- Field `server.indexer_state`: true is `IR_ON`, false is `IR_OFF`, the stop signal. -/
  indexer_state : Bool
  /-- Storage calls made so far, oldest first. -/
  calls : List StorageCall
deriving DecidableEq

/-- Constant `SET_COMMAND` of `writeToIndexedLog`. -/
def SET_COMMAND : Bytes := "SET".toList

/-- Constant `INCR_COMMAND` of `writeToIndexedLog`. -/
def INCR_COMMAND : Bytes := "INCR".toList

/-- Constant `DEL_COMMAND` of `writeToIndexedLog`. -/
def DEL_COMMAND : Bytes := "DEL".toList

/-- Constant `SETCHECKPOINT_COMMAND` of `writeToIndexedLog`. -/
def SETCHECKPOINT_COMMAND : Bytes := "SETCHECKPOINT".toList

/-- Constant `CHECKPOINTEND_COMMAND` of `writeToIndexedLog`. -/
def CHECKPOINTEND_COMMAND : Bytes := "CHECKPOINTEND".toList

/-- The text `writeToIndexedLog` prints into `aux` with the format
`"*3\n$3\nSET\n$%ld\n%s\n$%ld\n%s"`. -/
def writeToIndexedLog_aux (ri : recordToIndex) : Bytes :=
  "*3\n$3\nSET\n$".toList ++ sprintf_d ri.sdslen_key ++ "\n".toList ++ ri.key ++
    "\n$".toList ++ sprintf_d ri.sdslen_value ++ "\n".toList ++ ri.value

/-- Effect of one node on the indexed log in `writeToIndexedLog`: the new state and the increment
of `*count_records_indexed`.  The `INCR` branch prints the same `SET` text as the `SET` branch. -/
def writeToIndexedLog_apply (s : IndexerState) (ri : recordToIndex) : IndexerState × Nat :=
  if ri.command = SET_COMMAND then
    ({ s with dbp := addRecordIndexedLog s.dbp ri.key (writeToIndexedLog_aux ri)
              calls := s.calls ++ [StorageCall.put ri.key (writeToIndexedLog_aux ri)] }, 1)
  else if ri.command = INCR_COMMAND then
    ({ s with dbp := addRecordIndexedLog s.dbp ri.key (writeToIndexedLog_aux ri)
              calls := s.calls ++ [StorageCall.put ri.key (writeToIndexedLog_aux ri)] }, 1)
  else if ri.command = DEL_COMMAND then
    ({ s with dbp := delRecordIndexdLog s.dbp ri.key
              calls := s.calls ++ [StorageCall.del ri.key] }, 1)
  else if ri.command = SETCHECKPOINT_COMMAND then
    ({ s with dbp := addRecordIndexedLog (delRecordIndexdLog s.dbp ri.key) ri.key
                (writeToIndexedLog_aux ri)
              calls := s.calls ++ [StorageCall.del ri.key,
                StorageCall.put ri.key (writeToIndexedLog_aux ri)] }, 1)
  else if ri.command = CHECKPOINTEND_COMMAND then (s, 0)
  else (s, 0)

/-- The loop `while(ri != NULL)` of `writeToIndexedLog`: state, `*count_records`,
`*count_records_indexed` and whether the loop ran to the end of the list (false: it met the stop
signal). -/
def writeToIndexedLog_while :
    List recordToIndex → IndexerState → Nat → Nat → IndexerState × Nat × Nat × Bool
  | [], s, count_records, count_records_indexed => (s, count_records, count_records_indexed, true)
  | ri :: next, s, count_records, count_records_indexed =>
    if s.indexer_state = false then (s, count_records, count_records_indexed, false)
    else
      let r := writeToIndexedLog_apply s ri
      writeToIndexedLog_while next r.1 (count_records + 1) (count_records_indexed + r.2)

/-- Result of `writeToIndexedLog`. -/
structure WriteResult where
  /-- State after the call. -/
  state : IndexerState
  /-- Output `*count_records`. -/
  count_records : Nat
  /-- Output `*count_records_indexed`. -/
  count_records_indexed : Nat
  /-- Return value: true is `IR_ON`, false is `IR_OFF`. -/
  signal : Bool
deriving DecidableEq

/-- Function `writeToIndexedLog(dbp, ri, seek_log_file, &count_records, &count_records_indexed)`. -/
def writeToIndexedLog (s : IndexerState) (ri : List recordToIndex) (seek_log_file : Nat) :
    WriteResult :=
  match writeToIndexedLog_while ri s 0 0 with
  | (s1, count_records, count_records_indexed, true) =>
    { state := { s1 with final_log_seek := some seek_log_file
                         seek_log_file := seek_log_file
                         calls := s1.calls ++ [StorageCall.sync,
                           StorageCall.writeFinalLogSeek seek_log_file] }
      count_records := count_records
      count_records_indexed := count_records_indexed
      signal := true }
  | (s1, count_records, count_records_indexed, false) =>
    { state := { s1 with final_log_seek := some seek_log_file
                         calls := s1.calls ++ [StorageCall.sync,
                           StorageCall.writeFinalLogSeek seek_log_file] }
      count_records := count_records
      count_records_indexed := count_records_indexed
      signal := false }

/-- One round of the main loop of `indexesSequentialLogToIndexedLogV2`, told on the frames: the
complete frames of the file are read into the list, and the list, when it has a node, is handed
to `writeToIndexedLog` together with the file position `seek_log_file` reached by the reads. -/
def indexFrames (mem : Nat → Int × Int) (s : IndexerState)
    (v : IndexerVars) (frames : List LogFrame) (seek_log_file : Nat) :
    Option (IndexerState × IndexerVars) :=
  if s.indexer_state = false then some (s, v)
  else
    match readFrames mem v [] frames with
    | none => none
    | some (v1, []) => some (s, v1)
    | some (v1, ri :: next) => some ((writeToIndexedLog s (ri :: next) seek_log_file).state, v1)

/-- Function `fgets(buf, size, fp)` after the test for end of file: the bytes read, which end
with the first newline or after `n` bytes, and the part of the file still unread. -/
def fgetsLine : Nat → Bytes → Bytes × Bytes
  | 0, fp => ([], fp)
  | _ + 1, [] => ([], [])
  | n + 1, c :: cs =>
    if c = '\n' then ([c], cs) else (c :: (fgetsLine n cs).1, (fgetsLine n cs).2)

/-- Function `fgets(buf, size, fp)` on the unread part of a file: `none` (NULL) at end of file,
otherwise the bytes read (at most `size - 1`, ending with the first newline) and the part
still unread. -/
def fgets (size : Nat) (fp : Bytes) : Option (Bytes × Bytes) :=
  match fp with
  | [] => none
  | _ :: _ => some (fgetsLine (size - 1) fp)

/-- Function `fread(ptr, len, 1, fp)`: the `len` bytes and the part still unread when that many
bytes are left; `none` (return value 0) otherwise. -/
def fread (len : Nat) (fp : Bytes) : Option (Bytes × Bytes) :=
  if len ≤ fp.length then some (fp.take len, fp.drop len) else none

/-- Call `fseek(fp, offset, SEEK_SET)` on a stream just opened: the position from which the next
read starts.  The parameter is a `long`; a negative offset makes the call fail with `EINVAL`
and the stream stays at position 0 (the return value of `fseek` is not looked at). -/
def fseek (offset : Int) : Nat :=
  if toInt64 offset < 0 then 0 else (toInt64 offset).toNat

/-- The loop `for (j = 0; j < argc; j++)` of `indexesSequentialLogToIndexedLogV2` on the bytes
of the file, with `n` arguments still to read: the header line must start with `$`, its number
is the length of the bulk string, which is read with `fread` and followed by two bytes that are
discarded.  Every `goto readerr` and `goto fmterr` ends in `exit(1)`.  Result: the variables,
the unread part of the file and `seek_log_file`, an `unsigned long long`. -/
def readBulkStrings : Nat → Nat → IndexerVars → Bytes → Nat → Option (IndexerVars × Bytes × Nat)
  | 0, _, v, fp, seek_log_file => some (v, fp, seek_log_file)
  | n + 1, j, v, fp, seek_log_file =>
    match fgets 128 fp with
    | none => none
    | some (buf, fp1) =>
      match cstr buf with
      | [] => none
      | c :: t =>
        if c ≠ '$' then none
        else
          match (if (strtol t % 2 ^ 64).toNat = 0 then some ([], fp1)
              else fread (strtol t % 2 ^ 64).toNat fp1) with
          | none => none
          | some (argsds, fp2) =>
            match fread 2 fp2 with
            | none => none
            | some (_, fp3) =>
              readBulkStrings n (j + 1) (storeArgument j v argsds) fp3
                ((seek_log_file + (cstr buf).length + (strtol t % 2 ^ 64).toNat + 2) % 2 ^ 64)

/-- Body of the inner `do ... while` loop of `indexesSequentialLogToIndexedLogV2` up to the call
of `addRecordToIndex`, entered with the header line of a record in `buf`: the line must start
with `*` and give an argument count of at least 1. -/
def readRecord (buf fp : Bytes) (v : IndexerVars) (seek_log_file : Nat) :
    Option (IndexerVars × Bytes × Nat) :=
  match cstr buf with
  | [] => none
  | c :: t =>
    if c ≠ '*' then none
    else if t = [] then none
    else if atoi t < 1 then none
    else readBulkStrings (atoi t).toNat 0 v fp ((seek_log_file + (cstr buf).length) % 2 ^ 64)

/-- The inner `do ... while(fgets(buf,sizeof(buf),fp) != NULL)` loop of
`indexesSequentialLogToIndexedLogV2` on the bytes of the file, entered with the first header
line in `buf`: variables, list of records and `seek_log_file` when the end of the file is
reached. -/
def readRecords (mem : Nat → Int × Int) :
    Nat → IndexerVars → List recordToIndex → Bytes → Bytes → Nat →
      Option (IndexerVars × List recordToIndex × Nat)
  | 0, _, _, _, _, _ => none
  | fuel + 1, v, list, buf, fp, seek_log_file =>
    match readRecord buf fp v seek_log_file with
    | none => none
    | some (v1, fp1, seek1) =>
      match addRecordToIndex list v1.command v1.key v1.value (mem list.length) with
      | none => none
      | some list1 =>
        match fgets 128 fp1 with
        | none => some (v1, list1, seek1)
        | some (buf1, fp2) => readRecords mem fuel v1 list1 buf1 fp2 seek1

/-- One round of the main loop `while(1)` of `indexesSequentialLogToIndexedLogV2` over the
sequential log file `aof`: the file is opened and `fseek` is called with `seek_log_file`; when
`fgets` finds nothing the round changes nothing (the thread sleeps and polls again); otherwise
all records up to the end of the file are read and the list is handed to `writeToIndexedLog`
with the position reached.
Result: indexer state, variables and `seek_log_file`. -/
def indexesSequentialLogToIndexedLogV2 (mem : Nat → Int × Int) (s : IndexerState)
    (v : IndexerVars) (seek_log_file : Nat) (aof : Bytes) :
    Option (IndexerState × IndexerVars × Nat) :=
  if s.indexer_state = false then some (s, v, seek_log_file)
  else
    match fgets 128 (aof.drop (fseek seek_log_file)) with
    | none => some (s, v, seek_log_file)
    | some (buf, fp) =>
      match readRecords mem (aof.length + 1) v [] buf fp seek_log_file with
      | none => none
      | some (v1, [], seek1) => some (s, v1, seek1)
      | some (v1, ri :: next, seek1) =>
        some ((writeToIndexedLog s (ri :: next) seek1).state, v1, seek1)

/-- Indexer state over an empty indexed log, before anything was indexed. -/
def emptyIndexer : IndexerState :=
  { dbp := [], final_log_seek := none, seek_log_file := 0, indexer_state := true, calls := [] }

/-- Variables of the indexer when its thread starts: three empty sds strings. -/
def initialIndexerVars : IndexerVars := { command := [], key := [], value := [] }

/-- Indexed log that the frame-level round builds from an empty one for the given frames. -/
def indexedLogOfFrames (mem : Nat → Int × Int) (frames : List LogFrame) : Option DB :=
  (indexFrames mem emptyIndexer initialIndexerVars frames 0).map (fun r => r.1.dbp)

/-- Indexed log that the asynchronous indexer builds from an empty one when its thread starts
at position 0 of the given sequential log file and runs one round. -/
def indexedLogOf (mem : Nat → Int × Int) (aof : Bytes) : Option DB :=
  (indexesSequentialLogToIndexedLogV2 mem emptyIndexer initialIndexerVars 0 aof).map
    (fun r => r.1.dbp)

/-- Bytes of one bulk string of a complete frame in the sequential log: `$`, the length in
decimal, CR LF, the bytes, and the two bytes CR LF that the reader discards after them. -/
def bulkString (arg : Bytes) : Bytes :=
  '$' :: (Nat.toDigits 10 arg.length ++ ('\r' :: '\n' :: (arg ++ ['\r', '\n'])))

/-- Bytes of a list of bulk strings. -/
def bulkStrings : List Bytes → Bytes
  | [] => []
  | arg :: more => bulkString arg ++ bulkStrings more

/-- Bytes of one complete frame in the sequential log: `*`, the number of arguments in decimal,
CR LF, then the arguments as bulk strings. -/
def frameBytes (frame : LogFrame) : Bytes :=
  '*' :: (Nat.toDigits 10 frame.length ++ ('\r' :: '\n' :: bulkStrings frame))

/-- Bytes of a sequential log made of the given complete frames. -/
def walBytes : List LogFrame → Bytes
  | [] => []
  | frame :: more => frameBytes frame ++ walBytes more

/-- Frames whose counts the headers can carry: fewer than `2 ^ 31` arguments (`argc` is an
`int`), each shorter than `2 ^ 63` bytes (`strtol` returns a `long`). -/
def storeFrames (frames : List LogFrame) : Prop :=
  ∀ f ∈ frames, f.length < 2 ^ 31 ∧ ∀ a ∈ f, a.length < 2 ^ 63

instance storeFrames_decidable (frames : List LogFrame) : Decidable (storeFrames frames) := by
  unfold storeFrames
  infer_instance

/-! ## Vocabulary of the specification -/

/-- Command of a stored frame as the restorers read it: line 2 of the frame, upper-cased. -/
def frameCommand (frame : Bytes) : Option Bytes := (sdssplitlen frame)[2]?.map sdstoupper

/-- Value argument of a stored frame as the restorers read it: line 6 of the frame. -/
def frameValue (frame : Bytes) : Option Bytes := (sdssplitlen frame)[6]?

/-- A SET frame: its command is `SET` and it has a value argument. -/
def isSetFrame (frame : Bytes) : Bool :=
  frameCommand frame == some "SET".toList && (frameValue frame).isSome

/-- An INCR frame: its command is `INCR`. -/
def isIncrFrame (frame : Bytes) : Bool := frameCommand frame == some "INCR".toList

/-- A frame whose lines the restorers can read: it has a line 2 and, when that line says `SET`,
a line 6. -/
def frameReadable (frame : Bytes) : Bool :=
  match frameCommand frame with
  | none => false
  | some c => c != "SET".toList || (frameValue frame).isSome

/-- Replay rule of section 4.3 of the specification for one frame: `SET` replaces the value with
the frame's value argument, `INCR` replaces it with the decimal text of `atoi(value) + 1`; any
other frame leaves it alone. -/
def replayRule (value frame : Bytes) : Bytes :=
  if frameCommand frame = some "SET".toList then (frameValue frame).getD value
  else if frameCommand frame = some "INCR".toList then sprintf_d (toInt32 (atoi value + 1))
  else value

/-- Left fold of the replay rule over a chain, starting from `"0"`. -/
def replayChain (chain : List Bytes) : Bytes := chain.foldl replayRule "0".toList

/-- The last frame of a chain is a SET or an INCR frame (false for the empty chain). -/
def lastIsRedo (chain : List Bytes) : Bool :=
  match chain.getLast? with
  | none => false
  | some frame => isSetFrame frame || isIncrFrame frame

/-- A text has no integer at its start: after the white space and an optional sign there is no
digit. -/
def noLeadingInteger (s : Bytes) : Bool :=
  match s.dropWhile isspace with
  | [] => true
  | c :: t =>
    if c = '-' ∨ c = '+' then
      match t with
      | [] => true
      | d :: _ => !d.isDigit
    else !c.isDigit

/-- Pairs from the cursor position to the end of the file (none when the cursor call returned
`DB_NOTFOUND`). -/
def cursorList (error : Option DBC) : DB :=
  match error with
  | none => []
  | some c => (c.key, c.data) :: c.rest

/-- Server state during recovery over the given indexed log, with the given restored-key set: no
redo command issued yet, the log and the store reachable, no stop signal. -/
def serverRecovering (db : DB) (restored : List Bytes) : redisServer :=
  { indexedlog := db, indexedlog_opens := true, redis_connects := true,
    hash_restored_tuples := restored, setIR := [],
    count_tuples_loaded_ondemand := 0, count_tuples_not_in_log := 0,
    count_tuples_loaded_incr := 0, count_inconsistent_load_incr := 0,
    instant_recovery_performing := false, instant_recovery_performing_stop := false }

/-- Server state right after a restart over the given indexed log: nothing restored yet. -/
def serverAfterRestart (db : DB) : redisServer := serverRecovering db []

/-- Frame of the command `SET key value` in the sequential log. -/
def frameSET (key value : Bytes) : LogFrame := ["SET".toList, key, value]

/-- Frame of the command `INCR key` in the sequential log. -/
def frameINCR (key : Bytes) : LogFrame := ["INCR".toList, key]

/-- Frame of the command `DEL key` in the sequential log. -/
def frameDEL (key : Bytes) : LogFrame := ["DEL".toList, key]

/-- Frame of the command `SETCHECKPOINT key value` in the sequential log. -/
def frameSETCHECKPOINT (key value : Bytes) : LogFrame := ["SETCHECKPOINT".toList, key, value]

/-- A text that fits the record buffers and survives the newline-separated frame: no newline, no
NUL, shorter than 50 bytes. -/
def plainText (s : Bytes) : Prop := '\n' ∉ s ∧ '\x00' ∉ s ∧ s.length < 50

/-- Modelled from the spec: the `materialize(key)` step of the command dispatcher (section 4.4,
steps 1 and 2 to 5), whose code is in the host store and not in `instant_recovery.c`: a key of the
restored-key set returns at once, any other key goes to `loadRecordFromIndexedLog`. -/
def materialize (server : redisServer) (key : Bytes) : Option redisServer :=
  if isRestoredTuple server.hash_restored_tuples key then some server
  else (loadRecordFromIndexedLog server key).map Prod.snd

/-! ## Sample data -/

/-- A small indexed log: key `a` with a SET frame of value 5 followed by an INCR frame (in the
form startup catch-up stores it), key `b` with one SET frame of value x. -/
def sampleLog : DB :=
  [("a".toList, "*3\n$3\nSET\n$1\na\n$1\n5".toList),
   ("a".toList, "*2\r\n$4\r\nINCR\n$1\r\na".toList),
   ("b".toList, "*3\n$3\nSET\n$1\nb\n$1\nx".toList)]

/-- Store whose reply to every `setIR` carries a string. -/
def replyOK : Bytes → Bytes → Bool := fun _ _ => true

/-- Command application table of section 4.2 of the specification, as the effect of one record
on the chain of key `K`: `SET` and `INCR` on `K` append the frame stored for the record, `DEL`
on `K` empties the chain, `SETCHECKPOINT` on `K` replaces it with the one frame stored for the
record; any other record leaves the chain alone. -/
def tableStep (K : Bytes) (chain : List Bytes) (ri : recordToIndex) : List Bytes :=
  if ri.key = K then
    if ri.command = SET_COMMAND ∨ ri.command = INCR_COMMAND then
      chain ++ [writeToIndexedLog_aux ri]
    else if ri.command = DEL_COMMAND then []
    else if ri.command = SETCHECKPOINT_COMMAND then [writeToIndexedLog_aux ri]
    else chain
  else chain

/-- A `SETCHECKPOINT` record whose value has two lines. -/
def sampleCheckpoint : recordToIndex :=
  { command := SETCHECKPOINT_COMMAND, key := "k".toList, value := "a\nb".toList,
    sdslen_key := 1, sdslen_value := 3 }

/-- A `SETCHECKPOINT` record whose key has two lines. -/
def sampleCheckpointKey : recordToIndex :=
  { command := SETCHECKPOINT_COMMAND, key := "a\nb".toList, value := "v".toList,
    sdslen_key := 3, sdslen_value := 1 }

/-- A key of 50 bytes, one more than `char key[50]` holds together with its NUL. -/
def longKey : Bytes := List.replicate 50 'x'

/-- Readings of `sdslen` in a node whose key array is filled by `longKey`: the byte in front
of the value array is the `x` at `key[49]`, which reads as the length 15; the byte in front of
the key array is not written and is taken to read as 1. -/
def longKeyMem : Nat → Int × Int := fun _ => (1, 15)

/-- Readings of `sdslen` that happen to be 1 for every node. -/
def sampleMem : Nat → Int × Int := fun _ => (1, 1)

/-! ## Offset files -/

/-- Object representation of an unsigned integer on `n` bytes, lowest byte first (the byte order
of the x86-64 machines the store is built for). -/
def objectBytes : Nat → Nat → List Nat
  | 0, _ => []
  | n + 1, x => x % 256 :: objectBytes n (x / 256)

/-- Unsigned integer that an object representation holds, lowest byte first. -/
def objectValue : List Nat → Nat
  | [] => 0
  | b :: bs => b + 256 * objectValue bs

/-- Function `writeFinalLogSeek(filename, seek)` when the file opens for writing: the content of
the file after the call, which is the 8 bytes of the `unsigned long long` parameter. -/
def writeFinalLogSeek (seek : Nat) : List Nat := objectBytes 8 (seek % 2 ^ 64)

/-- Function `readFinalLogSeek(filename)` on the content of the file (`none`: the file cannot be
opened): -1 without a file, 0 when `fread` does not get 8 bytes, otherwise the
`unsigned long long` read, converted to the return type `long long`. -/
def readFinalLogSeek (file : Option (List Nat)) : Int :=
  match file with
  | none => -1
  | some bytes => if bytes.length < 8 then 0 else toInt64 (objectValue (bytes.take 8))

/-- Content of an offset file that holds the given number, written by `writeFinalLogSeek`
(`none`: no such file). -/
def offsetFile (stored : Option Nat) : Option (List Nat) := stored.map writeFinalLogSeek

/-! ## Files and server fields of the indexing side -/

/-- A Berkeley DB file as `openIndexedLog` finds it. -/
inductive LogFile where
  /-- No such file. -/
  | missing
  /-- A file that Berkeley DB cannot open. -/
  | corrupt
  /-- A database file with its records in cursor order. -/
  | db (records : DB)
deriving DecidableEq

/-- Function `openIndexedLog(file_name, mode, &result)` for the modes `R` (`DB_RDONLY`) and `W`
(`DB_CREATE`): whether `*result` is 0, and the file after the call.  Mode `W` creates a missing
file. -/
def openIndexedLog (file : LogFile) (mode : Char) : Bool × LogFile :=
  match file with
  | LogFile.db records => (true, LogFile.db records)
  | LogFile.missing => if mode = 'W' then (true, LogFile.db []) else (false, LogFile.missing)
  | LogFile.corrupt => (false, LogFile.corrupt)

/-- Records of a database file (none for a file that is missing or cannot be opened). -/
def LogFile.records (file : LogFile) : DB :=
  match file with
  | LogFile.db records => records
  | _ => []

/-- The files and the fields of `server` that startup catch-up, the indexer and the checkpointer
work on. -/
structure IRSystem where
  /-- File `server.indexedlog_filename`. -/
  indexedlog : LogFile
  /-- File `server.indexedlog_replicated_filename`. -/
  indexedlog_replica : LogFile
  /-- Number held by the file `FINAL_LOG_SEEK` (`none`: no such file). -/
  final_log_seek : Option Nat
  /-- Number held by the file `FINAL_LOG_SEEK_REPLICA` (`none`: no such file). -/
  final_log_seek_replica : Option Nat
  /-- Number held by the file `CHECKPOINT_LOG_SEEK` (`none`: no such file). -/
  checkpoint_log_seek : Option Nat
  /-- File `server.aof_filename`, the sequential log (`none`: it cannot be opened). -/
  aof : Option Bytes
  /-- Field `server.indexedlog_replicated`: true is `IR_ON`. -/
  indexedlog_replicated : Bool
  /-- Field `server.seek_log_file`. -/
  seek_log_file : Nat
  /-- Local variable `seek_log_file` of the indexer thread (`none`: the thread is not running). -/
  indexer_seek_log_file : Option Nat
  /-- Field `server.checkpoint_state`: true is `IR_ON`. -/
  checkpoint_state : Bool
  /-- Field `server.checkpint_performing`: true is `IR_ON`. -/
  checkpint_performing : Bool
  /-- Field `server.checkpoints_only_mfu`: true is `IR_ON`. -/
  checkpoints_only_mfu : Bool
  /-- Field `server.accessed_tuples_logger_state`: true is `IR_ON`. -/
  accessed_tuples_logger_state : Bool
  /-- Hash `hash_keys_access`: keys with their access counts, in iteration order. -/
  hash_keys_access : List (Bytes × Nat)
  /-- Dictionary `server.db->dict`: keys with their values, in iteration order. -/
  dict : List (Bytes × Bytes)
  /-- Whether `openRedisClient` connects. -/
  redis_connects : Bool
  /-- Field `server.selftune_checkpoint_time_interval`: true is `IR_ON`. -/
  selftune_checkpoint_time_interval : Bool
  /-- Field `server.checkpoint_time_interval`, in seconds. -/
  checkpoint_time_interval : Int
  /-- Commands sent with `redisCommand`, oldest first, each as the list of its arguments. -/
  commands : List (List Bytes)
  /-- Storage calls on the indexed log and its offset file made so far, oldest first. -/
  calls : List StorageCall
deriving DecidableEq

/-! ## Startup catch-up -/

/-- Lines 3300-3340 of `initialIndexesSequentialLogToIndexedLog`: the files and fields after the
choice of the start position, and `seek_log_file`.  `errorSync` is set when the file
`FINAL_LOG_SEEK` does not open, `errorLog` when the indexed log does not open read-only.
`rename` succeeds when the replica file exists. -/
def initialIndexes_start (w : IRSystem) : IRSystem × Int :=
  let seek0 := readFinalLogSeek (offsetFile w.final_log_seek)
  let errorSync : Bool := seek0 = -1
  let seek1 : Int := if errorSync then 0 else seek0
  let errorLog : Bool := !(openIndexedLog w.indexedlog 'R').1
  if errorLog || errorSync then
    let r : IRSystem × Int × Bool :=
      if w.indexedlog_replicated then
        if w.indexedlog_replica = LogFile.missing then
          ({ w with indexedlog := LogFile.missing }, seek1, false)
        else
          ({ w with indexedlog := w.indexedlog_replica
                    indexedlog_replica := LogFile.missing
                    indexedlog_replicated := false },
            readFinalLogSeek (offsetFile w.final_log_seek_replica), true)
      else (w, seek1, errorLog)
    if r.2.2 = false then
      let seek3 := readFinalLogSeek (offsetFile w.checkpoint_log_seek)
      (r.1, if seek3 = -1 then 0 else seek3)
    else (r.1, r.2.1)
  else (w, seek1)

/-- Variables `log_record`, `key` and `command` of `initialIndexesSequentialLogToIndexedLog`,
which are declared outside the loop and keep their content from one record to the next. -/
structure InitialVars where
  /-- Variable `log_record` (an sds: it may hold NUL bytes). -/
  log_record : Bytes
  /-- Variable `key`. -/
  key : Bytes
  /-- Variable `command`. -/
  command : Bytes
deriving DecidableEq

/-- Statement `seek_log_file = seek_log_file + n` on the `long long` variable of
`initialIndexesSequentialLogToIndexedLog`. -/
def addOffset (seek_log_file : Int) (n : Nat) : Int := toInt64 (seek_log_file + n)

/-- The loop `for (j = 0; j < argc; j++)` of `initialIndexesSequentialLogToIndexedLog` with `n`
arguments still to read.  Every `goto readerr` and `goto fmterr` ends in `exit(1)`.  Result:
the variables, the unread part of the file and `seek_log_file`. -/
def initialIndexes_arguments :
    Nat → Nat → Int → InitialVars → Bytes → Int → Option (InitialVars × Bytes × Int)
  | 0, _, _, v, fp, seek_log_file => some (v, fp, seek_log_file)
  | n + 1, j, argc, v, fp, seek_log_file =>
    match fgets 128 fp with
    | none => none
    | some (buf, fp1) =>
      match cstr buf with
      | [] => none
      | c :: t =>
        if c ≠ '$' then none
        else
          match (if (strtol t % 2 ^ 64).toNat = 0 then some ([], fp1)
              else fread (strtol t % 2 ^ 64).toNat fp1) with
          | none => none
          | some (argsds, fp2) =>
            let v1 : InitialVars :=
              { v with log_record := v.log_record ++ cstr buf ++ argsds ++
                  (if (j : Int) + 1 < argc then ['\n'] else []) }
            let v2 := if j = 0 then { v1 with command := cstr argsds } else v1
            let v3 := if j = 1 then { v2 with key := cstr argsds } else v2
            match fread 2 fp2 with
            | none => none
            | some (_, fp3) =>
              initialIndexes_arguments n (j + 1) argc v3 fp3
                (addOffset (addOffset (addOffset seek_log_file (cstr buf).length)
                  (strtol t % 2 ^ 64).toNat) 2)

/-- State of the loop `while(1)` of `initialIndexesSequentialLogToIndexedLog`. -/
structure InitialState where
  /-- The indexed log behind `dbp`. -/
  dbp : DB
  /-- The indexed log behind `dbp_replica`. -/
  dbp_replica : DB
  /-- Storage calls on `dbp` made so far, oldest first. -/
  calls : List StorageCall
  /-- The variables that outlive an iteration. -/
  v : InitialVars
  /-- Variable `seek_log_file`. -/
  seek_log_file : Int
  /-- Variable `count_records`. -/
  count_records : Nat
  /-- Variable `count_records_indexed`. -/
  count_records_indexed : Nat
deriving DecidableEq

/-- Lines 3447-3470 of `initialIndexesSequentialLogToIndexedLog`: the command is upper-cased in
place and the record is applied to the indexed log, and to the replica when replication is on.
`SET` deletes the values of the key and stores `log_record`, `INCR` stores `log_record`, `DEL`
deletes the values of the key; there is no other branch. -/
def initialIndexes_apply (indexedlog_replicated : Bool) (st : InitialState) : InitialState :=
  let command := sdstoupper st.v.command
  let key := st.v.key
  let log_record := cstr st.v.log_record
  let st1 := { st with v := { st.v with command := command } }
  if command = SET_COMMAND then
    { st1 with
      dbp := addRecordIndexedLog (delRecordIndexdLog st.dbp key) key log_record
      calls := st.calls ++ [StorageCall.del key, StorageCall.put key log_record]
      count_records_indexed := st.count_records_indexed + 1
      dbp_replica :=
        if indexedlog_replicated then
          addRecordIndexedLog (delRecordIndexdLog st.dbp_replica key) key log_record
        else st.dbp_replica }
  else if command = INCR_COMMAND then
    { st1 with
      dbp := addRecordIndexedLog st.dbp key log_record
      calls := st.calls ++ [StorageCall.put key log_record]
      count_records_indexed := st.count_records_indexed + 1
      dbp_replica :=
        if indexedlog_replicated then addRecordIndexedLog st.dbp_replica key log_record
        else st.dbp_replica }
  else if command = DEL_COMMAND then
    { st1 with
      dbp := delRecordIndexdLog st.dbp key
      calls := st.calls ++ [StorageCall.del key]
      count_records_indexed := st.count_records_indexed + 1
      dbp_replica :=
        if indexedlog_replicated then delRecordIndexdLog st.dbp_replica key
        else st.dbp_replica }
  else st1

/-- The loop `while(1)` of `initialIndexesSequentialLogToIndexedLog` on the unread part of the
sequential log: the state when `fgets` finds the end of the file. -/
def initialIndexes_while (indexedlog_replicated : Bool) :
    Nat → InitialState → Bytes → Option InitialState
  | 0, _, _ => none
  | fuel + 1, st, fp =>
    match fgets 128 fp with
    | none => some st
    | some (buf, fp1) =>
      match cstr buf with
      | [] => none
      | c :: t =>
        if c ≠ '*' then none
        else if t = [] then none
        else if atoi t < 1 then none
        else
          match initialIndexes_arguments (atoi t).toNat 0 (atoi t)
              { st.v with log_record := cstr buf } fp1
              (addOffset st.seek_log_file (cstr buf).length) with
          | none => none
          | some (v1, fp2, seek1) =>
            initialIndexes_while indexedlog_replicated fuel
              (initialIndexes_apply indexedlog_replicated
                { st with v := v1, seek_log_file := seek1
                          count_records := st.count_records + 1 }) fp2

/-- State in which the loop `while(1)` of `initialIndexesSequentialLogToIndexedLog` starts. -/
def initialIndexes_init (dbp dbp_replica : DB) (calls : List StorageCall) (seek_log_file : Int) :
    InitialState :=
  { dbp := dbp, dbp_replica := dbp_replica, calls := calls
    v := { log_record := [], key := [], command := [] }
    seek_log_file := seek_log_file, count_records := 0, count_records_indexed := 0 }

/-- Lines 3342-3500 of `initialIndexesSequentialLogToIndexedLog`, entered with the start
position `seek_log_file`: the files and fields when the function returns, and its return value;
`none` when it calls `exit(1)` (the sequential log does not open, or a record is malformed or
cut short) or uses the handle of a replica that did not open. -/
def initialIndexes_index (w1 : IRSystem) (seek_log_file : Int) : Option (IRSystem × Nat) :=
  let replica : Bool × LogFile :=
    if w1.indexedlog_replicated then openIndexedLog w1.indexedlog_replica 'W'
    else (true, w1.indexedlog_replica)
  match openIndexedLog w1.indexedlog 'W' with
  | (false, _) => some ({ w1 with indexedlog_replica := replica.2 }, 0)
  | (true, file) =>
    match w1.aof with
    | none => none
    | some bytes =>
      if bytes = [] then
        some ({ w1 with indexedlog := file
                        indexedlog_replica := replica.2
                        final_log_seek := some 0
                        calls := w1.calls ++ [StorageCall.writeFinalLogSeek 0,
                          StorageCall.close] }, 0)
      else if replica.1 = false then none
      else
        match initialIndexes_while w1.indexedlog_replicated (bytes.length + 1)
            (initialIndexes_init file.records replica.2.records w1.calls seek_log_file)
            (bytes.drop (fseek seek_log_file)) with
        | none => none
        | some st =>
          some ({ w1 with
            indexedlog := LogFile.db st.dbp
            indexedlog_replica :=
              if w1.indexedlog_replicated then LogFile.db st.dbp_replica else replica.2
            final_log_seek := some (st.seek_log_file % 2 ^ 64).toNat
            final_log_seek_replica :=
              if w1.indexedlog_replicated then some (st.seek_log_file % 2 ^ 64).toNat
              else w1.final_log_seek_replica
            seek_log_file := (st.seek_log_file % 2 ^ 64).toNat
            calls := st.calls ++
              [StorageCall.writeFinalLogSeek (st.seek_log_file % 2 ^ 64).toNat,
               StorageCall.close] }, st.count_records)

/-- Function `initialIndexesSequentialLogToIndexedLog()`: the files and fields when it returns,
and its return value; `none` when it does not return. -/
def initialIndexesSequentialLogToIndexedLog (w : IRSystem) : Option (IRSystem × Nat) :=
  initialIndexes_index (initialIndexes_start w).1 (initialIndexes_start w).2

/-! ## Synchronous indexing -/

/-- Statements `strcpy(dst, line); dst[strlen(dst)-1] = '\0';` of `synchronousIndexing` for a
destination `char dst[50]`: the line without its last byte.  There is no defined result when
the index is outside the array of lines, when the line does not fit the destination, or when
the line is empty (the NUL would be written in front of the array). -/
def synchronousIndexing_field (line : Option Bytes) : Option Bytes :=
  match line with
  | none => none
  | some l => if 50 ≤ l.length then none else if l = [] then none else some l.dropLast

/-- The log record that `synchronousIndexing` builds in `log_record` for a `SET`. -/
def synchronousIndexing_record (key value : Bytes) : Bytes :=
  "*3\n$3\nSET\n$".toList ++ sprintf_d key.length ++ "\n".toList ++ key ++ "\n$".toList ++
    sprintf_d value.length ++ "\n".toList ++ value

/-- Function `strcasecmp(s, "SET") == 0`. -/
def strcasecmp_SET (s : Bytes) : Bool := s.map Char.toLower = "set".toList

/-- The loop `while( k <  countArray)` of `synchronousIndexing` over the lines of the buffer,
from line `k` on; `k` and `argc` are `int`.  Only a command that compares equal to `SET` without
regard to case reaches the indexed log: the values of its key are deleted and the record built
from key and value is stored.  There is no defined result when a line is read outside the array,
when a copy overruns its destination, or when an `int` overflows. -/
def synchronousIndexing_while : Nat → List Bytes → Int → DB → Option DB
  | 0, _, _, _ => none
  | fuel + 1, lines, k, dbp =>
    if k < lines.length then
      if k < 0 then none
      else
        match lines[k.toNat]? with
        | none => none
        | some line =>
          if line.length = 0 then some dbp
          else if 50 ≤ line.length then none
          else
            let argc := atoi line.tail
            match synchronousIndexing_field lines[k.toNat + 2]? with
            | none => none
            | some command =>
              if command.length = 0 then some dbp
              else
                match synchronousIndexing_field lines[k.toNat + 4]? with
                | none => none
                | some key =>
                  let indexed : Option DB :=
                    if strcasecmp_SET command then
                      (synchronousIndexing_field lines[k.toNat + 6]?).map (fun value =>
                        addRecordIndexedLog (delRecordIndexdLog dbp key) key
                          (synchronousIndexing_record key value))
                    else some dbp
                  match indexed with
                  | none => none
                  | some dbp1 =>
                    if 2 * argc < -(2 ^ 31) ∨ 2 ^ 31 ≤ 2 * argc ∨
                        k + 2 * argc + 1 < -(2 ^ 31) ∨ 2 ^ 31 ≤ k + 2 * argc + 1 then none
                    else synchronousIndexing_while fuel lines (k + 2 * argc + 1) dbp1
    else some dbp

/-- Function `synchronousIndexing(buf)`: the indexed log file after the call.  The buffer is
split at every newline; nothing happens unless `server.instant_recovery_state` and
`server.instant_recovery_synchronous` are ON and the indexed log opens. -/
def synchronousIndexing (instant_recovery_state instant_recovery_synchronous : Bool)
    (indexedlog : LogFile) (buf : Bytes) : Option LogFile :=
  if instant_recovery_state = true ∧ instant_recovery_synchronous = true then
    match openIndexedLog indexedlog 'W' with
    | (false, file) => some file
    | (true, file) =>
      (synchronousIndexing_while ((sdssplitlen (cstr buf)).length + 1) (sdssplitlen (cstr buf)) 0
        file.records).map LogFile.db
  else some indexedlog

/-! ## Checkpointer -/

/-- Value of `server.checkpoint_state` at the `i`-th test the checkpoint round makes after its
entry test, when another thread calls `stopCheckpointProcess` right before test number `stop`
(`none`: nobody calls it during the round). -/
def checkpointStateAt (stop : Option Nat) (i : Nat) : Bool :=
  match stop with
  | none => true
  | some n => decide (i < n)

/-- The loops of `checkpointProcess` over the keys, from the `i`-th key on: one
`SETCHECKPOINT key NULL` for each key met while `server.checkpoint_state` is ON. -/
def checkpointProcess_keys (stop : Option Nat) : Nat → List Bytes → List (List Bytes)
  | _, [] => []
  | i, key :: more =>
    if checkpointStateAt stop i then
      ["SETCHECKPOINT".toList, cstr key, "NULL".toList] :: checkpointProcess_keys stop (i + 1) more
    else []

/-- Function `selfTuneCheckpointTimeInterval(time_interval)`: the new value of
`server.checkpoint_time_interval`. -/
def selfTuneCheckpointTimeInterval (selftune_checkpoint_time_interval : Bool)
    (checkpoint_time_interval : Int) (time_interval : Int) : Int :=
  if selftune_checkpoint_time_interval then
    if Int.tdiv time_interval 2 < 60 then 60 else Int.tdiv time_interval 2
  else checkpoint_time_interval

/-- Function `checkpointProcess(idCheckpoint)`.  `stop` tells when another thread turns
`server.checkpoint_state` off during the round, `elapsed` is `endTime - startTime` in
microseconds. -/
def checkpointProcess (idCheckpoint : Int) (stop : Option Nat) (elapsed : Int) (w : IRSystem) :
    IRSystem :=
  if w.checkpoint_state = false then w
  else if w.redis_connects = false then
    { w with checkpoint_state := false, checkpint_performing := false }
  else
    let keys : List Bytes :=
      if w.checkpoints_only_mfu then w.hash_keys_access.map Prod.fst else w.dict.map Prod.fst
    let state_after : Bool := checkpointStateAt stop keys.length
    { w with
      checkpoint_state := state_after
      accessed_tuples_logger_state :=
        if w.checkpoints_only_mfu then true else w.accessed_tuples_logger_state
      hash_keys_access := if w.checkpoints_only_mfu then [] else w.hash_keys_access
      commands := w.commands ++ checkpointProcess_keys stop 0 keys ++
        [["checkpointEnd".toList, sprintf_d idCheckpoint, "NULL".toList]]
      checkpoint_log_seek :=
        if state_after = true ∧ w.checkpoints_only_mfu = false then some w.seek_log_file
        else w.checkpoint_log_seek
      checkpoint_time_interval :=
        selfTuneCheckpointTimeInterval w.selftune_checkpoint_time_interval
          w.checkpoint_time_interval (toInt32 (Int.tdiv elapsed 1000000)) }

/-! ## Startup catch-up on complete frames -/

/-- Header line of a complete frame or bulk string: the marker, the number in decimal, CR LF. -/
def headerLine (marker : Char) (n : Nat) : Bytes :=
  marker :: (Nat.toDigits 10 n ++ ['\r', '\n'])

/-- The loop `for (j = 0; j < argc; j++)` of `initialIndexesSequentialLogToIndexedLog` over the
arguments of a complete frame, from argument `j` on. -/
def initialIndexes_frameArguments (argc : Int) : Nat → InitialVars → List Bytes → InitialVars
  | _, v, [] => v
  | j, v, argsds :: more =>
    let v1 : InitialVars :=
      { v with log_record := v.log_record ++ headerLine '$' argsds.length ++ argsds ++
          (if (j : Int) + 1 < argc then ['\n'] else []) }
    let v2 := if j = 0 then { v1 with command := cstr argsds } else v1
    let v3 := if j = 1 then { v2 with key := cstr argsds } else v2
    initialIndexes_frameArguments argc (j + 1) v3 more

/-- One iteration of the loop `while(1)` of `initialIndexesSequentialLogToIndexedLog` on a
complete frame. -/
def initialIndexes_frame (indexedlog_replicated : Bool) (st : InitialState) (frame : LogFrame) :
    InitialState :=
  initialIndexes_apply indexedlog_replicated
    { st with
      v := initialIndexes_frameArguments frame.length 0
        { st.v with log_record := headerLine '*' frame.length } frame
      seek_log_file := st.seek_log_file + (frameBytes frame).length
      count_records := st.count_records + 1 }

/-- Frames that carry a command: at least one argument. -/
def commandFrames (frames : List LogFrame) : Prop := ∀ f ∈ frames, 1 ≤ f.length

instance commandFrames_decidable (frames : List LogFrame) : Decidable (commandFrames frames) := by
  unfold commandFrames
  infer_instance

/-- A system after a clean start: an empty indexed log that opens, no replica, the offset file
holding 0, an empty sequential log, the checkpointer enabled for full checkpoints. -/
def sampleSystem : IRSystem :=
  { indexedlog := LogFile.db [], indexedlog_replica := LogFile.missing
    final_log_seek := some 0, final_log_seek_replica := none, checkpoint_log_seek := none
    aof := some [], indexedlog_replicated := false, seek_log_file := 0
    indexer_seek_log_file := none, checkpoint_state := true, checkpint_performing := false
    checkpoints_only_mfu := false, accessed_tuples_logger_state := true
    hash_keys_access := [], dict := [], redis_connects := true
    selftune_checkpoint_time_interval := false, checkpoint_time_interval := 60
    commands := [], calls := [] }

/-- Frames of the commands `SET k 1` and `INCR k`. -/
def sampleFrames : List LogFrame := [frameSET "k".toList "1".toList, frameINCR "k".toList]

/-- The sample system with the frames of `SET k 1; INCR k` in the sequential log. -/
def sampleCatchUp : IRSystem := { sampleSystem with aof := some (walBytes sampleFrames) }

/-- A system whose sequential log was removed: the offset file holds 100, the checkpoint offset
file holds 40, the sequential log is empty. -/
def sampleLogRemoved : IRSystem :=
  { sampleSystem with final_log_seek := some 100, checkpoint_log_seek := some 40 }

/-- A system whose indexed log file is missing, without replica: the sequential log holds the
frames of `SET a 1; SET k 1`, the offset file holds 27 (the end of the first frame) and the
checkpoint offset file holds 0. -/
def sampleLogMissing : IRSystem :=
  { sampleSystem with
    indexedlog := LogFile.missing, final_log_seek := some 27, checkpoint_log_seek := some 0
    aof := some (walBytes [frameSET "a".toList "1".toList, frameSET "k".toList "1".toList]) }

/-- Line 3078 of `indexesSequentialLogToIndexedLogV2`, the start of the indexer thread:
`unsigned long long seek_log_file = readFinalLogSeek(FINAL_LOG_SEEK)`. -/
def indexesSequentialLogToIndexedLogV2_seek (final_log_seek : Option Nat) : Nat :=
  (readFinalLogSeek (offsetFile final_log_seek) % 2 ^ 64).toNat

/-! ## Reachable states of the offset files -/

/-- Offset that an offset file stands for: the number it holds, 0 when the file is missing. -/
def storedOffset (file : Option Nat) : Nat := file.getD 0

/-- The ordering of the stored offsets: the checkpoint offset and `server.seek_log_file` are not
beyond the indexed offset, which fits a `long long`, and the position of a running indexer
thread is not in front of the indexed offset. -/
def offsetsOrdered (w : IRSystem) : Prop :=
  storedOffset w.checkpoint_log_seek ≤ storedOffset w.final_log_seek ∧
  w.seek_log_file ≤ storedOffset w.final_log_seek ∧
  storedOffset w.final_log_seek < 2 ^ 63 ∧
  ∀ seek, w.indexer_seek_log_file = some seek →
    storedOffset w.final_log_seek ≤ seek ∧ seek < 2 ^ 63

/-- What the indexer thread of a system works on: the open indexed log, the offset file, and
`server.seek_log_file`; no stop signal. -/
def indexerOf (w : IRSystem) : IndexerState :=
  { dbp := w.indexedlog.records, final_log_seek := w.final_log_seek
    seek_log_file := w.seek_log_file, indexer_state := true, calls := w.calls }

/-- The system after a round of the indexer thread that ended in the given indexer state and
position. -/
def afterRound (w : IRSystem) (s : IndexerState) (seek_log_file : Nat) : IRSystem :=
  { w with
    indexedlog := LogFile.db s.dbp, final_log_seek := s.final_log_seek
    seek_log_file := s.seek_log_file, calls := s.calls
    indexer_seek_log_file := some seek_log_file }

/-- The system after a restart in which startup catch-up ended in the given state: no indexer
thread runs yet. -/
def afterCatchUp (w1 : IRSystem) : IRSystem := { w1 with indexer_seek_log_file := none }

/-- One step of a system whose sequential log is kept (it is shorter than `2 ^ 63` bytes and is
never emptied or removed): the store appends to the sequential log; startup catch-up runs
without replica on a sequential log that is not empty; the indexer thread starts while the
offset file exists; the indexer thread makes a round; the checkpointer makes a round. -/
inductive IRStep : IRSystem → IRSystem → Prop where
  /-- The store appends bytes to the sequential log. -/
  | append (w : IRSystem) (aof more : Bytes) (haof : w.aof = some aof) :
    IRStep w { w with aof := some (aof ++ more) }
  /-- The server restarts and `initialIndexesSequentialLogToIndexedLog` returns. -/
  | catchUp (w w1 : IRSystem) (n : Nat) (aof : Bytes) (haof : w.aof = some aof)
    (hne : aof ≠ []) (hlen : aof.length < 2 ^ 63) (hrep : w.indexedlog_replicated = false)
    (hrun : initialIndexesSequentialLogToIndexedLog w = some (w1, n)) :
    IRStep w (afterCatchUp w1)
  /-- The thread of `indexesSequentialLogToIndexedLogV2` starts: it reads the offset file and
  opens the indexed log. -/
  | indexerStart (w : IRSystem) (x : Nat) (file : LogFile)
    (hseek : w.final_log_seek = some x)
    (hopen : openIndexedLog w.indexedlog 'W' = (true, file)) :
    IRStep w { w with
      indexedlog := file
      indexer_seek_log_file := some (indexesSequentialLogToIndexedLogV2_seek w.final_log_seek) }
  /-- The indexer thread makes one round of its main loop. -/
  | round (w : IRSystem) (mem : Nat → Int × Int) (v v1 : IndexerVars) (seek seek1 : Nat)
    (aof : Bytes) (s1 : IndexerState) (hthread : w.indexer_seek_log_file = some seek)
    (haof : w.aof = some aof) (hlen : aof.length < 2 ^ 63)
    (hrun : indexesSequentialLogToIndexedLogV2 mem (indexerOf w) v seek aof =
      some (s1, v1, seek1)) :
    IRStep w (afterRound w s1 seek1)
  /-- The checkpointer makes one round. -/
  | checkpoint (w : IRSystem) (idCheckpoint : Int) (stop : Option Nat) (elapsed : Int) :
    IRStep w (checkpointProcess idCheckpoint stop elapsed w)

/-- Record of the command `SET k 1` as the indexer reads it when `sdslen` reads 1. -/
def sampleRecord : recordToIndex :=
  { command := SET_COMMAND, key := "k".toList, value := "1".toList
    sdslen_key := 1, sdslen_value := 1 }

/-- An indexer over an empty indexed log that has received the stop signal. -/
def stoppedIndexer : IndexerState := { emptyIndexer with indexer_state := false }

/-- The sample system after catch-up over the frames of `SET k 1; INCR k`. -/
def sampleAfterCatchUp : IRSystem :=
  ((initialIndexesSequentialLogToIndexedLog sampleCatchUp).map Prod.fst).getD sampleSystem

/-! ## Access-counter map and the phases of a checkpoint round -/

instance keySorted_decidable (db : DB) : Decidable (keySorted db) := by
  unfold keySorted
  infer_instance

/-- Function `incrementAccessedTuple(key)` on `hash_keys_access`: `HASH_FIND_STR` looks the key
up as a C string; a hit adds one to the `unsigned long long` counter, a miss adds the entry
`(sdsnew(key), 1)`. -/
def incrementAccessedTuple (hash : List (Bytes × Nat)) (key : Bytes) : List (Bytes × Nat) :=
  if hash.any (fun e => decide (e.1 = cstr key)) then
    hash.map (fun e => if e.1 = cstr key then (e.1, (e.2 + 1) % 2 ^ 64) else e)
  else hash ++ [(cstr key, 1)]

/-- Server state while the key loop of `checkpointProcess` runs (lines 3738-3768): the MFU
branch has set `server.accessed_tuples_logger_state = IR_OFF` (line 3740) before its loop, the
Full branch has changed nothing. -/
def checkpointProcess_scan (w : IRSystem) : IRSystem :=
  if w.checkpoints_only_mfu then { w with accessed_tuples_logger_state := false } else w

/-- The command `SETCHECKPOINT key NULL` as the list of its arguments. -/
def setCheckpointCommand (key : Bytes) : List Bytes :=
  ["SETCHECKPOINT".toList, key, "NULL".toList]

/-- The command `checkpointEnd id NULL` as the list of its arguments. -/
def checkpointEndCommand (idCheckpoint : Int) : List Bytes :=
  ["checkpointEnd".toList, sprintf_d idCheckpoint, "NULL".toList]

/-- A store with the two keys `a` and `b`, the checkpointer enabled, Full checkpoints. -/
def sampleStore : IRSystem :=
  { sampleSystem with
    dict := [("a".toList, "1".toList), ("b".toList, "2".toList)]
    seek_log_file := 54
    checkpoint_state := true
    redis_connects := true
    checkpoints_only_mfu := false }

/-- The store of `sampleStore` with MFU checkpoints and the accesses `b, a, b` logged. -/
def sampleStoreMFU : IRSystem :=
  { sampleStore with
    checkpoints_only_mfu := true
    accessed_tuples_logger_state := true
    hash_keys_access :=
      incrementAccessedTuple (incrementAccessedTuple (incrementAccessedTuple [] "b".toList)
        "a".toList) "b".toList }

/-- The sample system with the frames of `SET k 2147483647; INCR k` in the sequential log. -/
def sampleOverflow : IRSystem :=
  { sampleSystem with
    aof := some (walBytes [frameSET "k".toList "2147483647".toList, frameINCR "k".toList]) }

/-- The indexed log after startup catch-up over `sampleOverflow`. -/
def sampleOverflowLog : DB :=
  (((initialIndexesSequentialLogToIndexedLog sampleOverflow).map Prod.fst).getD
    sampleSystem).indexedlog.records

/-! ## The exits of the two readers of the sequential log -/

/-- Label through which a reader of the sequential log leaves its loop; the code after either
label ends in `exit(1)`. -/
inductive ReadError where
  /-- Label `readerr`: `fgets` returned NULL or `fread` returned 0 inside a record, or the
  header line is a lone `*`. -/
  | readerr
  /-- Label `fmterr`: a header line does not start with its marker, or the argument count is
  less than 1. -/
  | fmterr
deriving DecidableEq

/-- The `goto` taken by the loop `for (j = 0; j < argc; j++)` of either reader with `n`
arguments still to read: `none` when all of them are read. -/
def readBulkStrings_error : Nat → Bytes → Option ReadError
  | 0, _ => none
  | n + 1, fp =>
    match fgets 128 fp with
    | none => some ReadError.readerr
    | some (buf, fp1) =>
      match cstr buf with
      | [] => some ReadError.fmterr
      | c :: t =>
        if c ≠ '$' then some ReadError.fmterr
        else
          match (if (strtol t % 2 ^ 64).toNat = 0 then some ([], fp1)
              else fread (strtol t % 2 ^ 64).toNat fp1) with
          | none => some ReadError.readerr
          | some (_, fp2) =>
            match fread 2 fp2 with
            | none => some ReadError.readerr
            | some (_, fp3) => readBulkStrings_error n fp3

/-- The `goto` taken while one record is read, entered with its header line in `buf`: the
tests of lines 3163-3166 (3408-3411 in startup catch-up) and the loop over the arguments. -/
def readRecord_error (buf fp : Bytes) : Option ReadError :=
  match cstr buf with
  | [] => some ReadError.fmterr
  | c :: t =>
    if c ≠ '*' then some ReadError.fmterr
    else if t = [] then some ReadError.readerr
    else if atoi t < 1 then some ReadError.fmterr
    else readBulkStrings_error (atoi t).toNat fp

/-- The `goto` taken by the inner `do ... while` loop of `indexesSequentialLogToIndexedLogV2`:
`none` when the loop reaches the end of the file. -/
def readRecords_error (mem : Nat → Int × Int) :
    Nat → IndexerVars → List recordToIndex → Bytes → Bytes → Nat → Option ReadError
  | 0, _, _, _, _, _ => none
  | fuel + 1, v, list, buf, fp, seek_log_file =>
    match readRecord buf fp v seek_log_file with
    | none => readRecord_error buf fp
    | some (v1, fp1, seek1) =>
      match addRecordToIndex list v1.command v1.key v1.value (mem list.length) with
      | none => none
      | some list1 =>
        match fgets 128 fp1 with
        | none => none
        | some (buf1, fp2) => readRecords_error mem fuel v1 list1 buf1 fp2 seek1

/-- A round of the main loop of `indexesSequentialLogToIndexedLogV2` that ends in `exit(1)`:
the label taken and the indexer state at that moment, `none` when the round takes no label.
The labels are reached from the reading loop only, which calls neither the indexed log nor
the offset file; `writeToIndexedLog` runs after that loop.  The code at `readerr` sets
`server.indexer_state = IR_OFF` before it exits. -/
def indexesSequentialLogToIndexedLogV2_exit (mem : Nat → Int × Int) (s : IndexerState)
    (v : IndexerVars) (seek_log_file : Nat) (aof : Bytes) : Option (ReadError × IndexerState) :=
  if s.indexer_state = false then none
  else
    match fgets 128 (aof.drop (fseek seek_log_file)) with
    | none => none
    | some (buf, fp) =>
      match readRecords_error mem (aof.length + 1) v [] buf fp seek_log_file with
      | none => none
      | some ReadError.readerr => some (ReadError.readerr, { s with indexer_state := false })
      | some ReadError.fmterr => some (ReadError.fmterr, s)

/-- The loop `while(1)` of `initialIndexesSequentialLogToIndexedLog` when it ends in
`exit(1)`: the label taken and the state at the head of the iteration that takes it (the
indexed log and the storage calls are those of the iterations before), `none` when the loop
takes no label. -/
def initialIndexes_while_exit (indexedlog_replicated : Bool) :
    Nat → InitialState → Bytes → Option (ReadError × InitialState)
  | 0, _, _ => none
  | fuel + 1, st, fp =>
    match fgets 128 fp with
    | none => none
    | some (buf, fp1) =>
      match cstr buf with
      | [] => some (ReadError.fmterr, st)
      | c :: t =>
        if c ≠ '*' then some (ReadError.fmterr, st)
        else if t = [] then some (ReadError.readerr, st)
        else if atoi t < 1 then some (ReadError.fmterr, st)
        else
          match initialIndexes_arguments (atoi t).toNat 0 (atoi t)
              { st.v with log_record := cstr buf } fp1
              (addOffset st.seek_log_file (cstr buf).length) with
          | none => (readBulkStrings_error (atoi t).toNat fp1).map (fun e => (e, st))
          | some (v1, fp2, seek1) =>
            initialIndexes_while_exit indexedlog_replicated fuel
              (initialIndexes_apply indexedlog_replicated
                { st with v := v1, seek_log_file := seek1
                          count_records := st.count_records + 1 }) fp2

/-- Lines 3342-3500 of `initialIndexesSequentialLogToIndexedLog` when the loop ends in
`exit(1)`: the label taken, and the files and fields at that moment.  The indexed log holds
what the loop has applied so far (its handle is not closed before the exit), the offset files
are as they were: `writeFinalLogSeek` is called after the loop only. -/
def initialIndexes_index_exit (w1 : IRSystem) (seek_log_file : Int) :
    Option (ReadError × IRSystem) :=
  let replica : Bool × LogFile :=
    if w1.indexedlog_replicated then openIndexedLog w1.indexedlog_replica 'W'
    else (true, w1.indexedlog_replica)
  match openIndexedLog w1.indexedlog 'W' with
  | (false, _) => none
  | (true, file) =>
    match w1.aof with
    | none => none
    | some bytes =>
      if bytes = [] then none
      else if replica.1 = false then none
      else
        (initialIndexes_while_exit w1.indexedlog_replicated (bytes.length + 1)
            (initialIndexes_init file.records replica.2.records w1.calls seek_log_file)
            (bytes.drop (fseek seek_log_file))).map
          (fun r => (r.1, { w1 with
            indexedlog := LogFile.db r.2.dbp
            indexedlog_replica :=
              if w1.indexedlog_replicated then LogFile.db r.2.dbp_replica else replica.2
            calls := r.2.calls }))

/-- Function `initialIndexesSequentialLogToIndexedLog()` when its loop ends in `exit(1)`. -/
def initialIndexesSequentialLogToIndexedLog_exit (w : IRSystem) : Option (ReadError × IRSystem) :=
  initialIndexes_index_exit (initialIndexes_start w).1 (initialIndexes_start w).2

/-- A malformed frame at the head of the unread bytes: the first byte is not `*`, or the
header line `*n` is followed by fewer than `n` bulk strings and then by a byte that is not
`$`. -/
def malformedFrame (bad : Bytes) : Prop :=
  (∃ c tail, bad = c :: tail ∧ c ≠ '*') ∨
  (∃ (n : Nat) (args : List Bytes) (c : Char) (tail : Bytes),
    bad = headerLine '*' n ++ bulkStrings args ++ c :: tail ∧
    args.length < n ∧ n < 2 ^ 31 ∧ (∀ a ∈ args, a.length < 2 ^ 63) ∧ c ≠ '$')

/-- A sequential log that ends in the middle of a frame: the complete frame of `SET k 1`
(27 bytes) followed by the first 18 bytes of the frame of `SET k 2`, which stop after the
key. -/
def samplePartialLog : Bytes :=
  walBytes [frameSET "k".toList "1".toList] ++ "*3\r\n$3\r\nSET\r\n$1\r\nk".toList

/-- A sequential log with a malformed frame: the complete frame of `SET a 1` followed by
the text `+OK` and the complete frame of `SET b 2`. -/
def sampleMalformedLog : Bytes :=
  walBytes [frameSET "a".toList "1".toList] ++
    ("+OK\r\n".toList ++ walBytes [frameSET "b".toList "2".toList])

/-! ## A batch applied twice -/

/-- The text that startup catch-up stores for a complete frame: `log_record` after the loop
over the arguments, up to its first NUL. -/
def initialIndexes_record (frame : LogFrame) : Bytes :=
  cstr (initialIndexes_frameArguments frame.length 0
    { log_record := headerLine '*' frame.length, key := [], command := [] } frame).log_record

/-- A frame of `SET key value` or of `DEL key` whose key and value are plain text (no
newline, no NUL byte, shorter than 50 bytes). -/
def setOrDelFrame (f : LogFrame) : Prop :=
  (∃ K V, f = frameSET K V ∧ plainText K ∧ plainText V) ∨ (∃ K, f = frameDEL K ∧ plainText K)

/-- Two chains of a key that the restorers cannot tell apart: the replay gives the same
value, both are empty or none is, both end or none ends in a frame that is redone, and the
second is not longer than the first. -/
def sameRestore (x y : List Bytes) : Prop :=
  replayChain x = replayChain y ∧ (x = [] ↔ y = []) ∧ lastIsRedo x = lastIsRedo y ∧
    y.length ≤ x.length

/-- The files found at a restart when the process died in `writeToIndexedLog` between the
loop that applies the batch and the call of `writeFinalLogSeek`: the indexed log holds the
batch that the round starting at `seek_log_file` has read, the offset file is the one of the
start of the round, no indexer thread runs.  `none` when the round ends in `exit(1)`. -/
def drainWithoutOffsetWrite (mem : Nat → Int × Int) (w : IRSystem) (v : IndexerVars)
    (seek_log_file : Nat) : Option IRSystem :=
  (w.aof.bind (indexesSequentialLogToIndexedLogV2 mem (indexerOf w) v seek_log_file)).map
    (fun r => { w with indexedlog := LogFile.db r.1.dbp, indexer_seek_log_file := none })

/-- The sample system with the frames of `SET k 5; INCR k` in the sequential log, the
indexed log empty and the offset file holding 0. -/
def sampleCrash : IRSystem :=
  { sampleSystem with
    aof := some (walBytes [frameSET "k".toList "5".toList, frameINCR "k".toList]) }

/-- The sample system with the frames of `SET k 1; DEL a; SET k 2` in the sequential log
and a record of key `a` in the indexed log. -/
def sampleBatch : IRSystem :=
  { sampleSystem with
    indexedlog := LogFile.db [("a".toList, "*3\n$3\nSET\n$1\na\n$1\n7".toList)]
    aof := some ([] ++ walBytes [frameSET "k".toList "1".toList, frameDEL "a".toList,
      frameSET "k".toList "2".toList]) }

set_option maxRecDepth 100000

/-! ## Indexed log: chains under put and delete -/

theorem chainOf_cons (r : DBRecord) (db : DB) (k : Bytes) :
    chainOf (r :: db) k = if r.1 = k then r.2 :: chainOf db k else chainOf db k := by
  unfold chainOf
  by_cases h : r.1 = k <;> simp [List.filter_cons, h]

theorem chainOf_append (a b : DB) (k : Bytes) :
    chainOf (a ++ b) k = chainOf a k ++ chainOf b k := by
  simp [chainOf]

theorem chainOf_eq_nil_iff (db : DB) (k : Bytes) :
    chainOf db k = [] ↔ ∀ r ∈ db, r.1 ≠ k := by
  simp [chainOf, List.filter_eq_nil_iff]

theorem mem_dbPut (k d : Bytes) (db : DB) (x : DBRecord) :
    x ∈ dbPut k d db ↔ x = (k, d) ∨ x ∈ db := by
  induction db with
  | nil => simp [dbPut]
  | cons r rest ih =>
    unfold dbPut
    by_cases h : r.1 ≤ k
    · simp only [h, if_true, List.mem_cons, ih]
      tauto
    · simp only [h, if_false, List.mem_cons]

theorem keySorted_nil : keySorted [] := List.Pairwise.nil

theorem keySorted_dbPut (k d : Bytes) (db : DB) (h : keySorted db) :
    keySorted (dbPut k d db) := by
  induction db with
  | nil => simp [dbPut, keySorted]
  | cons r rest ih =>
    unfold keySorted at h ⊢
    rw [List.pairwise_cons] at h
    unfold dbPut
    by_cases hle : r.1 ≤ k
    · simp only [hle, if_true]
      rw [List.pairwise_cons]
      refine ⟨?_, ih h.2⟩
      intro x hx
      rcases (mem_dbPut k d rest x).1 hx with hx | hx
      · rw [hx]; exact hle
      · exact h.1 x hx
    · simp only [hle, if_false]
      have hlt : k ≤ r.1 := le_of_lt (lt_of_not_le hle)
      rw [List.pairwise_cons, List.pairwise_cons]
      refine ⟨?_, h.1, h.2⟩
      intro x hx
      rcases List.mem_cons.1 hx with hx | hx
      · rw [hx]; exact hlt
      · exact le_trans hlt (h.1 x hx)

theorem chainOf_dbPut (k d : Bytes) (db : DB) (h : keySorted db) (k' : Bytes) :
    chainOf (dbPut k d db) k' = if k' = k then chainOf db k ++ [d] else chainOf db k' := by
  induction db with
  | nil =>
    by_cases hk : k' = k
    · simp [dbPut, chainOf, hk]
    · have hk2 : ¬ k = k' := fun e => hk e.symm
      simp [dbPut, chainOf, hk, hk2]
  | cons r rest ih =>
    unfold keySorted at h
    rw [List.pairwise_cons] at h
    unfold dbPut
    by_cases hle : r.1 ≤ k
    · simp only [hle, if_true]
      rw [chainOf_cons, ih h.2]
      by_cases hk : k' = k
      · subst hk
        simp only [if_true]
        rw [chainOf_cons]
        by_cases hr : r.1 = k' <;> simp [hr]
      · simp only [hk, if_false]
        rw [chainOf_cons]
    · simp only [hle, if_false]
      have hlt : k < r.1 := lt_of_not_le hle
      have hnil : chainOf (r :: rest) k = [] := by
        rw [chainOf_eq_nil_iff]
        intro x hx
        rcases List.mem_cons.1 hx with hx | hx
        · rw [hx]; exact ne_of_gt hlt
        · exact ne_of_gt (lt_of_lt_of_le hlt (h.1 x hx))
      rw [chainOf_cons]
      by_cases hk : k' = k
      · subst hk
        simp [hnil]
      · have hk2 : ¬ k = k' := fun e => hk e.symm
        simp [hk, hk2]

theorem keySorted_dbDel (k : Bytes) (db : DB) (h : keySorted db) : keySorted (dbDel k db) := by
  unfold keySorted dbDel at *
  exact List.Pairwise.filter _ h

theorem chainOf_dbDel (k : Bytes) (db : DB) (k' : Bytes) :
    chainOf (dbDel k db) k' = if k' = k then [] else chainOf db k' := by
  induction db with
  | nil => simp [dbDel, chainOf]
  | cons r rest ih =>
    unfold dbDel at ih ⊢
    by_cases hr : r.1 = k
    · have : (r.1 != k) = false := by simp [hr]
      rw [List.filter_cons_of_neg (by simp [hr]), ih, chainOf_cons]
      by_cases hk : k' = k
      · simp [hk]
      · have : ¬ r.1 = k' := by rw [hr]; exact fun e => hk e.symm
        simp [hk, this]
    · rw [List.filter_cons_of_pos (by simp [hr]), chainOf_cons, ih, chainOf_cons]
      by_cases hk : k' = k
      · subst hk
        simp [hr]
      · simp [hk]

/-! ## Contiguous keys -/

theorem grouped_cons (r : DBRecord) (rest : DB) :
    grouped (r :: rest) = true ↔
      (∀ x ∈ rest.dropWhile (fun x => x.1 == r.1), x.1 ≠ r.1) ∧ grouped rest = true := by
  simp [grouped, List.all_eq_true]

theorem grouped_tail (r : DBRecord) (rest : DB) (h : grouped (r :: rest) = true) :
    grouped rest = true := ((grouped_cons r rest).1 h).2

theorem grouped_dropWhile (p : DBRecord → Bool) (db : DB) (h : grouped db = true) :
    grouped (db.dropWhile p) = true := by
  induction db with
  | nil => simpa using h
  | cons r rest ih =>
    rw [List.dropWhile_cons]
    by_cases hp : p r = true
    · simp only [hp, if_true]
      exact ih (grouped_tail r rest h)
    · simp only [hp]
      exact h

theorem grouped_of_keySorted (db : DB) (h : keySorted db) : grouped db = true := by
  induction db with
  | nil => rfl
  | cons r rest ih =>
    unfold keySorted at h
    rw [List.pairwise_cons] at h
    rw [grouped_cons]
    refine ⟨?_, ih h.2⟩
    have hrest := h.2
    have hhead := h.1
    clear ih h
    induction rest with
    | nil => simp
    | cons y ys ih2 =>
      rw [List.pairwise_cons] at hrest
      rw [List.dropWhile_cons]
      by_cases hy : y.1 = r.1
      · simp only [hy, beq_self_eq_true, if_true]
        exact ih2 hrest.2 (fun x hx => hhead x (List.mem_cons_of_mem _ hx))
      · have : (y.1 == r.1) = false := by simp [hy]
        simp only [this]
        intro x hx
        have hlt : r.1 < y.1 := lt_of_le_of_ne (hhead y (List.mem_cons_self _ _)) (fun e => hy e.symm)
        rcases List.mem_cons.1 hx with hx | hx
        · rw [hx]; exact hy
        · exact ne_of_gt (lt_of_lt_of_le hlt (hrest.1 x hx))

/-! ## C library facts -/

theorem toUpper_toUpper (c : Char) : c.toUpper.toUpper = c.toUpper := by
  by_cases h : c.toNat ≥ 97 ∧ c.toNat ≤ 122
  · have hc : c = Char.ofNat c.toNat := (Char.ofNat_toNat c).symm
    obtain ⟨h1, h2⟩ := h
    generalize c.toNat = n at hc h1 h2
    subst hc
    interval_cases n <;> rfl
  · have : c.toUpper = c := by
      unfold Char.toUpper
      simp only [h, if_false]
    rw [this, this]

theorem sdstoupper_sdstoupper (s : Bytes) : sdstoupper (sdstoupper s) = sdstoupper s := by
  unfold sdstoupper
  rw [List.map_map]
  apply List.map_congr_left
  intro c _
  exact toUpper_toUpper c

theorem digitChar_ne_newline (n : Nat) (h : n < 10) : Nat.digitChar n ≠ '\n' := by
  interval_cases n <;> decide

theorem toDigitsCore_no_newline (fuel n : Nat) (ds : List Char) (h : '\n' ∉ ds) :
    '\n' ∉ Nat.toDigitsCore 10 fuel n ds := by
  induction fuel generalizing n ds with
  | zero => simpa [Nat.toDigitsCore] using h
  | succ fuel ih =>
    unfold Nat.toDigitsCore
    have hd : '\n' ∉ Nat.digitChar (n % 10) :: ds := by
      intro hmem
      rcases List.mem_cons.1 hmem with e | e
      · exact digitChar_ne_newline _ (Nat.mod_lt _ (by decide)) e.symm
      · exact h e
    by_cases h0 : n / 10 = 0
    · simp only [h0, if_true]
      exact hd
    · simp only [h0, if_false]
      exact ih _ _ hd

theorem sprintf_d_no_newline (n : Int) : '\n' ∉ sprintf_d n := by
  unfold sprintf_d Nat.toDigits
  by_cases h : n < 0
  · simp only [h, if_true]
    intro hmem
    rcases List.mem_cons.1 hmem with e | e
    · exact absurd e (by decide)
    · exact toDigitsCore_no_newline _ _ [] (by simp) e
  · simp only [h, if_false]
    exact toDigitsCore_no_newline _ _ [] (by simp)

theorem splitNewline_ne_nil (s : Bytes) : splitNewline s ≠ [] := by
  cases s with
  | nil => simp [splitNewline]
  | cons c cs =>
    unfold splitNewline
    by_cases h : c = '\n'
    · simp [h]
    · simp only [h, if_false]
      split <;> simp

theorem splitNewline_append (a b : Bytes) :
    splitNewline (a ++ '\n' :: b) = splitNewline a ++ splitNewline b := by
  induction a with
  | nil => simp [splitNewline]
  | cons c cs ih =>
    rw [List.cons_append]
    by_cases h : c = '\n'
    · simp [splitNewline, h, ih]
    · rw [splitNewline, splitNewline]
      simp only [h, if_false]
      rw [ih]
      have hne := splitNewline_ne_nil cs
      cases hs : splitNewline cs with
      | nil => exact absurd hs hne
      | cons t ts => simp

theorem splitNewline_plain (a : Bytes) (h : '\n' ∉ a) : splitNewline a = [a] := by
  induction a with
  | nil => rfl
  | cons c cs ih =>
    have hc : c ≠ '\n' := fun e => h (by simp [e])
    have hcs : '\n' ∉ cs := fun e => h (List.mem_cons_of_mem _ e)
    rw [splitNewline]
    simp [hc, ih hcs]

theorem splitNewline_line (a b : Bytes) (h : '\n' ∉ a) :
    splitNewline (a ++ '\n' :: b) = a :: splitNewline b := by
  rw [splitNewline_append, splitNewline_plain a h]
  rfl

/-! ## Frames written by the indexer -/

theorem aux_shape (ri : recordToIndex) :
    writeToIndexedLog_aux ri =
      "*3".toList ++ '\n' :: ("$3".toList ++ '\n' :: ("SET".toList ++ '\n' ::
        (('$' :: sprintf_d ri.sdslen_key) ++ '\n' :: (ri.key ++ '\n' ::
          (('$' :: sprintf_d ri.sdslen_value) ++ '\n' :: ri.value))))) := by
  simp [writeToIndexedLog_aux]

theorem sdssplitlen_aux (ri : recordToIndex) :
    sdssplitlen (writeToIndexedLog_aux ri) =
      "*3".toList :: "$3".toList :: "SET".toList ::
        (splitNewline ('$' :: sprintf_d ri.sdslen_key) ++ (splitNewline ri.key ++
          (splitNewline ('$' :: sprintf_d ri.sdslen_value) ++ splitNewline ri.value))) := by
  have h : sdssplitlen (writeToIndexedLog_aux ri) = splitNewline (writeToIndexedLog_aux ri) := by
    rw [aux_shape]; rfl
  rw [h, aux_shape, splitNewline_line _ _ (by decide), splitNewline_line _ _ (by decide),
    splitNewline_line _ _ (by decide), splitNewline_append, splitNewline_append,
    splitNewline_append]

theorem frameCommand_aux (ri : recordToIndex) :
    frameCommand (writeToIndexedLog_aux ri) = some "SET".toList := by
  unfold frameCommand
  rw [sdssplitlen_aux]
  simp only [List.getElem?_cons_succ, List.getElem?_cons_zero, Option.map_some']
  rfl

theorem length_pos_of_ne_nil {α : Type} (l : List α) (h : l ≠ []) : 1 ≤ l.length := by
  cases l with
  | nil => exact absurd rfl h
  | cons a t => simp

theorem frameValue_aux_isSome (ri : recordToIndex) :
    (frameValue (writeToIndexedLog_aux ri)).isSome = true := by
  unfold frameValue
  rw [sdssplitlen_aux]
  have h1 := length_pos_of_ne_nil _ (splitNewline_ne_nil ('$' :: sprintf_d ri.sdslen_key))
  have h2 := length_pos_of_ne_nil _ (splitNewline_ne_nil ri.key)
  have h3 := length_pos_of_ne_nil _ (splitNewline_ne_nil ('$' :: sprintf_d ri.sdslen_value))
  have h4 := length_pos_of_ne_nil _ (splitNewline_ne_nil ri.value)
  rw [Option.isSome_iff_exists]
  have hlen : 6 < ("*3".toList :: "$3".toList :: "SET".toList ::
        (splitNewline ('$' :: sprintf_d ri.sdslen_key) ++ (splitNewline ri.key ++
          (splitNewline ('$' :: sprintf_d ri.sdslen_value) ++ splitNewline ri.value)))).length := by
    simp only [List.length_cons, List.length_append]
    omega
  exact ⟨_, List.getElem?_eq_getElem hlen⟩

theorem isSetFrame_aux (ri : recordToIndex) : isSetFrame (writeToIndexedLog_aux ri) = true := by
  unfold isSetFrame
  rw [frameCommand_aux, frameValue_aux_isSome]
  rfl

theorem dollar_no_newline (n : Int) : '\n' ∉ '$' :: sprintf_d n := by
  intro h
  rcases List.mem_cons.1 h with e | e
  · exact absurd e (by decide)
  · exact sprintf_d_no_newline n e

theorem frameValue_aux (ri : recordToIndex) (hk : '\n' ∉ ri.key) (hv : '\n' ∉ ri.value) :
    frameValue (writeToIndexedLog_aux ri) = some ri.value := by
  unfold frameValue
  rw [sdssplitlen_aux, splitNewline_plain _ (dollar_no_newline _), splitNewline_plain _ hk,
    splitNewline_plain _ (dollar_no_newline _), splitNewline_plain _ hv]
  rfl

/-! ## One record in the restorers -/

theorem frameReadable_of_redo (d : Bytes) (h : (isSetFrame d || isIncrFrame d) = true) :
    frameReadable d = true := by
  unfold frameReadable
  unfold isSetFrame isIncrFrame at h
  cases hc : frameCommand d with
  | none => simp [hc] at h
  | some c =>
    simp only [hc] at h ⊢
    by_cases hs : c = "SET".toList
    · subst hs
      simp at h
      simp [h]
    · have hs2 : (c != "SET".toList) = true := by simpa using hs
      rw [hs2]
      rfl

theorem loadRecord_redo_eq (valueIR d : Bytes) (h : frameReadable d = true) :
    loadRecord_redo valueIR d = some (replayRule valueIR d) := by
  unfold frameReadable at h
  unfold loadRecord_redo replayRule
  unfold frameCommand at h ⊢
  unfold frameValue at h ⊢
  cases h2 : (sdssplitlen d)[2]? with
  | none => simp [h2] at h
  | some line2 =>
    simp only [h2, Option.map_some'] at h ⊢
    by_cases hs : sdstoupper line2 = "SET".toList
    · simp only [hs, if_true]
      cases h6 : (sdssplitlen d)[6]? with
      | none => simp [hs, h6] at h
      | some line6 => simp
    · have hs2 : ¬ (some (sdstoupper line2) = some "SET".toList) := fun e => hs (Option.some.inj e)
      simp only [hs, hs2, if_false]
      by_cases hi : sdstoupper line2 = "INCR".toList
      · have hi2 : some (sdstoupper line2) = some "INCR".toList := by rw [hi]
        simp only [hi, hi2, if_true]
      · have hi2 : ¬ (some (sdstoupper line2) = some "INCR".toList) :=
          fun e => hi (Option.some.inj e)
        simp only [hi, hi2, if_false]

theorem loadDB_redo_eq (v : IRVars) (d : Bytes) (h : frameReadable d = true) :
    ∃ v1, loadDB_redo v d = some v1 ∧ v1.valueIR = replayRule v.valueIR d ∧
      v1.current_key = v.current_key ∧ v1.old_key = v.old_key ∧
      v1.count_tuples_loaded = v.count_tuples_loaded ∧
      v1.count_inconsistent_load = v.count_inconsistent_load ∧
      ((isSetFrame d || isIncrFrame d) = true →
        v1.commandIR = "SET".toList ∧ v1.keyIR = v.current_key) ∧
      ((isSetFrame d || isIncrFrame d) = false → sdstoupper v1.commandIR ≠ "SET".toList) := by
  unfold frameReadable at h
  unfold loadDB_redo replayRule isSetFrame isIncrFrame
  unfold frameCommand at h ⊢
  unfold frameValue at h ⊢
  cases h2 : (sdssplitlen d)[2]? with
  | none => simp [h2] at h
  | some line2 =>
    simp only [h2, Option.map_some'] at h ⊢
    by_cases hs : sdstoupper line2 = "SET".toList
    · cases h6 : (sdssplitlen d)[6]? with
      | none => simp [hs, h6] at h
      | some line6 =>
        simp only [hs, if_true]
        exact ⟨_, rfl, by simp, rfl, rfl, rfl, rfl, fun _ => ⟨rfl, rfl⟩, fun hc => by simp at hc⟩
    · have hs2 : ¬ (some (sdstoupper line2) = some "SET".toList) := fun e => hs (Option.some.inj e)
      simp only [hs, hs2, if_false]
      by_cases hi : sdstoupper line2 = "INCR".toList
      · simp only [hi, if_true]
        exact ⟨_, rfl, rfl, rfl, rfl, rfl, rfl, fun _ => ⟨rfl, rfl⟩, fun hc => by simp at hc⟩
      · have hi2 : ¬ (some (sdstoupper line2) = some "INCR".toList) :=
          fun e => hi (Option.some.inj e)
        simp only [hi, hi2, if_false]
        refine ⟨_, rfl, rfl, rfl, rfl, rfl, rfl, fun hc => ?_, fun _ => ?_⟩
        · exfalso
          have hb1 : (some (sdstoupper line2) == some "SET".toList) = false := by
            simpa using hs
          have hb2 : (some (sdstoupper line2) == some "INCR".toList) = false := by
            simpa using hi
          rw [hb1, hb2] at hc
          simp at hc
        · simp only [sdstoupper_sdstoupper]
          exact hs

/-! ## Chains seen from a cursor -/

theorem chainOf_dropWhile (p : DBRecord → Bool) (db : DB) (k : Bytes)
    (hp : ∀ x ∈ db, p x = true → x.1 ≠ k) : chainOf (db.dropWhile p) k = chainOf db k := by
  induction db with
  | nil => rfl
  | cons r rest ih =>
    rw [List.dropWhile_cons]
    by_cases h : p r = true
    · simp only [h, if_true]
      rw [ih (fun x hx => hp x (List.mem_cons_of_mem _ hx)), chainOf_cons]
      simp [hp r (List.mem_cons_self _ _) h]
    · simp only [h]
      rfl

theorem chainOf_takeWhile_self (db : DB) (k : Bytes) :
    chainOf (db.takeWhile (fun x => x.1 == k)) k =
      (db.takeWhile (fun x => x.1 == k)).map Prod.snd := by
  unfold chainOf
  congr 1
  rw [List.filter_eq_self]
  intro x hx
  exact List.mem_takeWhile_imp (p := fun x : DBRecord => x.1 == k) hx

theorem chainOf_run (r : DBRecord) (rest : DB) (h : grouped (r :: rest) = true) :
    chainOf (r :: rest) r.1 = r.2 :: (rest.takeWhile (fun x => x.1 == r.1)).map Prod.snd := by
  rw [chainOf_cons]
  simp only [if_true]
  congr 1
  conv_lhs => rw [← List.takeWhile_append_dropWhile (fun x => x.1 == r.1) rest]
  rw [chainOf_append, chainOf_takeWhile_self]
  have hnil : chainOf (rest.dropWhile (fun x => x.1 == r.1)) r.1 = [] := by
    rw [chainOf_eq_nil_iff]
    exact ((grouped_cons r rest).1 h).1
  rw [hnil, List.append_nil]

theorem chainOf_after_run (r : DBRecord) (rest : DB) (k : Bytes) (hk : k ≠ r.1) :
    chainOf (rest.dropWhile (fun x => x.1 == r.1)) k = chainOf (r :: rest) k := by
  rw [chainOf_cons]
  have : ¬ r.1 = k := fun e => hk e.symm
  simp only [this, if_false]
  apply chainOf_dropWhile
  intro x _ hx
  have : x.1 = r.1 := by simpa using hx
  rw [this]
  exact fun e => hk e.symm

theorem DB_FIRST_eq_none (db : DB) : DB_FIRST db = none ↔ db = [] := by
  cases db <;> simp [DB_FIRST]

theorem DB_FIRST_eq_some (db : DB) (c : DBC) :
    DB_FIRST db = some c ↔ db = (c.key, c.data) :: c.rest := by
  cases db with
  | nil => simp [DB_FIRST]
  | cons r rest =>
    obtain ⟨k, d, t⟩ := c
    obtain ⟨rk, rd⟩ := r
    simp [DB_FIRST]
    tauto

theorem DB_SET_none (db : DB) (k : Bytes) : DB_SET db k = none ↔ chainOf db k = [] := by
  unfold DB_SET
  rw [DB_FIRST_eq_none, chainOf_eq_nil_iff, List.dropWhile_eq_nil_iff]
  simp

theorem DB_SET_some (db : DB) (k : Bytes) (c : DBC) (h : DB_SET db k = some c) :
    c.key = k ∧ c.rest.length < db.length ∧
      (grouped db = true →
        chainOf db k = c.data :: (c.rest.takeWhile (fun x => x.1 == c.key)).map Prod.snd) := by
  unfold DB_SET at h
  rw [DB_FIRST_eq_some] at h
  have hhead : ((c.key, c.data) : DBRecord) ∈ db.dropWhile (fun x => x.1 != k) := by
    rw [h]; exact List.mem_cons_self _ _
  have hkey : c.key = k := by
    have h0 := List.head_dropWhile_not (fun x : DBRecord => x.1 != k) db
      (by rw [h]; exact List.cons_ne_nil _ _)
    simp only [h, List.head_cons] at h0
    simpa using h0
  refine ⟨hkey, ?_, ?_⟩
  · have hl := congrArg List.length h
    have hle : (db.dropWhile (fun x => x.1 != k)).length ≤ db.length :=
      (List.dropWhile_sublist _).length_le
    simp only [List.length_cons] at hl
    omega
  · intro hg
    have hg2 := grouped_dropWhile (fun x => x.1 != k) db hg
    rw [h] at hg2
    have h1 := chainOf_run (c.key, c.data) c.rest hg2
    have h2 : chainOf (db.dropWhile (fun x => x.1 != k)) k = chainOf db k := by
      apply chainOf_dropWhile
      intro x _ hx
      simpa using hx
    rw [← h2, h, ← hkey]
    exact h1

/-! ## On-demand restorer: the scan of one chain -/

theorem loadRecord_scan_eq (fuel : Nat) (valueIR : Bytes) (c : DBC) (hfuel : c.rest.length < fuel)
    (hread : ∀ d ∈ c.data :: (c.rest.takeWhile (fun x => x.1 == c.key)).map Prod.snd,
      frameReadable d = true) :
    loadRecord_scan fuel valueIR c =
      some (List.foldl replayRule valueIR
        (c.data :: (c.rest.takeWhile (fun x => x.1 == c.key)).map Prod.snd)) := by
  induction fuel generalizing valueIR c with
  | zero => omega
  | succ fuel ih =>
    obtain ⟨key, data, rest⟩ := c
    unfold loadRecord_scan
    rw [loadRecord_redo_eq valueIR data (hread data (List.mem_cons_self _ _))]
    simp only [List.foldl_cons]
    cases rest with
    | nil => simp [DB_NEXT_DUP]
    | cons r rest1 =>
      by_cases hr : r.1 = key
      · have hb : (r.1 == key) = true := by simpa using hr
        simp only [DB_NEXT_DUP, hr, if_true]
        simp only [List.length_cons] at hfuel
        have hread1 : ∀ d ∈ r.2 :: (rest1.takeWhile (fun x => x.1 == key)).map Prod.snd,
            frameReadable d = true := by
          intro d hd
          apply hread d
          simp only [List.takeWhile_cons, hb, if_true, List.map_cons]
          exact List.mem_cons_of_mem _ hd
        have := ih (replayRule valueIR data) ⟨key, r.2, rest1⟩ (by simpa using (by omega)) hread1
        simp only at this
        rw [this]
        simp only [List.takeWhile_cons, hb, if_true, List.map_cons, List.foldl_cons]
      · have hb : (r.1 == key) = false := by simpa using hr
        simp [DB_NEXT_DUP, hr, List.takeWhile_cons, hb]

/-! ## Incremental restorer: the three loops -/

theorem dropWhile_dropWhile_of_imp {α : Type} (p q : α → Bool) (l : List α)
    (h : ∀ x ∈ l, q x = true → p x = true) :
    (l.dropWhile q).dropWhile p = l.dropWhile p := by
  induction l with
  | nil => rfl
  | cons a t ih =>
    by_cases hq : q a = true
    · have hp := h a (List.mem_cons_self _ _) hq
      simp only [List.dropWhile_cons, hq, hp, if_true]
      exact ih (fun x hx => h x (List.mem_cons_of_mem _ hx))
    · rw [List.dropWhile_cons_of_neg hq]

theorem DB_FIRST_cons (r : DBRecord) (rest : DB) :
    DB_FIRST (r :: rest) = some ⟨r.1, r.2, rest⟩ := rfl

theorem cursorList_DB_FIRST (l : DB) : cursorList (DB_FIRST l) = l := by
  cases l <;> rfl

theorem loadDB_skip_eq (R : List Bytes) (fuel : Nat) (v : IRVars) (c : DBC)
    (hfuel : c.rest.length < fuel) (hkey : v.current_key = c.key) :
    ∃ ck, loadDB_skip R fuel v c =
        some ({ v with current_key := ck },
          DB_FIRST (((c.key, c.data) :: c.rest).dropWhile (fun x => isRestoredTuple R x.1))) ∧
      ∀ c1, DB_FIRST (((c.key, c.data) :: c.rest).dropWhile (fun x => isRestoredTuple R x.1))
        = some c1 → ck = c1.key := by
  induction fuel generalizing v c with
  | zero => omega
  | succ fuel ih =>
    obtain ⟨key, data, rest⟩ := c
    simp only at hkey hfuel ⊢
    unfold loadDB_skip
    by_cases hR : isRestoredTuple R key = true
    · simp only [hkey, hR, if_true, List.dropWhile_cons]
      cases hN : DB_NEXT_NODUP ⟨key, data, rest⟩ with
      | none =>
        refine ⟨v.current_key, ?_, ?_⟩
        · simp only
          have hnil : rest.dropWhile (fun x => x.1 == key) = [] := by
            unfold DB_NEXT_NODUP at hN
            exact (DB_FIRST_eq_none _).1 hN
          have hnil2 : rest.dropWhile (fun x => isRestoredTuple R x.1) = [] := by
            rw [List.dropWhile_eq_nil_iff] at hnil ⊢
            intro x hx
            have := hnil x hx
            have hxk : x.1 = key := by simpa using this
            rw [hxk]; exact hR
          rw [hnil2]
          rfl
        · intro c1 hc1
          have hnil : rest.dropWhile (fun x => x.1 == key) = [] := by
            unfold DB_NEXT_NODUP at hN
            exact (DB_FIRST_eq_none _).1 hN
          have hnil2 : rest.dropWhile (fun x => isRestoredTuple R x.1) = [] := by
            rw [List.dropWhile_eq_nil_iff] at hnil ⊢
            intro x hx
            have := hnil x hx
            have hxk : x.1 = key := by simpa using this
            rw [hxk]; exact hR
          rw [hnil2] at hc1
          simp [DB_FIRST] at hc1
      | some c1 =>
        simp only
        have hlist : rest.dropWhile (fun x => x.1 == key) = (c1.key, c1.data) :: c1.rest := by
          unfold DB_NEXT_NODUP at hN
          exact (DB_FIRST_eq_some _ _).1 hN
        have hlen : c1.rest.length < fuel := by
          have h1 := congrArg List.length hlist
          have h2 : (rest.dropWhile (fun x => x.1 == key)).length ≤ rest.length :=
            (List.dropWhile_sublist _).length_le
          simp only [List.length_cons] at h1
          omega
        obtain ⟨ck, h1, h2⟩ := ih { v with current_key := c1.key } c1 hlen rfl
        have hdd : ((c1.key, c1.data) :: c1.rest).dropWhile (fun x => isRestoredTuple R x.1) =
            rest.dropWhile (fun x => isRestoredTuple R x.1) := by
          rw [← hlist]
          apply dropWhile_dropWhile_of_imp
          intro x _ hx
          have hxk : x.1 = key := by simpa using hx
          simp only [hxk]
          exact hR
        rw [hdd] at h1 h2
        exact ⟨ck, h1, h2⟩
    · have hR2 : isRestoredTuple R key = false := by simpa using hR
      simp only [hkey, hR2, List.dropWhile_cons]
      refine ⟨key, ?_, ?_⟩
      · simp only [Bool.false_eq_true, if_false]
        rw [← hkey]
        rfl
      · intro c1 hc1
        simp only [Bool.false_eq_true, if_false, DB_FIRST] at hc1
        have := Option.some.inj hc1
        rw [← this]

theorem lastIsRedo_cons_cons (a b : Bytes) (l : List Bytes) :
    lastIsRedo (a :: b :: l) = lastIsRedo (b :: l) := by
  unfold lastIsRedo
  rw [List.getLast?_cons_cons]

theorem lastIsRedo_single (a : Bytes) : lastIsRedo [a] = (isSetFrame a || isIncrFrame a) := rfl

theorem loadDB_collect_eq (fuel : Nat) (v : IRVars) (c : DBC)
    (hfuel : c.rest.length + 2 ≤ fuel) (hcur : v.current_key = v.old_key)
    (hkey : c.key = v.old_key)
    (hread : ∀ d ∈ c.data :: (c.rest.takeWhile (fun x => x.1 == c.key)).map Prod.snd,
      frameReadable d = true) :
    ∃ v1, loadDB_collect fuel v c =
        some (v1, DB_FIRST (c.rest.dropWhile (fun x => x.1 == c.key))) ∧
      v1.valueIR = List.foldl replayRule v.valueIR
        (c.data :: (c.rest.takeWhile (fun x => x.1 == c.key)).map Prod.snd) ∧
      v1.count_tuples_loaded = v.count_tuples_loaded ∧
      v1.count_inconsistent_load = v.count_inconsistent_load ∧
      (lastIsRedo (c.data :: (c.rest.takeWhile (fun x => x.1 == c.key)).map Prod.snd) = true →
        v1.commandIR = "SET".toList ∧ v1.keyIR = v.old_key) ∧
      (lastIsRedo (c.data :: (c.rest.takeWhile (fun x => x.1 == c.key)).map Prod.snd) = false →
        sdstoupper v1.commandIR ≠ "SET".toList) ∧
      (∀ c1, DB_FIRST (c.rest.dropWhile (fun x => x.1 == c.key)) = some c1 →
        v1.current_key = c1.key) := by
  induction fuel generalizing v c with
  | zero => omega
  | succ fuel ih =>
    obtain ⟨key, data, rest⟩ := c
    simp only at hkey hfuel hread ⊢
    unfold loadDB_collect
    have hnot : ¬ (v.current_key ≠ v.old_key) := fun h => h hcur
    simp only [hnot, if_false]
    obtain ⟨v1, hv1, hval, hck, hok, hc1, hc2, hredo, hnredo⟩ :=
      loadDB_redo_eq v data (hread data (List.mem_cons_self _ _))
    rw [hv1]
    simp only
    cases rest with
    | nil =>
      refine ⟨v1, rfl, ?_, hc1, hc2, ?_, ?_, ?_⟩
      · simpa using hval
      · intro h
        have := hredo (by simpa [lastIsRedo_single] using h)
        rw [this.1, this.2, hcur]
        exact ⟨rfl, rfl⟩
      · intro h
        exact hnredo (by simpa [lastIsRedo_single] using h)
      · intro c1 h
        simp [DB_FIRST] at h
    | cons r rest1 =>
      simp only [DB_NEXT, DB_FIRST_cons]
      simp only [List.length_cons] at hfuel
      by_cases hr : r.1 = key
      · have hb : (r.1 == key) = true := by simpa using hr
        have hread1 : ∀ d ∈ r.2 :: (rest1.takeWhile (fun x => x.1 == r.1)).map Prod.snd,
            frameReadable d = true := by
          intro d hd
          apply hread d
          simp only [List.takeWhile_cons, hb, if_true, List.map_cons]
          rw [hr] at hd
          exact List.mem_cons_of_mem _ hd
        obtain ⟨v2, h1, h2, h3, h4, h5, h6, h7⟩ :=
          ih { v1 with current_key := r.1 } ⟨r.1, r.2, rest1⟩ (by simp only; omega)
            (by simp only; rw [hok, hr, hkey]) (by simp only; rw [hok, hr, hkey]) hread1
        simp only at h1 h2 h3 h4 h5 h6 h7
        rw [hr] at h1 h2 h5 h6 h7
        refine ⟨v2, ?_, ?_, ?_, ?_, ?_, ?_, ?_⟩
        · rw [hr, h1]
          simp only [List.dropWhile_cons, hb, if_true]
        · rw [h2, hval]
          simp only [List.takeWhile_cons, hb, if_true, List.map_cons, List.foldl_cons]
        · rw [h3, hc1]
        · rw [h4, hc2]
        · intro h
          simp only [List.takeWhile_cons, hb, if_true, List.map_cons, lastIsRedo_cons_cons] at h
          have := h5 h
          rw [hok] at this
          exact this
        · intro h
          simp only [List.takeWhile_cons, hb, if_true, List.map_cons, lastIsRedo_cons_cons] at h
          exact h6 h
        · intro c1 h
          simp only [List.dropWhile_cons, hb, if_true] at h
          exact h7 c1 h
      · have hb : (r.1 == key) = false := by simpa using hr
        have hfuel1 : 1 ≤ fuel := by omega
        obtain ⟨f, hf⟩ : ∃ f, fuel = f + 1 := ⟨fuel - 1, by omega⟩
        subst hf
        unfold loadDB_collect
        have hne : ({ v1 with current_key := r.1 } : IRVars).current_key ≠
            ({ v1 with current_key := r.1 } : IRVars).old_key := by
          simp only
          rw [hok, ← hkey]
          exact hr
        simp only [hne, if_true, ne_eq, not_false_eq_true]
        refine ⟨{ v1 with current_key := r.1, old_key := r.1 }, ?_, ?_, ?_, ?_, ?_, ?_, ?_⟩
        · simp only [List.dropWhile_cons, hb, DB_FIRST_cons]
          rfl
        · simp only [List.takeWhile_cons, hb, List.map_nil, List.foldl_cons, List.foldl_nil]
          exact hval
        · exact hc1
        · exact hc2
        · intro h
          have := hredo (by simpa [List.takeWhile_cons, hb, lastIsRedo_single] using h)
          simp only
          rw [this.1, this.2, hcur]
          exact ⟨rfl, rfl⟩
        · intro h
          exact hnredo (by simpa [List.takeWhile_cons, hb, lastIsRedo_single] using h)
        · intro c1 h
          simp only [List.dropWhile_cons, hb, DB_FIRST_cons] at h
          have := Option.some.inj h
          rw [← this]

theorem isRestoredTuple_add (R : List Bytes) (k1 k : Bytes) :
    isRestoredTuple (addRestoredTuple R k1) k = (k == k1 || isRestoredTuple R k) := by
  by_cases h : k = k1 <;> simp [isRestoredTuple, addRestoredTuple, List.contains_cons, h]

theorem lastIsRedo_nil : lastIsRedo [] = false := rfl

theorem sdstoupper_SET : sdstoupper "SET".toList = "SET".toList := by decide

theorem loadDB_scan_eq (replyStr : Bytes → Bytes → Bool) (fuel : Nat) (server : redisServer)
    (v : IRVars) (error : Option DBC)
    (hfuel : (cursorList error).length < fuel)
    (hstop : server.instant_recovery_performing_stop = false)
    (hg : grouped (cursorList error) = true)
    (hread : ∀ r ∈ cursorList error, frameReadable r.2 = true)
    (hkey : ∀ c, error = some c → v.current_key = c.key) :
    ∃ server1 v1 new, loadDB_scan replyStr fuel server v error = some (server1, v1) ∧
      server1.setIR = server.setIR ++ new ∧
      (∀ k, new.filter (fun x => x.1 == k) =
        if isRestoredTuple server.hash_restored_tuples k = false ∧
            lastIsRedo (chainOf (cursorList error) k) = true
        then [(k, replayChain (chainOf (cursorList error) k))] else []) := by
  induction fuel generalizing server v error with
  | zero => omega
  | succ fuel ih =>
    cases error with
    | none =>
      unfold loadDB_scan
      refine ⟨server, v, [], rfl, by simp, ?_⟩
      intro k
      simp [cursorList, chainOf, lastIsRedo]
    | some c =>
      unfold loadDB_scan
      simp only [hstop, Bool.false_eq_true, if_false]
      obtain ⟨ck, hskip, hck⟩ := loadDB_skip_eq server.hash_restored_tuples (c.rest.length + 1)
        { v with valueIR := "0".toList } c (by omega) (hkey c rfl)
      rw [hskip]
      have hLdef : cursorList (some c) = (c.key, c.data) :: c.rest := rfl
      rw [hLdef] at hfuel hg hread ⊢
      generalize hL : (c.key, c.data) :: c.rest = L at *
      generalize hR : server.hash_restored_tuples = R at *
      cases hD : DB_FIRST (L.dropWhile (fun x => isRestoredTuple R x.1)) with
      | none =>
        simp only
        refine ⟨server, _, [], rfl, by simp, ?_⟩
        intro k
        have hnil := (DB_FIRST_eq_none _).1 hD
        rw [List.dropWhile_eq_nil_iff] at hnil
        by_cases hRk : isRestoredTuple R k = false
        · have : chainOf L k = [] := by
            rw [chainOf_eq_nil_iff]
            intro x hx e
            have := hnil x hx
            rw [e, hRk] at this
            exact absurd this (by simp)
          simp [this, lastIsRedo_nil]
        · simp [hRk]
      | some c1 =>
        simp only
        have hDlist := (DB_FIRST_eq_some _ _).1 hD
        have hck1 : ck = c1.key := hck c1 hD
        have hc1R : isRestoredTuple R c1.key = false := by
          have h0 := List.head_dropWhile_not (fun x : DBRecord => isRestoredTuple R x.1) L
            (by rw [hDlist]; exact List.cons_ne_nil _ _)
          simp only [hDlist, List.head_cons] at h0
          simpa using h0
        have hgD : grouped ((c1.key, c1.data) :: c1.rest) = true := by
          rw [← hDlist]; exact grouped_dropWhile _ _ hg
        have hsubD : ∀ x ∈ ((c1.key, c1.data) :: c1.rest : DB), x ∈ L := by
          intro x hx
          rw [← hDlist] at hx
          exact (List.dropWhile_sublist _).subset hx
        have hDchain : ∀ k, isRestoredTuple R k = false →
            chainOf ((c1.key, c1.data) :: c1.rest) k = chainOf L k := by
          intro k hk
          rw [← hDlist]
          apply chainOf_dropWhile
          intro x _ hx e
          rw [e, hk] at hx
          exact absurd hx (by simp)
        have hchain1 : chainOf L c1.key =
            c1.data :: (c1.rest.takeWhile (fun x => x.1 == c1.key)).map Prod.snd := by
          rw [← hDchain c1.key hc1R]
          exact chainOf_run (c1.key, c1.data) c1.rest hgD
        have hread1 : ∀ d ∈ c1.data :: (c1.rest.takeWhile (fun x => x.1 == c1.key)).map Prod.snd,
            frameReadable d = true := by
          intro d hd
          rcases List.mem_cons.1 hd with e | e
          · rw [e]
            exact hread (c1.key, c1.data) (hsubD _ (List.mem_cons_self _ _))
          · obtain ⟨x, hx, hxd⟩ := List.mem_map.1 e
            rw [← hxd]
            exact hread x (hsubD _ (List.mem_cons_of_mem _ ((List.takeWhile_sublist _).subset hx)))
        obtain ⟨v2, hcol, hval, -, -, hredo, hnredo, hcur2⟩ :=
          loadDB_collect_eq (c1.rest.length + 2)
            { ({ v with valueIR := "0".toList, current_key := ck } : IRVars) with old_key := ck }
            c1 (le_refl _) rfl hck1.symm hread1
        simp only at hcol hval hredo hnredo
        rw [hcol]
        simp only
        generalize hE : c1.rest.dropWhile (fun x => x.1 == c1.key) = E at *
        have hElen : (cursorList (DB_FIRST E)).length < fuel := by
          rw [cursorList_DB_FIRST, ← hE]
          have h1 : (c1.rest.dropWhile (fun x => x.1 == c1.key)).length ≤ c1.rest.length :=
            (List.dropWhile_sublist _).length_le
          have h2 : (L.dropWhile (fun x => isRestoredTuple R x.1)).length ≤ L.length :=
            (List.dropWhile_sublist _).length_le
          rw [hDlist] at h2
          simp only [List.length_cons] at h2
          omega
        have hgE : grouped (cursorList (DB_FIRST E)) = true := by
          rw [cursorList_DB_FIRST, ← hE]
          exact grouped_dropWhile _ _ (grouped_tail _ _ hgD)
        have hreadE : ∀ r ∈ cursorList (DB_FIRST E), frameReadable r.2 = true := by
          rw [cursorList_DB_FIRST, ← hE]
          intro r hr
          exact hread r (hsubD _ (List.mem_cons_of_mem _ ((List.dropWhile_sublist _).subset hr)))
        have hEchain : ∀ k, k ≠ c1.key → isRestoredTuple R k = false →
            chainOf (cursorList (DB_FIRST E)) k = chainOf L k := by
          intro k hk hRk
          rw [cursorList_DB_FIRST, ← hE, ← hDchain k hRk]
          exact chainOf_after_run (c1.key, c1.data) c1.rest k hk
        have hEnil : chainOf (cursorList (DB_FIRST E)) c1.key = [] := by
          rw [cursorList_DB_FIRST, ← hE, chainOf_eq_nil_iff]
          exact ((grouped_cons _ _).1 hgD).1
        by_cases hlast :
            lastIsRedo (c1.data :: (c1.rest.takeWhile (fun x => x.1 == c1.key)).map Prod.snd) = true
        · obtain ⟨hcmd, hkeyIR⟩ := hredo hlast
          simp only [hcmd, sdstoupper_SET, if_true]
          rw [hkeyIR, hck1]
          obtain ⟨server1, v1, new2, hrun, hset, hfil⟩ := ih
            { server with
              setIR := server.setIR ++ [(c1.key, v2.valueIR)]
              hash_restored_tuples := addRestoredTuple server.hash_restored_tuples c1.key
              count_tuples_loaded_incr :=
                if replyStr c1.key v2.valueIR then v2.count_tuples_loaded + 1
                else server.count_tuples_loaded_incr }
            (if replyStr c1.key v2.valueIR then
              { ({ v2 with commandIR := "SET".toList } : IRVars) with
                count_tuples_loaded := v2.count_tuples_loaded + 1 }
            else { ({ v2 with commandIR := "SET".toList } : IRVars) with
                count_inconsistent_load := v2.count_inconsistent_load + 1 })
            (DB_FIRST E) hElen hstop hgE hreadE
            (by
              intro c2 hc2
              have := hcur2 c2 hc2
              by_cases hrs : replyStr c1.key v2.valueIR = true
              · simp only [hrs, if_true]; exact this
              · simp only [hrs]; exact this)
          refine ⟨server1, v1, (c1.key, v2.valueIR) :: new2, ?_, ?_, ?_⟩
          · rw [← hrun]
            simp only [hstop, hkeyIR, hck1, hR]
          · rw [hset]
            simp
          · intro k
            have hfk := hfil k
            simp only [hR, isRestoredTuple_add] at hfk
            by_cases hk : k = c1.key
            · subst hk
              rw [List.filter_cons_of_pos (by simp), hfk]
              simp only [beq_self_eq_true, Bool.true_or, Bool.true_eq_false, false_and, if_false]
              rw [hchain1]
              simp only [hc1R, hlast, and_self, if_true]
              rw [hval]
              rfl
            · have hb : (k == c1.key) = false := by simpa using hk
              have hb2 : (c1.key == k) = false := by simpa using (fun e => hk e.symm)
              rw [List.filter_cons_of_neg (by simp [hb2]), hfk]
              simp only [hb, Bool.false_or]
              by_cases hRk : isRestoredTuple R k = false
              · rw [hEchain k hk hRk]
              · simp [hRk]
        · have hlast2 : lastIsRedo
              (c1.data :: (c1.rest.takeWhile (fun x => x.1 == c1.key)).map Prod.snd) = false := by
            simpa using hlast
          have hcmd := hnredo hlast2
          simp only [hcmd, if_false]
          obtain ⟨server1, v1, new2, hrun, hset, hfil⟩ := ih server
            { v2 with commandIR := sdstoupper v2.commandIR }
            (DB_FIRST E) hElen hstop hgE hreadE (by intro c2 hc2; exact hcur2 c2 hc2)
          refine ⟨server1, v1, new2, hrun, hset, ?_⟩
          intro k
          have hfk := hfil k
          simp only [hR] at hfk
          rw [hfk]
          by_cases hk : k = c1.key
          · subst hk
            rw [hEnil, hchain1, hlast2]
            simp [lastIsRedo_nil]
          · by_cases hRk : isRestoredTuple R k = false
            · rw [hEchain k hk hRk]
            · simp [hRk]

/-! ## The two restorers as functions of the chains -/

theorem loadDBFromIndexedLog_eq (replyStr : Bytes → Bytes → Bool) (server : redisServer)
    (hopen : server.indexedlog_opens = true) (hconn : server.redis_connects = true)
    (hstop : server.instant_recovery_performing_stop = false)
    (hg : grouped server.indexedlog = true)
    (hread : ∀ r ∈ server.indexedlog, frameReadable r.2 = true) :
    ∃ server1 new, loadDBFromIndexedLog replyStr server = some server1 ∧
      server1.setIR = server.setIR ++ new ∧
      (∀ k, new.filter (fun x => x.1 == k) =
        if isRestoredTuple server.hash_restored_tuples k = false ∧
            lastIsRedo (chainOf server.indexedlog k) = true
        then [(k, replayChain (chainOf server.indexedlog k))] else []) := by
  unfold loadDBFromIndexedLog
  rw [if_neg (by simp [hopen]), if_neg (by simp [hconn])]
  obtain ⟨server1, v1, new, hrun, hset, hfil⟩ := loadDB_scan_eq replyStr
    (server.indexedlog.length + 1) { server with instant_recovery_performing := true }
    { current_key := match DB_FIRST server.indexedlog with
        | some c => c.key
        | none => []
      old_key := []
      commandIR := []
      keyIR := []
      valueIR := "0".toList
      count_tuples_loaded := 0
      count_inconsistent_load := 0 }
    (DB_FIRST server.indexedlog)
    (by rw [cursorList_DB_FIRST]; omega) hstop
    (by rw [cursorList_DB_FIRST]; exact hg)
    (by rw [cursorList_DB_FIRST]; exact hread)
    (by intro c hc; simp only [hc])
  dsimp only
  rw [hrun]
  simp only [cursorList_DB_FIRST] at hfil
  exact ⟨_, new, rfl, hset, hfil⟩

theorem loadRecordFromIndexedLog_eq (server : redisServer) (key : Bytes)
    (hopen : server.indexedlog_opens = true)
    (hread : ∀ r ∈ server.indexedlog, r.1 = key → frameReadable r.2 = true) :
    (chainOf server.indexedlog key = [] →
      loadRecordFromIndexedLog server key = some (0, { server with
        hash_restored_tuples := addRestoredTuple server.hash_restored_tuples key
        count_tuples_not_in_log := server.count_tuples_not_in_log + 1 })) ∧
    (chainOf server.indexedlog key ≠ [] →
      ∃ valueIR, loadRecordFromIndexedLog server key = some (1, { server with
          setIR := server.setIR ++ [(key, valueIR)]
          count_tuples_loaded_ondemand := server.count_tuples_loaded_ondemand + 1
          hash_restored_tuples := addRestoredTuple server.hash_restored_tuples key }) ∧
        (grouped server.indexedlog = true →
          valueIR = replayChain (chainOf server.indexedlog key))) := by
  constructor
  · intro hnil
    unfold loadRecordFromIndexedLog
    rw [if_neg (by simp [hopen]), (DB_SET_none _ _).2 hnil]
  · intro hne
    unfold loadRecordFromIndexedLog
    rw [if_neg (by simp [hopen])]
    cases hset : DB_SET server.indexedlog key with
    | none => exact absurd ((DB_SET_none _ _).1 hset) hne
    | some c =>
      simp only
      obtain ⟨hck, hlen, hchain⟩ := DB_SET_some _ _ _ hset
      have hlist : server.indexedlog.dropWhile (fun x => x.1 != key) =
          (c.key, c.data) :: c.rest := by
        unfold DB_SET at hset
        exact (DB_FIRST_eq_some _ _).1 hset
      have hsub : ∀ x ∈ ((c.key, c.data) :: c.rest : DB), x ∈ server.indexedlog := by
        intro x hx
        rw [← hlist] at hx
        exact (List.dropWhile_sublist _).subset hx
      have hread1 : ∀ d ∈ c.data :: (c.rest.takeWhile (fun x => x.1 == c.key)).map Prod.snd,
          frameReadable d = true := by
        intro d hd
        rcases List.mem_cons.1 hd with e | e
        · rw [e]
          exact hread (c.key, c.data) (hsub _ (List.mem_cons_self _ _)) hck
        · obtain ⟨x, hx, hxd⟩ := List.mem_map.1 e
          rw [← hxd]
          have hxk : x.1 = c.key := by
            simpa using List.mem_takeWhile_imp (p := fun x : DBRecord => x.1 == c.key) hx
          exact hread x (hsub _ (List.mem_cons_of_mem _ ((List.takeWhile_sublist _).subset hx)))
            (by rw [hxk, hck])
      rw [loadRecord_scan_eq (c.rest.length + 1) "0".toList c (by omega) hread1]
      refine ⟨_, rfl, ?_⟩
      intro hg
      rw [hchain hg]
      rfl

theorem lastIsRedo_of_all (chain : List Bytes) (hne : chain ≠ [])
    (h : ∀ frame ∈ chain, isSetFrame frame = true ∨ isIncrFrame frame = true) :
    lastIsRedo chain = true := by
  unfold lastIsRedo
  cases hl : chain.getLast? with
  | none => exact absurd (List.getLast?_eq_none_iff.1 hl) hne
  | some frame =>
    simp only
    have hmem : frame ∈ chain := List.mem_of_getLast?_eq_some hl
    simpa using h frame hmem

theorem mem_keys_iff_chainOf_ne_nil (db : DB) (k : Bytes) :
    k ∈ db.map Prod.fst ↔ chainOf db k ≠ [] := by
  rw [Ne, chainOf_eq_nil_iff]
  simp only [List.mem_map]
  constructor
  · rintro ⟨x, hx, rfl⟩ h
    exact h x hx rfl
  · intro h
    by_contra hcon
    apply h
    intro r hr e
    exact hcon ⟨r, hr, e⟩

theorem mem_chainOf (db : DB) (k d : Bytes) : d ∈ chainOf db k ↔ (k, d) ∈ db := by
  unfold chainOf
  simp only [List.mem_map, List.mem_filter, beq_iff_eq]
  constructor
  · rintro ⟨x, ⟨hx, hk⟩, rfl⟩
    rw [← hk]
    exact hx
  · intro h
    exact ⟨(k, d), ⟨h, rfl⟩, rfl⟩

theorem nodup_keys_of_filter (l : List (Bytes × Bytes))
    (h : ∀ k, (l.filter (fun x => x.1 == k)).length ≤ 1) : (l.map Prod.fst).Nodup := by
  induction l with
  | nil => simp
  | cons a t ih =>
    rw [List.map_cons, List.nodup_cons]
    constructor
    · intro hmem
      obtain ⟨x, hx, hxa⟩ := List.mem_map.1 hmem
      have h1 := h a.1
      rw [List.filter_cons_of_pos (by simp)] at h1
      have h2 : x ∈ t.filter (fun y => y.1 == a.1) := by
        rw [List.mem_filter]
        exact ⟨hx, by simp [hxa]⟩
      have h3 := List.length_pos_of_mem h2
      simp only [List.length_cons] at h1
      omega
    · apply ih
      intro k
      have h1 := h k
      by_cases hk : (a.1 == k) = true
      · simp only [List.filter_cons, hk, if_true, List.length_cons] at h1
        omega
      · simp only [List.filter_cons, hk] at h1
        exact h1

theorem toInt32_neg_zero : toInt32 (max LONG_MIN (-((0 : Nat) : Int))) = 0 := by
  unfold toInt32 LONG_MIN
  norm_num

theorem toInt32_pos_zero : toInt32 (min LONG_MAX ((0 : Nat) : Int)) = 0 := by
  unfold toInt32 LONG_MAX
  norm_num

theorem strtolDigits_no_digit (c : Char) (t : Bytes) (h : c.isDigit = false) :
    strtolDigits 0 (c :: t) = 0 := by
  simp [strtolDigits, h]

theorem atoi_noLeadingInteger (value : Bytes) (h : noLeadingInteger value = true) :
    atoi value = 0 := by
  unfold noLeadingInteger at h
  unfold atoi strtol
  cases hs : value.dropWhile isspace with
  | nil => unfold strtolSigned toInt32; norm_num
  | cons c t =>
    rw [hs] at h
    simp only at h
    unfold strtolSigned
    simp only
    by_cases hm : c = '-'
    · simp only [hm, true_or, if_true] at h ⊢
      cases t with
      | nil => exact toInt32_neg_zero
      | cons d t1 =>
        simp only [Bool.not_eq_true'] at h
        rw [strtolDigits_no_digit d t1 h]
        exact toInt32_neg_zero
    · by_cases hp : c = '+'
      · simp only [hp, or_true, if_true] at h ⊢
        simp only [show ¬ ('+' = '-') by decide, if_false]
        cases t with
        | nil => exact toInt32_pos_zero
        | cons d t1 =>
          simp only [Bool.not_eq_true'] at h
          rw [strtolDigits_no_digit d t1 h]
          exact toInt32_pos_zero
      · simp only [hm, hp, or_self, if_false, Bool.not_eq_true'] at h ⊢
        rw [strtolDigits_no_digit c t h]
        exact toInt32_pos_zero

/-! ## The drain loop of the indexer -/

theorem chainOf_put_step (db : DB) (hs : keySorted db) (key d K : Bytes) :
    chainOf (dbPut key d db) K = if key = K then chainOf db K ++ [d] else chainOf db K := by
  rw [chainOf_dbPut _ _ _ hs]
  by_cases hk : K = key
  · subst hk; simp
  · have hk2 : ¬ key = K := fun e => hk e.symm
    simp [hk, hk2]

theorem chainOf_del_step (db : DB) (key K : Bytes) :
    chainOf (dbDel key db) K = if key = K then [] else chainOf db K := by
  rw [chainOf_dbDel]
  by_cases hk : K = key
  · subst hk; simp
  · have hk2 : ¬ key = K := fun e => hk e.symm
    simp [hk, hk2]

theorem writeToIndexedLog_apply_spec (s : IndexerState) (ri : recordToIndex) :
    (writeToIndexedLog_apply s ri).1.indexer_state = s.indexer_state ∧
    (keySorted s.dbp → keySorted (writeToIndexedLog_apply s ri).1.dbp) ∧
    (keySorted s.dbp → ∀ K, chainOf (writeToIndexedLog_apply s ri).1.dbp K =
      tableStep K (chainOf s.dbp K) ri) := by
  unfold writeToIndexedLog_apply tableStep
  by_cases h1 : ri.command = SET_COMMAND
  · rw [if_pos h1]
    refine ⟨rfl, fun hs => keySorted_dbPut _ _ _ hs, fun hs K => ?_⟩
    rw [if_pos (Or.inl h1)]
    exact chainOf_put_step _ hs _ _ _
  · rw [if_neg h1]
    by_cases h2 : ri.command = INCR_COMMAND
    · rw [if_pos h2]
      refine ⟨rfl, fun hs => keySorted_dbPut _ _ _ hs, fun hs K => ?_⟩
      rw [if_pos (Or.inr h2)]
      exact chainOf_put_step _ hs _ _ _
    · rw [if_neg h2]
      have h12 : ¬ (ri.command = SET_COMMAND ∨ ri.command = INCR_COMMAND) := by
        rintro (h | h)
        · exact h1 h
        · exact h2 h
      by_cases h3 : ri.command = DEL_COMMAND
      · rw [if_pos h3]
        refine ⟨rfl, fun hs => keySorted_dbDel _ _ hs, fun _ K => ?_⟩
        rw [if_neg h12, if_pos h3]
        exact chainOf_del_step _ _ _
      · rw [if_neg h3]
        by_cases h4 : ri.command = SETCHECKPOINT_COMMAND
        · rw [if_pos h4]
          refine ⟨rfl, fun hs => keySorted_dbPut _ _ _ (keySorted_dbDel _ _ hs), fun hs K => ?_⟩
          rw [if_neg h12, if_neg h3, if_pos h4]
          show chainOf (dbPut ri.key (writeToIndexedLog_aux ri) (dbDel ri.key s.dbp)) K = _
          rw [chainOf_put_step _ (keySorted_dbDel _ _ hs), chainOf_del_step]
          by_cases hk : ri.key = K <;> simp [hk]
        · rw [if_neg h4]
          have hsame : (if ri.command = CHECKPOINTEND_COMMAND then (s, 0) else (s, 0)) = (s, 0) := by
            split <;> rfl
          rw [hsame]
          refine ⟨rfl, fun hs => hs, fun _ K => ?_⟩
          rw [if_neg h12, if_neg h3, if_neg h4]
          simp

theorem writeToIndexedLog_while_spec (records : List recordToIndex) (s : IndexerState)
    (count_records count_records_indexed : Nat)
    (hon : s.indexer_state = true) (hs : keySorted s.dbp) :
    (writeToIndexedLog_while records s count_records count_records_indexed).2.2.2 = true ∧
    keySorted (writeToIndexedLog_while records s count_records count_records_indexed).1.dbp ∧
    (∀ K, chainOf (writeToIndexedLog_while records s count_records count_records_indexed).1.dbp K
      = records.foldl (tableStep K) (chainOf s.dbp K)) := by
  induction records generalizing s count_records count_records_indexed with
  | nil => exact ⟨rfl, hs, fun _ => rfl⟩
  | cons ri next ih =>
    unfold writeToIndexedLog_while
    rw [if_neg (by simp [hon])]
    obtain ⟨h1, h2, h3⟩ := writeToIndexedLog_apply_spec s ri
    obtain ⟨i1, i2, i3⟩ := ih (writeToIndexedLog_apply s ri).1 (count_records + 1)
      (count_records_indexed + (writeToIndexedLog_apply s ri).2) (by rw [h1, hon]) (h2 hs)
    refine ⟨i1, i2, fun K => ?_⟩
    rw [i3 K, h3 hs K]
    rfl

theorem writeToIndexedLog_dbp (s : IndexerState) (records : List recordToIndex) (seek : Nat) :
    (writeToIndexedLog s records seek).state.dbp = (writeToIndexedLog_while records s 0 0).1.dbp := by
  unfold writeToIndexedLog
  rcases hw : writeToIndexedLog_while records s 0 0 with ⟨s1, c1, c2, b⟩
  cases b <;> rfl

theorem writeToIndexedLog_chain (s : IndexerState) (records : List recordToIndex) (seek : Nat)
    (hon : s.indexer_state = true) (hs : keySorted s.dbp) (K : Bytes) :
    chainOf (writeToIndexedLog s records seek).state.dbp K =
      records.foldl (tableStep K) (chainOf s.dbp K) := by
  rw [writeToIndexedLog_dbp]
  exact (writeToIndexedLog_while_spec records s 0 0 hon hs).2.2 K

theorem writeToIndexedLog_sorted (s : IndexerState) (records : List recordToIndex) (seek : Nat)
    (hon : s.indexer_state = true) (hs : keySorted s.dbp) :
    keySorted (writeToIndexedLog s records seek).state.dbp := by
  rw [writeToIndexedLog_dbp]
  exact (writeToIndexedLog_while_spec records s 0 0 hon hs).2.1

theorem readFrames_three (mem : Nat → Int × Int) (v : IndexerVars) (list : List recordToIndex)
    (c k val : Bytes) (more : List LogFrame)
    (hc : (sdstoupper (cstr c)).length < 20) (hk : (cstr k).length < 50)
    (hv : (cstr val).length < 50) :
    readFrames mem v list ([c, k, val] :: more) =
      readFrames mem { command := sdstoupper (cstr c), key := cstr k, value := cstr val }
        (list ++ [{ command := sdstoupper (cstr c), key := cstr k, value := cstr val,
                    sdslen_key := (mem list.length).1, sdslen_value := (mem list.length).2 }])
        more := by
  rw [readFrames]
  have hc2 : (sdstoupper (cstr c)).length < 128 := lt_trans hc (by norm_num)
  have hk2 : (cstr k).length < 108 := lt_trans hk (by norm_num)
  simp [readArguments, storeArgument, addRecordToIndex, recordToIndex_command,
    recordToIndex_key, hc, hk, hv, hc2, hk2]

theorem indexedLogOf_of_readFrames (mem : Nat → Int × Int) (frames : List LogFrame)
    (v : IndexerVars) (ri : recordToIndex) (next : List recordToIndex)
    (h : readFrames mem initialIndexerVars [] frames = some (v, ri :: next)) :
    indexedLogOfFrames mem frames = some (writeToIndexedLog emptyIndexer (ri :: next) 0).state.dbp := by
  unfold indexedLogOfFrames indexFrames
  rw [if_neg (by decide), h]
  rfl

theorem cstr_of_no_nul (s : Bytes) (h : '\x00' ∉ s) : cstr s = s := by
  unfold cstr
  rw [List.takeWhile_eq_self_iff]
  intro c hc
  have : c ≠ '\x00' := fun e => h (e ▸ hc)
  simpa using this

theorem length_cstr_le (s : Bytes) : (cstr s).length ≤ s.length :=
  (List.takeWhile_sublist _).length_le

theorem eq_singleton_of_filter (new : List (Bytes × Bytes)) (K v : Bytes)
    (h : ∀ k, new.filter (fun x => x.1 == k) = if k = K then [(K, v)] else []) :
    new = [(K, v)] := by
  have hall : ∀ x ∈ new, (x.1 == K) = true := by
    intro x hx
    by_contra hne
    have hk : ¬ x.1 = K := by simpa using hne
    have := h x.1
    rw [if_neg hk, List.filter_eq_nil_iff] at this
    exact this x hx (by simp)
  have := h K
  rw [if_pos rfl, List.filter_eq_self.2 hall] at this
  exact this

theorem replayChain_two_sets (r1 r2 : recordToIndex) (hk : '\n' ∉ r2.key)
    (hv : '\n' ∉ r2.value) :
    replayChain [writeToIndexedLog_aux r1, writeToIndexedLog_aux r2] = r2.value := by
  unfold replayChain
  simp only [List.foldl_cons, List.foldl_nil]
  unfold replayRule
  rw [if_pos (frameCommand_aux r2), frameValue_aux r2 hk hv]
  rfl

theorem replayChain_one_set (r1 : recordToIndex) (hk : '\n' ∉ r1.key) (hv : '\n' ∉ r1.value) :
    replayChain [writeToIndexedLog_aux r1] = r1.value := by
  unfold replayChain
  simp only [List.foldl_cons, List.foldl_nil]
  unfold replayRule
  rw [if_pos (frameCommand_aux r1), frameValue_aux r1 hk hv]
  rfl

/-- Both restorers over a log in which one key holds a chain of stored SET texts and no other key
holds anything. -/
theorem restore_single_key (replyStr : Bytes → Bytes → Bool) (db : DB) (K : Bytes)
    (chain : List recordToIndex) (hs : keySorted db) (hne : chain ≠ [])
    (hK : chainOf db K = chain.map writeToIndexedLog_aux)
    (hother : ∀ k, k ≠ K → chainOf db k = []) :
    (∃ server1, loadRecordFromIndexedLog (serverAfterRestart db) K = some (1, server1) ∧
      server1.setIR = [(K, replayChain (chain.map writeToIndexedLog_aux))]) ∧
    (∃ server2, loadDBFromIndexedLog replyStr (serverAfterRestart db) = some server2 ∧
      server2.setIR = [(K, replayChain (chain.map writeToIndexedLog_aux))]) := by
  have hg := grouped_of_keySorted db hs
  have hcne : chainOf db K ≠ [] := by
    rw [hK]
    simpa using hne
  have hframes : ∀ r ∈ db, isSetFrame r.2 = true := by
    intro r hr
    have hmem : r.2 ∈ chainOf db r.1 := (mem_chainOf db r.1 r.2).2 hr
    by_cases hk : r.1 = K
    · rw [hk, hK] at hmem
      obtain ⟨ri, _, hri⟩ := List.mem_map.1 hmem
      rw [← hri]
      exact isSetFrame_aux ri
    · rw [hother r.1 hk] at hmem
      simp at hmem
  have hread : ∀ r ∈ db, frameReadable r.2 = true := by
    intro r hr
    exact frameReadable_of_redo _ (by simp [hframes r hr])
  constructor
  · obtain ⟨valueIR, hload, hval⟩ :=
      (loadRecordFromIndexedLog_eq (serverAfterRestart db) K rfl (fun r hr _ => hread r hr)).2 hcne
    refine ⟨_, hload, ?_⟩
    rw [hval hg]
    show [] ++ [(K, replayChain (chainOf db K))] = _
    rw [hK]
    rfl
  · obtain ⟨server2, new, hrun, hset, hfil⟩ :=
      loadDBFromIndexedLog_eq replyStr (serverAfterRestart db) rfl rfl rfl hg hread
    refine ⟨server2, hrun, ?_⟩
    rw [hset]
    show [] ++ new = _
    rw [List.nil_append]
    apply eq_singleton_of_filter
    intro k
    rw [hfil k]
    by_cases hk : k = K
    · subst hk
      have hl : lastIsRedo (chainOf (serverAfterRestart db).indexedlog k) = true := by
        apply lastIsRedo_of_all _ hcne
        intro frame hf
        exact Or.inl (hframes (k, frame) ((mem_chainOf _ _ _).1 hf))
      rw [if_pos ⟨rfl, hl⟩, if_pos rfl]
      show [(k, replayChain (chainOf db k))] = _
      rw [hK]
    · have hl : lastIsRedo (chainOf (serverAfterRestart db).indexedlog k) = false := by
        show lastIsRedo (chainOf db k) = false
        rw [hother k hk]
        rfl
      rw [if_neg (by simp [hl]), if_neg hk]

theorem digitChar_isDigit (n : Nat) (h : n < 10) : (Nat.digitChar n).isDigit = true := by
  interval_cases n <;> decide

theorem digitChar_value (n : Nat) (h : n < 10) : (Nat.digitChar n).toNat - 48 = n := by
  interval_cases n <;> decide

theorem toDigitsCore_isDigit (fuel n : Nat) (ds : List Char)
    (h : ∀ c ∈ ds, c.isDigit = true) :
    ∀ c ∈ Nat.toDigitsCore 10 fuel n ds, c.isDigit = true := by
  induction fuel generalizing n ds with
  | zero => simpa [Nat.toDigitsCore] using h
  | succ fuel ih =>
    unfold Nat.toDigitsCore
    have hd : ∀ c ∈ Nat.digitChar (n % 10) :: ds, c.isDigit = true := by
      intro c hc
      rcases List.mem_cons.mp hc with e | e
      · rw [e]; exact digitChar_isDigit _ (Nat.mod_lt _ (by decide))
      · exact h c e
    dsimp only
    split
    · exact hd
    · exact ih _ _ hd

theorem toDigits_isDigit (n : Nat) : ∀ c ∈ Nat.toDigits 10 n, c.isDigit = true :=
  toDigitsCore_isDigit _ _ [] (by simp)

theorem toDigitsCore_ne_nil (fuel n : Nat) (ds : List Char) (h : ds ≠ [] ∨ 0 < fuel) :
    Nat.toDigitsCore 10 fuel n ds ≠ [] := by
  induction fuel generalizing n ds with
  | zero =>
    rcases h with h | h
    · simpa [Nat.toDigitsCore] using h
    · omega
  | succ fuel ih =>
    unfold Nat.toDigitsCore
    dsimp only
    split
    · simp
    · exact ih _ _ (Or.inl (by simp))

theorem toDigits_ne_nil (n : Nat) : Nat.toDigits 10 n ≠ [] :=
  toDigitsCore_ne_nil _ _ [] (Or.inr (Nat.succ_pos n))

theorem toDigits_length_le (n : Nat) (h : n < 2 ^ 64) : (Nat.toDigits 10 n).length ≤ 20 :=
  Nat.toDigitsCore_length 10 (by norm_num) (n + 1) n 20
    (lt_of_lt_of_le h (by norm_num)) (by norm_num)

theorem strtolDigits_toDigitsCore (fuel : Nat) : ∀ (n : Nat) (ds rest : List Char), n < fuel →
    ∃ k, ∀ acc, strtolDigits acc (Nat.toDigitsCore 10 fuel n ds ++ rest) =
      strtolDigits (acc * 10 ^ k + n) (ds ++ rest) := by
  induction fuel with
  | zero => intro n ds rest h; omega
  | succ fuel ih =>
    intro n ds rest h
    unfold Nat.toDigitsCore
    dsimp only
    have hstep : ∀ acc, strtolDigits acc (Nat.digitChar (n % 10) :: ds ++ rest) =
        strtolDigits (acc * 10 + n % 10) (ds ++ rest) := by
      intro acc
      show strtolDigits acc (Nat.digitChar (n % 10) :: (ds ++ rest)) = _
      rw [strtolDigits, if_pos (digitChar_isDigit _ (Nat.mod_lt _ (by decide))),
        digitChar_value _ (Nat.mod_lt _ (by decide))]
    by_cases h0 : n / 10 = 0
    · rw [if_pos h0]
      refine ⟨1, fun acc => ?_⟩
      rw [hstep, pow_one]
      have : n % 10 = n := Nat.mod_eq_of_lt (by omega)
      rw [this]
    · rw [if_neg h0]
      obtain ⟨k, hk⟩ := ih (n / 10) (Nat.digitChar (n % 10) :: ds) rest (by omega)
      refine ⟨k + 1, fun acc => ?_⟩
      rw [hk, hstep]
      congr 1
      have := Nat.div_add_mod n 10
      rw [pow_succ]
      nlinarith [this]

theorem strtolDigits_toDigits (n : Nat) (rest : List Char) :
    strtolDigits 0 (Nat.toDigits 10 n ++ rest) = strtolDigits n rest := by
  obtain ⟨k, hk⟩ := strtolDigits_toDigitsCore (n + 1) n [] rest (Nat.lt_succ_self n)
  have := hk 0
  simpa [Nat.toDigits] using this

theorem strtol_toDigits (n : Nat) (h : n < 2 ^ 63) :
    strtol (Nat.toDigits 10 n ++ ['\r', '\n']) = n := by
  have hne := toDigits_ne_nil n
  have hdig := toDigits_isDigit n
  have hval := strtolDigits_toDigits n ['\r', '\n']
  cases hds : Nat.toDigits 10 n with
  | nil => exact absurd hds hne
  | cons c t =>
    rw [hds] at hdig hval
    have hc : c.isDigit = true := hdig c (by simp)
    have hsp : isspace c = false := by
      unfold isspace
      have h1 : c ≠ ' ' := by rintro rfl; exact absurd hc (by decide)
      have h2 : c ≠ '\t' := by rintro rfl; exact absurd hc (by decide)
      have h3 : c ≠ '\n' := by rintro rfl; exact absurd hc (by decide)
      have h4 : c ≠ '\x0b' := by rintro rfl; exact absurd hc (by decide)
      have h5 : c ≠ '\x0c' := by rintro rfl; exact absurd hc (by decide)
      have h6 : c ≠ '\r' := by rintro rfl; exact absurd hc (by decide)
      simp [h1, h2, h3, h4, h5, h6]
    have hm : c ≠ '-' := by rintro rfl; exact absurd hc (by decide)
    have hp : c ≠ '+' := by rintro rfl; exact absurd hc (by decide)
    unfold strtol
    show strtolSigned ((c :: (t ++ ['\r', '\n'])).dropWhile isspace) = _
    rw [List.dropWhile_cons_of_neg (by simp [hsp])]
    unfold strtolSigned
    dsimp only
    rw [if_neg hm, if_neg hp]
    have hv : strtolDigits 0 (c :: (t ++ ['\r', '\n'])) = n := by
      have : strtolDigits n ['\r', '\n'] = n := by
        rw [strtolDigits, if_neg (by decide)]
      rw [← this]; exact hval
    rw [hv]
    unfold LONG_MAX
    have : (n : Int) < 2 ^ 63 := by exact_mod_cast h
    omega

theorem fgetsLine_line (l rest : Bytes) (h : '\n' ∉ l) :
    ∀ n, l.length < n → fgetsLine n (l ++ '\n' :: rest) = (l ++ ['\n'], rest) := by
  induction l with
  | nil =>
    intro n hn
    cases n with
    | zero => simp at hn
    | succ n => simp [fgetsLine]
  | cons c t ih =>
    intro n hn
    cases n with
    | zero => simp at hn
    | succ n =>
      have hc : c ≠ '\n' := fun e => h (by simp [e])
      have ht : '\n' ∉ t := fun e => h (List.mem_cons_of_mem _ e)
      have := ih ht n (by simpa using hn)
      show fgetsLine (n + 1) (c :: (t ++ '\n' :: rest)) = _
      rw [fgetsLine, if_neg hc, this]
      rfl

theorem cstr_eq_self (l : Bytes) (h : '\x00' ∉ l) : cstr l = l := by
  unfold cstr
  rw [List.takeWhile_eq_self_iff]
  intro c hc
  have : c ≠ '\x00' := fun e => h (e ▸ hc)
  simpa using this

theorem fread_append (l rest : Bytes) : fread l.length (l ++ rest) = some (l, rest) := by
  unfold fread
  rw [if_pos (by simp)]
  simp

/-- Header line of the store: a marker, a number in decimal, CR LF. -/
theorem fgets_header (c : Char) (n : Nat) (rest : Bytes) (hc : c ≠ '\n') (hn : n < 2 ^ 64) :
    fgets 128 (c :: (Nat.toDigits 10 n ++ ('\r' :: '\n' :: rest))) =
      some (c :: (Nat.toDigits 10 n ++ ['\r', '\n']), rest) := by
  have hdig := toDigits_isDigit n
  have hlen := toDigits_length_le n hn
  have hnl : '\n' ∉ c :: (Nat.toDigits 10 n ++ ['\r']) := by
    intro hm
    rcases List.mem_cons.mp hm with e | e
    · exact hc e.symm
    · rcases List.mem_append.mp e with e | e
      · exact absurd (hdig _ e) (by decide)
      · simp at e
  have := fgetsLine_line (c :: (Nat.toDigits 10 n ++ ['\r'])) rest hnl 127
    (by simp; omega)
  unfold fgets
  simp only [List.cons_append, List.append_assoc, List.singleton_append, List.nil_append]
    at this
  show some (fgetsLine 127 _) = _
  rw [this]

theorem cstr_header (c : Char) (n : Nat) (hc : c ≠ '\x00') :
    cstr (c :: (Nat.toDigits 10 n ++ ['\r', '\n'])) = c :: (Nat.toDigits 10 n ++ ['\r', '\n']) := by
  apply cstr_eq_self
  have hdig := toDigits_isDigit n
  intro hm
  rcases List.mem_cons.mp hm with e | e
  · exact hc e.symm
  · rcases List.mem_append.mp e with e | e
    · exact absurd (hdig _ e) (by decide)
    · simp at e

theorem readBulkStrings_bulkStrings : ∀ (args : List Bytes) (j : Nat) (v : IndexerVars)
    (rest : Bytes) (seek : Nat), (∀ a ∈ args, a.length < 2 ^ 63) → seek < 2 ^ 64 →
    readBulkStrings args.length j v (bulkStrings args ++ rest) seek =
      some (readArguments j v args, rest, (seek + (bulkStrings args).length) % 2 ^ 64) := by
  intro args
  induction args with
  | nil =>
    intro j v rest seek _ hseek
    simp only [readBulkStrings, bulkStrings, readArguments, List.length_nil, List.nil_append,
      Nat.add_zero]
    rw [Nat.mod_eq_of_lt hseek]
  | cons a more ih =>
    intro j v rest seek h hseek
    have ha : a.length < 2 ^ 63 := h a (by simp)
    have hlen : (strtol (Nat.toDigits 10 a.length ++ ['\r', '\n']) % 2 ^ 64).toNat = a.length := by
      rw [strtol_toDigits _ ha]
      have : ((a.length : Nat) : Int) % 2 ^ 64 = a.length := by
        apply Int.emod_eq_of_lt (by omega)
        have : (a.length : Int) < 2 ^ 63 := by exact_mod_cast ha
        omega
      rw [this]; simp
    have hfp : bulkStrings (a :: more) ++ rest =
        '$' :: (Nat.toDigits 10 a.length ++
          ('\r' :: '\n' :: (a ++ ('\r' :: '\n' :: (bulkStrings more ++ rest))))) := by
      simp [bulkStrings, bulkString]
    rw [hfp]
    show readBulkStrings (more.length + 1) j v _ seek = _
    rw [readBulkStrings, fgets_header '$' a.length _ (by decide) (by omega)]
    dsimp only
    rw [cstr_header '$' _ (by decide)]
    dsimp only
    rw [if_neg (by simp), hlen]
    have hread : (if a.length = 0 then some (([] : Bytes), a ++ ('\r' :: '\n' :: (bulkStrings more ++ rest)))
        else fread a.length (a ++ ('\r' :: '\n' :: (bulkStrings more ++ rest)))) =
        some (a, '\r' :: '\n' :: (bulkStrings more ++ rest)) := by
      by_cases h0 : a.length = 0
      · rw [if_pos h0]
        have : a = [] := List.length_eq_zero.mp h0
        subst this; rfl
      · rw [if_neg h0, fread_append]
    rw [hread]
    dsimp only
    have h2 : fread 2 ('\r' :: '\n' :: (bulkStrings more ++ rest)) =
        some (['\r', '\n'], bulkStrings more ++ rest) := fread_append ['\r', '\n'] _
    rw [h2]
    dsimp only
    rw [ih (j + 1) _ rest _ (fun b hb => h b (List.mem_cons_of_mem _ hb))
      (Nat.mod_lt _ (by norm_num))]
    simp only [readArguments, bulkStrings, bulkString, List.length_cons, List.length_append]
    congr 3
    omega

theorem toInt64_of_lt (n : Nat) (h : n < 2 ^ 63) : toInt64 n = n := by
  unfold toInt64
  have : (n : Int) < 2 ^ 63 := by exact_mod_cast h
  omega

theorem fseek_of_lt (n : Nat) (h : n < 2 ^ 63) : fseek n = n := by
  unfold fseek
  rw [toInt64_of_lt n h]
  simp

theorem atoi_toDigits (n : Nat) (h : n < 2 ^ 31) :
    atoi (Nat.toDigits 10 n ++ ['\r', '\n']) = n := by
  unfold atoi
  rw [strtol_toDigits n (lt_trans h (by norm_num))]
  unfold toInt32
  have : (n : Int) < 2 ^ 31 := by exact_mod_cast h
  omega

theorem walBytes_cons (frame : LogFrame) (more : List LogFrame) :
    walBytes (frame :: more) = '*' :: (Nat.toDigits 10 frame.length ++
      ('\r' :: '\n' :: (bulkStrings frame ++ walBytes more))) := by
  simp [walBytes, frameBytes]

theorem walBytes_cons_length (frame : LogFrame) (more : List LogFrame) :
    (walBytes (frame :: more)).length =
      ('*' :: (Nat.toDigits 10 frame.length ++ ['\r', '\n'])).length +
        (bulkStrings frame).length + (walBytes more).length := by
  rw [walBytes_cons]
  simp only [List.length_cons, List.length_append, List.length_nil]
  omega

theorem length_le_walBytes (frames : List LogFrame) :
    frames.length ≤ (walBytes frames).length := by
  induction frames with
  | nil => simp
  | cons f more ih =>
    rw [walBytes_cons_length]
    simp only [List.length_cons]
    omega

theorem readRecords_walBytes (mem : Nat → Int × Int) : ∀ (more : List LogFrame)
    (frame : LogFrame) (v : IndexerVars) (list : List recordToIndex) (seek fuel : Nat),
    storeFrames (frame :: more) → more.length < fuel → seek < 2 ^ 64 →
    readRecords mem fuel v list ('*' :: (Nat.toDigits 10 frame.length ++ ['\r', '\n']))
        (bulkStrings frame ++ walBytes more) seek =
      (readFrames mem v list (frame :: more)).map
        (fun r => (r.1, r.2, (seek + (walBytes (frame :: more)).length) % 2 ^ 64)) := by
  intro more
  induction more with
  | nil =>
    intro frame v list seek fuel hwf hfuel hseek
    obtain ⟨hargc, hargs⟩ := hwf frame (by simp)
    cases fuel with
    | zero => simp at hfuel
    | succ fuel =>
      rw [readRecords, readRecord, cstr_header '*' _ (by decide)]
      dsimp only
      rw [if_neg (by simp), if_neg (by simp), atoi_toDigits _ hargc, readFrames]
      by_cases h1 : frame.length < 1
      · rw [if_pos (by exact_mod_cast h1), if_pos h1]; rfl
      · rw [if_neg (by exact_mod_cast h1), if_neg h1, Int.toNat_ofNat,
          readBulkStrings_bulkStrings frame 0 v _ _ hargs
          (Nat.mod_lt _ (by norm_num))]
        dsimp only
        cases addRecordToIndex list (readArguments 0 v frame).command
            (readArguments 0 v frame).key (readArguments 0 v frame).value (mem list.length) with
        | none => rfl
        | some list1 =>
          dsimp only
          rw [walBytes_cons_length]
          simp [walBytes, fgets, readFrames]
          omega
  | cons f2 more2 ih =>
    intro frame v list seek fuel hwf hfuel hseek
    obtain ⟨hargc, hargs⟩ := hwf frame (by simp)
    have hwf2 : storeFrames (f2 :: more2) := fun f hf => hwf f (List.mem_cons_of_mem _ hf)
    cases fuel with
    | zero => simp at hfuel
    | succ fuel =>
      rw [readRecords, readRecord, cstr_header '*' _ (by decide)]
      dsimp only
      rw [if_neg (by simp), if_neg (by simp), atoi_toDigits _ hargc, readFrames]
      by_cases h1 : frame.length < 1
      · rw [if_pos (by exact_mod_cast h1), if_pos h1]; rfl
      · rw [if_neg (by exact_mod_cast h1), if_neg h1, Int.toNat_ofNat,
          readBulkStrings_bulkStrings frame 0 v _ _ hargs
          (Nat.mod_lt _ (by norm_num))]
        dsimp only
        cases addRecordToIndex list (readArguments 0 v frame).command
            (readArguments 0 v frame).key (readArguments 0 v frame).value (mem list.length) with
        | none => rfl
        | some list1 =>
          dsimp only
          rw [walBytes_cons f2 more2,
            fgets_header '*' f2.length _ (by decide) (lt_trans (hwf2 f2 (by simp)).1 (by norm_num))]
          dsimp only
          rw [ih f2 _ list1 _ fuel hwf2 (by simpa using hfuel) (Nat.mod_lt _ (by norm_num))]
          rw [walBytes_cons_length frame]
          cases readFrames mem (readArguments 0 v frame) list1 (f2 :: more2) with
          | none => rfl
          | some r =>
            simp only [Option.map_some']
            congr 3
            omega

/-- A round of the indexer on a file whose unread part is made of frames written by the store
is the round told on the frames. -/
theorem indexesSequentialLogToIndexedLogV2_walBytes (mem : Nat → Int × Int) (s : IndexerState)
    (v : IndexerVars) (done : Bytes) (frames : List LogFrame)
    (hon : s.indexer_state = true) (hwf : storeFrames frames) (hdone : done.length < 2 ^ 63) :
    indexesSequentialLogToIndexedLogV2 mem s v done.length (done ++ walBytes frames) =
      (indexFrames mem s v frames ((done.length + (walBytes frames).length) % 2 ^ 64)).map
        (fun r => (r.1, r.2, (done.length + (walBytes frames).length) % 2 ^ 64)) := by
  unfold indexesSequentialLogToIndexedLogV2 indexFrames
  rw [if_neg (by simp [hon]), if_neg (by simp [hon]), fseek_of_lt _ hdone, List.drop_left]
  cases frames with
  | nil =>
    simp [walBytes, fgets, readFrames]
    omega
  | cons frame more =>
    rw [walBytes_cons frame more,
      fgets_header '*' frame.length _ (by decide) (lt_trans (hwf frame (by simp)).1 (by norm_num))]
    dsimp only
    rw [readRecords_walBytes mem more frame v [] done.length _ hwf
      (by
        have := length_le_walBytes more
        simp only [List.length_append, List.length_cons]
        omega) (lt_trans hdone (by norm_num))]
    rw [← walBytes_cons frame more]
    cases readFrames mem v [] (frame :: more) with
    | none => rfl
    | some r =>
      obtain ⟨v1, list⟩ := r
      cases list with
      | nil => rfl
      | cons ri next => rfl

theorem indexedLogOf_walBytes (mem : Nat → Int × Int) (frames : List LogFrame)
    (hwf : storeFrames frames) :
    indexedLogOf mem (walBytes frames) = indexedLogOfFrames mem frames := by
  have h := indexesSequentialLogToIndexedLogV2_walBytes mem emptyIndexer initialIndexerVars []
    frames rfl hwf (by simp)
  simp only [List.length_nil, List.nil_append, Nat.zero_add] at h
  unfold indexedLogOf indexedLogOfFrames
  rw [h]
  unfold indexFrames
  rw [if_neg (by decide), if_neg (by decide)]
  cases readFrames mem initialIndexerVars [] frames with
  | none => rfl
  | some r =>
    obtain ⟨v1, list⟩ := r
    cases list with
    | nil => rfl
    | cons ri next =>
      show some (writeToIndexedLog emptyIndexer (ri :: next) _).state.dbp =
        some (writeToIndexedLog emptyIndexer (ri :: next) _).state.dbp
      rw [writeToIndexedLog_dbp, writeToIndexedLog_dbp]

theorem storeFrames_nil : storeFrames [] := by
  intro f hf
  simp at hf

theorem storeFrames_cons (f : LogFrame) (more : List LogFrame) (hf : f.length < 2 ^ 31)
    (ha : ∀ a ∈ f, a.length < 2 ^ 63) (hm : storeFrames more) : storeFrames (f :: more) := by
  intro g hg
  rcases List.mem_cons.mp hg with e | e
  · subst e; exact ⟨hf, ha⟩
  · exact hm g e

theorem storeFrames_three (c k val : Bytes) (more : List LogFrame) (hc : c.length < 2 ^ 63)
    (hk : k.length < 2 ^ 63) (hv : val.length < 2 ^ 63) (hm : storeFrames more) :
    storeFrames ([c, k, val] :: more) := by
  apply storeFrames_cons _ _ (by simp) _ hm
  intro a ha
  simp only [List.mem_cons, List.mem_singleton, List.not_mem_nil, or_false] at ha
  rcases ha with e | e | e <;> subst e <;> assumption

theorem objectBytes_length (n x : Nat) : (objectBytes n x).length = n := by
  induction n generalizing x with
  | zero => rfl
  | succ n ih => simp [objectBytes, ih]

theorem objectBytes_lt (n x : Nat) : ∀ b ∈ objectBytes n x, b < 256 := by
  induction n generalizing x with
  | zero => simp [objectBytes]
  | succ n ih =>
    intro b hb
    simp only [objectBytes, List.mem_cons] at hb
    rcases hb with e | e
    · rw [e]; exact Nat.mod_lt _ (by norm_num)
    · exact ih _ b e

theorem objectValue_objectBytes (n x : Nat) : objectValue (objectBytes n x) = x % 256 ^ n := by
  induction n generalizing x with
  | zero => simp [objectBytes, objectValue, Nat.mod_one]
  | succ n ih =>
    simp only [objectBytes, objectValue, ih]
    rw [pow_succ, Nat.mul_comm (256 ^ n) 256, Nat.mod_mul]

theorem readFinalLogSeek_writeFinalLogSeek (seek : Nat) :
    readFinalLogSeek (some (writeFinalLogSeek seek)) = toInt64 ((seek % 2 ^ 64 : Nat) : Int) := by
  unfold readFinalLogSeek writeFinalLogSeek
  have hlen := objectBytes_length 8 (seek % 2 ^ 64)
  dsimp only
  rw [if_neg (by omega), List.take_of_length_le (by omega), objectValue_objectBytes]
  have : seek % 2 ^ 64 % 256 ^ 8 = seek % 2 ^ 64 := Nat.mod_eq_of_lt (by
    have := Nat.mod_lt seek (show 0 < 2 ^ 64 by norm_num)
    norm_num at this ⊢
    exact this)
  rw [this]

theorem readFinalLogSeek_offsetFile (x : Nat) (h : x < 2 ^ 63) :
    readFinalLogSeek (offsetFile (some x)) = x := by
  show readFinalLogSeek (some (writeFinalLogSeek x)) = _
  rw [readFinalLogSeek_writeFinalLogSeek, Nat.mod_eq_of_lt (lt_trans h (by norm_num)),
    toInt64_of_lt x h]

theorem readFinalLogSeek_missing : readFinalLogSeek (offsetFile none) = -1 := rfl

/-! ## Startup catch-up on frames written by the store -/

theorem addOffset_of_lt (seek : Int) (n : Nat) (h0 : 0 ≤ seek) (h : seek + n < 2 ^ 63) :
    addOffset seek n = seek + n := by
  unfold addOffset toInt64
  omega

theorem initialIndexes_apply_seek (replicated : Bool) (st : InitialState) :
    (initialIndexes_apply replicated st).seek_log_file = st.seek_log_file := by
  unfold initialIndexes_apply
  dsimp only
  split_ifs <;> rfl

theorem initialIndexes_apply_count (replicated : Bool) (st : InitialState) :
    (initialIndexes_apply replicated st).count_records = st.count_records := by
  unfold initialIndexes_apply
  dsimp only
  split_ifs <;> rfl

theorem initialIndexes_arguments_bulkStrings : ∀ (args : List Bytes) (j : Nat) (argc : Int)
    (v : InitialVars) (rest : Bytes) (seek : Int), (∀ a ∈ args, a.length < 2 ^ 63) →
    0 ≤ seek → seek + (bulkStrings args).length < 2 ^ 63 →
    initialIndexes_arguments args.length j argc v (bulkStrings args ++ rest) seek =
      some (initialIndexes_frameArguments argc j v args, rest,
        seek + (bulkStrings args).length) := by
  intro args
  induction args with
  | nil =>
    intro j argc v rest seek _ _ _
    simp [initialIndexes_arguments, bulkStrings, initialIndexes_frameArguments]
  | cons a more ih =>
    intro j argc v rest seek h h0 hlt
    have ha : a.length < 2 ^ 63 := h a (by simp)
    have hlen : (strtol (Nat.toDigits 10 a.length ++ ['\r', '\n']) % 2 ^ 64).toNat = a.length := by
      rw [strtol_toDigits _ ha]
      have : ((a.length : Nat) : Int) % 2 ^ 64 = a.length := by
        apply Int.emod_eq_of_lt (by omega)
        have : (a.length : Int) < 2 ^ 63 := by exact_mod_cast ha
        omega
      rw [this]; simp
    have hfp : bulkStrings (a :: more) ++ rest =
        '$' :: (Nat.toDigits 10 a.length ++
          ('\r' :: '\n' :: (a ++ ('\r' :: '\n' :: (bulkStrings more ++ rest))))) := by
      simp [bulkStrings, bulkString]
    have hsize : (bulkStrings (a :: more)).length =
        ('$' :: (Nat.toDigits 10 a.length ++ ['\r', '\n'])).length + a.length + 2 +
          (bulkStrings more).length := by
      simp only [bulkStrings, bulkString, List.length_cons, List.length_append, List.length_nil]
      omega
    rw [hfp]
    show initialIndexes_arguments (more.length + 1) j argc v _ seek = _
    rw [initialIndexes_arguments, fgets_header '$' a.length _ (by decide) (by omega)]
    dsimp only
    rw [cstr_header '$' _ (by decide)]
    dsimp only
    rw [if_neg (by simp), hlen]
    have hread : (if a.length = 0 then
          some (([] : Bytes), a ++ ('\r' :: '\n' :: (bulkStrings more ++ rest)))
        else fread a.length (a ++ ('\r' :: '\n' :: (bulkStrings more ++ rest)))) =
        some (a, '\r' :: '\n' :: (bulkStrings more ++ rest)) := by
      by_cases h0 : a.length = 0
      · rw [if_pos h0]
        have : a = [] := List.length_eq_zero.mp h0
        subst this; rfl
      · rw [if_neg h0, fread_append]
    rw [hread]
    dsimp only
    have h2 : fread 2 ('\r' :: '\n' :: (bulkStrings more ++ rest)) =
        some (['\r', '\n'], bulkStrings more ++ rest) := fread_append ['\r', '\n'] _
    rw [h2]
    dsimp only
    rw [hsize] at hlt
    push_cast at hlt
    rw [addOffset_of_lt seek _ h0 (by omega),
      addOffset_of_lt _ a.length (by omega) (by omega),
      addOffset_of_lt _ 2 (by omega) (by push_cast; omega)]
    rw [ih (j + 1) argc _ rest _ (fun b hb => h b (List.mem_cons_of_mem _ hb)) (by omega)
      (by push_cast; omega)]
    rw [hsize]
    simp only [initialIndexes_frameArguments, headerLine]
    congr 3
    push_cast
    omega

theorem initialIndexes_frame_seek (replicated : Bool) (st : InitialState) (frame : LogFrame) :
    (initialIndexes_frame replicated st frame).seek_log_file =
      st.seek_log_file + (frameBytes frame).length := by
  unfold initialIndexes_frame
  rw [initialIndexes_apply_seek]

theorem initialIndexes_while_walBytes (replicated : Bool) : ∀ (frames : List LogFrame)
    (st : InitialState) (fuel : Nat), storeFrames frames → commandFrames frames →
    frames.length < fuel → 0 ≤ st.seek_log_file →
    st.seek_log_file + (walBytes frames).length < 2 ^ 63 →
    initialIndexes_while replicated fuel st (walBytes frames) =
      some (frames.foldl (initialIndexes_frame replicated) st) := by
  intro frames
  induction frames with
  | nil =>
    intro st fuel _ _ hfuel _ _
    cases fuel with
    | zero => simp at hfuel
    | succ fuel => simp [initialIndexes_while, walBytes, fgets]
  | cons frame more ih =>
    intro st fuel hwf hcmd hfuel h0 hlt
    obtain ⟨hargc, hargs⟩ := hwf frame (by simp)
    have h1 : 1 ≤ frame.length := hcmd frame (by simp)
    have hwf2 : storeFrames more := fun f hf => hwf f (List.mem_cons_of_mem _ hf)
    have hcmd2 : commandFrames more := fun f hf => hcmd f (List.mem_cons_of_mem _ hf)
    have hsize := walBytes_cons_length frame more
    have hfsize : (frameBytes frame).length =
        ('*' :: (Nat.toDigits 10 frame.length ++ ['\r', '\n'])).length +
          (bulkStrings frame).length := by
      simp only [frameBytes, List.length_cons, List.length_append, List.length_nil]
      omega
    cases fuel with
    | zero => simp at hfuel
    | succ fuel =>
      rw [walBytes_cons frame more, initialIndexes_while,
        fgets_header '*' frame.length _ (by decide) (lt_trans hargc (by norm_num))]
      dsimp only
      rw [cstr_header '*' _ (by decide)]
      dsimp only
      rw [if_neg (by simp), if_neg (by simp), atoi_toDigits _ hargc,
        if_neg (by
          have : (1 : Int) ≤ frame.length := by exact_mod_cast h1
          omega), Int.toNat_ofNat]
      rw [hsize] at hlt
      push_cast at hlt
      rw [addOffset_of_lt _ _ h0 (by omega),
        initialIndexes_arguments_bulkStrings frame 0 _ _ _ _ hargs (by omega)
          (by push_cast; omega)]
      dsimp only
      rw [List.foldl_cons]
      have hst : initialIndexes_apply replicated
          { st with
            v := initialIndexes_frameArguments frame.length 0
              { st.v with log_record := '*' :: (Nat.toDigits 10 frame.length ++ ['\r', '\n']) }
              frame
            seek_log_file := st.seek_log_file +
              (('*' :: (Nat.toDigits 10 frame.length ++ ['\r', '\n'])).length : Nat) +
              ((bulkStrings frame).length : Nat)
            count_records := st.count_records + 1 } =
          initialIndexes_frame replicated st frame := by
        unfold initialIndexes_frame headerLine
        rw [hfsize]
        push_cast
        rw [add_assoc]
      rw [hst]
      apply ih _ fuel hwf2 hcmd2 (by simpa using hfuel)
      · rw [initialIndexes_frame_seek]; omega
      · rw [initialIndexes_frame_seek, hfsize]; push_cast; omega

theorem foldl_initialIndexes_frame_seek (replicated : Bool) (frames : List LogFrame)
    (st : InitialState) :
    (frames.foldl (initialIndexes_frame replicated) st).seek_log_file =
      st.seek_log_file + (walBytes frames).length := by
  induction frames generalizing st with
  | nil => simp [walBytes]
  | cons f more ih =>
    rw [List.foldl_cons, ih, initialIndexes_frame_seek]
    simp only [walBytes, List.length_append]
    push_cast
    omega

theorem foldl_initialIndexes_frame_count (replicated : Bool) (frames : List LogFrame)
    (st : InitialState) :
    (frames.foldl (initialIndexes_frame replicated) st).count_records =
      st.count_records + frames.length := by
  induction frames generalizing st with
  | nil => simp
  | cons f more ih =>
    rw [List.foldl_cons, ih]
    unfold initialIndexes_frame
    rw [initialIndexes_apply_count]
    simp only [List.length_cons]
    omega

theorem initialIndexes_start_normal (w : IRSystem) (records : DB) (x : Nat)
    (hlog : w.indexedlog = LogFile.db records) (hseek : w.final_log_seek = some x)
    (hx : x < 2 ^ 63) : initialIndexes_start w = (w, (x : Int)) := by
  unfold initialIndexes_start
  rw [hseek, readFinalLogSeek_offsetFile x hx, hlog]
  have h1 : ¬ ((x : Int) = -1) := by omega
  simp [openIndexedLog, h1]

set_option maxRecDepth 512

theorem initialIndexes_index_some (w : IRSystem) (seek : Int) (file : LogFile) (bytes : Bytes)
    (replica : Bool × LogFile) (st : InitialState)
    (hopen : openIndexedLog w.indexedlog 'W' = (true, file)) (haof : w.aof = some bytes)
    (hne : bytes ≠ [])
    (hrep : (if w.indexedlog_replicated = true then openIndexedLog w.indexedlog_replica 'W'
      else (true, w.indexedlog_replica)) = replica)
    (hrepl : replica.1 = true)
    (hwhile : initialIndexes_while w.indexedlog_replicated (bytes.length + 1)
      (initialIndexes_init file.records replica.2.records w.calls seek)
      (bytes.drop (fseek seek)) = some st) :
    ∃ w1, initialIndexes_index w seek = some (w1, st.count_records) ∧
      w1.indexedlog = LogFile.db st.dbp ∧
      w1.final_log_seek = some (st.seek_log_file % 2 ^ 64).toNat ∧
      w1.seek_log_file = (st.seek_log_file % 2 ^ 64).toNat ∧
      w1.checkpoint_log_seek = w.checkpoint_log_seek ∧
      w1.calls = st.calls ++ [StorageCall.writeFinalLogSeek (st.seek_log_file % 2 ^ 64).toNat,
        StorageCall.close] := by
  unfold initialIndexes_index
  rw [hopen, haof, hrep]
  dsimp only
  rw [if_neg hne, if_neg (by simp [hrepl]), hwhile]
  exact ⟨_, rfl, rfl, rfl, rfl, rfl, rfl⟩

theorem initialIndexes_index_empty (w : IRSystem) (seek : Int) (file : LogFile)
    (hopen : openIndexedLog w.indexedlog 'W' = (true, file)) (haof : w.aof = some []) :
    ∃ w1, initialIndexes_index w seek = some (w1, 0) ∧
      w1.indexedlog = file ∧ w1.final_log_seek = some 0 ∧
      w1.seek_log_file = w.seek_log_file ∧
      w1.checkpoint_log_seek = w.checkpoint_log_seek ∧
      w1.calls = w.calls ++ [StorageCall.writeFinalLogSeek 0, StorageCall.close] := by
  unfold initialIndexes_index
  rw [hopen, haof]
  dsimp only
  rw [if_pos rfl]
  exact ⟨_, rfl, rfl, rfl, rfl, rfl, rfl⟩

theorem replica_opens (w : IRSystem)
    (hrep : w.indexedlog_replicated = true → w.indexedlog_replica ≠ LogFile.corrupt) :
    (if w.indexedlog_replicated = true then openIndexedLog w.indexedlog_replica 'W'
      else (true, w.indexedlog_replica)).1 = true := by
  by_cases hr : w.indexedlog_replicated = true
  · rw [if_pos hr]
    have := hrep hr
    cases hrf : w.indexedlog_replica with
    | missing => rfl
    | corrupt => exact absurd hrf this
    | db r => rfl
  · rw [if_neg hr]

/-! ## Positions tracked by the readers -/

theorem fgetsLine_append (n : Nat) (fp : Bytes) :
    (fgetsLine n fp).1 ++ (fgetsLine n fp).2 = fp := by
  induction n generalizing fp with
  | zero => cases fp <;> simp [fgetsLine]
  | succ n ih =>
    cases fp with
    | nil => simp [fgetsLine]
    | cons c cs =>
      by_cases hc : c = '\n'
      · simp [fgetsLine, hc]
      · simp [fgetsLine, hc, ih cs]

theorem fgets_length (size : Nat) (fp buf fp1 : Bytes) (h : fgets size fp = some (buf, fp1)) :
    buf.length + fp1.length = fp.length := by
  unfold fgets at h
  cases fp with
  | nil => simp at h
  | cons c cs =>
    simp only [Option.some.injEq] at h
    have := fgetsLine_append (size - 1) (c :: cs)
    rw [h] at this
    rw [← this, List.length_append]

theorem fread_length (len : Nat) (fp a rest : Bytes) (h : fread len fp = some (a, rest)) :
    a.length = len ∧ a.length + rest.length = fp.length := by
  unfold fread at h
  by_cases hl : len ≤ fp.length
  · rw [if_pos hl] at h
    simp only [Option.some.injEq, Prod.mk.injEq] at h
    obtain ⟨h1, h2⟩ := h
    subst h1; subst h2
    simp only [List.length_take, List.length_drop]
    omega
  · rw [if_neg hl] at h
    simp at h

theorem fread_or_empty_length (len : Nat) (fp a rest : Bytes)
    (h : (if len = 0 then some (([] : Bytes), fp) else fread len fp) = some (a, rest)) :
    a.length = len ∧ a.length + rest.length = fp.length := by
  by_cases h0 : len = 0
  · rw [if_pos h0] at h
    simp only [Option.some.injEq, Prod.mk.injEq] at h
    obtain ⟨h1, h2⟩ := h
    subst h1; subst h2
    simp [h0]
  · rw [if_neg h0] at h
    exact fread_length len fp a rest h

theorem readBulkStrings_seek : ∀ (n j : Nat) (v : IndexerVars) (fp : Bytes) (seek : Nat)
    (v1 : IndexerVars) (fp1 : Bytes) (seek1 : Nat),
    readBulkStrings n j v fp seek = some (v1, fp1, seek1) → seek + fp.length < 2 ^ 64 →
    seek ≤ seek1 ∧ seek1 + fp1.length ≤ seek + fp.length := by
  intro n
  induction n with
  | zero =>
    intro j v fp seek v1 fp1 seek1 h _
    simp only [readBulkStrings, Option.some.injEq, Prod.mk.injEq] at h
    obtain ⟨_, h2, h3⟩ := h
    subst h2; subst h3
    exact ⟨le_refl _, le_refl _⟩
  | succ n ih =>
    intro j v fp seek v1 fp1 seek1 h hlt
    rw [readBulkStrings] at h
    cases hg : fgets 128 fp with
    | none => rw [hg] at h; simp at h
    | some r =>
      obtain ⟨buf, fpa⟩ := r
      rw [hg] at h
      dsimp only at h
      have hgl := fgets_length 128 fp buf fpa hg
      have hcl := length_cstr_le buf
      cases hc : cstr buf with
      | nil => rw [hc] at h; simp at h
      | cons c t =>
        rw [hc] at h hcl
        dsimp only at h
        by_cases hd : c ≠ '$'
        · rw [if_pos hd] at h; simp at h
        · rw [if_neg hd] at h
          cases hr : (if (strtol t % 2 ^ 64).toNat = 0 then some (([] : Bytes), fpa)
              else fread (strtol t % 2 ^ 64).toNat fpa) with
          | none => rw [hr] at h; simp at h
          | some r2 =>
            obtain ⟨argsds, fpb⟩ := r2
            rw [hr] at h
            dsimp only at h
            have hrl := fread_or_empty_length _ fpa argsds fpb hr
            cases h2 : fread 2 fpb with
            | none => rw [h2] at h; simp at h
            | some r3 =>
              obtain ⟨crlf, fpc⟩ := r3
              rw [h2] at h
              dsimp only at h
              have h2l := fread_length 2 fpb crlf fpc h2
              have hmod : (seek + (c :: t).length + (strtol t % 2 ^ 64).toNat + 2) % 2 ^ 64 =
                  seek + (c :: t).length + (strtol t % 2 ^ 64).toNat + 2 :=
                Nat.mod_eq_of_lt (by omega)
              rw [hmod] at h
              have := ih _ _ _ _ _ _ _ h (by omega)
              omega

theorem readRecord_seek (buf fp : Bytes) (v : IndexerVars) (seek : Nat)
    (v1 : IndexerVars) (fp1 : Bytes) (seek1 : Nat)
    (h : readRecord buf fp v seek = some (v1, fp1, seek1))
    (hlt : seek + buf.length + fp.length < 2 ^ 64) :
    seek ≤ seek1 ∧ seek1 + fp1.length ≤ seek + buf.length + fp.length := by
  unfold readRecord at h
  have hcl := length_cstr_le buf
  cases hc : cstr buf with
  | nil => rw [hc] at h; simp at h
  | cons c t =>
    rw [hc] at h hcl
    dsimp only at h
    split_ifs at h
    have hmod : (seek + (c :: t).length) % 2 ^ 64 = seek + (c :: t).length :=
      Nat.mod_eq_of_lt (by omega)
    rw [hmod] at h
    have := readBulkStrings_seek _ _ _ _ _ _ _ _ h (by omega)
    omega

theorem readRecords_seek (mem : Nat → Int × Int) : ∀ (fuel : Nat) (v : IndexerVars)
    (list : List recordToIndex) (buf fp : Bytes) (seek : Nat) (v1 : IndexerVars)
    (list1 : List recordToIndex) (seek1 : Nat),
    readRecords mem fuel v list buf fp seek = some (v1, list1, seek1) →
    seek + buf.length + fp.length < 2 ^ 64 →
    seek ≤ seek1 ∧ seek1 ≤ seek + buf.length + fp.length := by
  intro fuel
  induction fuel with
  | zero => intro v list buf fp seek v1 list1 seek1 h; simp [readRecords] at h
  | succ fuel ih =>
    intro v list buf fp seek v1 list1 seek1 h hlt
    rw [readRecords] at h
    cases hr : readRecord buf fp v seek with
    | none => rw [hr] at h; simp at h
    | some r =>
      obtain ⟨va, fpa, seeka⟩ := r
      rw [hr] at h
      dsimp only at h
      have hra := readRecord_seek buf fp v seek va fpa seeka hr hlt
      cases ha : addRecordToIndex list va.command va.key va.value (mem list.length) with
      | none => rw [ha] at h; simp at h
      | some lista =>
        rw [ha] at h
        dsimp only at h
        cases hg : fgets 128 fpa with
        | none =>
          rw [hg] at h
          simp only [Option.some.injEq, Prod.mk.injEq] at h
          obtain ⟨_, _, h3⟩ := h
          subst h3
          omega
        | some r2 =>
          obtain ⟨bufb, fpb⟩ := r2
          rw [hg] at h
          dsimp only at h
          have hgl := fgets_length 128 fpa bufb fpb hg
          have := ih _ _ _ _ _ _ _ _ h (by omega)
          omega

theorem addOffset_three (seek : Int) (a b : Nat) (h0 : 0 ≤ seek)
    (h : seek + a + b + 2 < 2 ^ 63) :
    addOffset (addOffset (addOffset seek a) b) 2 = seek + a + b + 2 := by
  rw [addOffset_of_lt seek a h0 (by omega), addOffset_of_lt _ b (by omega) (by omega),
    addOffset_of_lt _ 2 (by omega) (by push_cast; omega)]
  push_cast
  rfl

theorem initialIndexes_arguments_seek : ∀ (n j : Nat) (argc : Int) (v : InitialVars) (fp : Bytes)
    (seek : Int) (v1 : InitialVars) (fp1 : Bytes) (seek1 : Int),
    initialIndexes_arguments n j argc v fp seek = some (v1, fp1, seek1) →
    0 ≤ seek → seek + fp.length < 2 ^ 63 →
    seek ≤ seek1 ∧ seek1 + fp1.length ≤ seek + fp.length := by
  intro n
  induction n with
  | zero =>
    intro j argc v fp seek v1 fp1 seek1 h _ _
    simp only [initialIndexes_arguments, Option.some.injEq, Prod.mk.injEq] at h
    obtain ⟨_, h2, h3⟩ := h
    subst h2; subst h3
    exact ⟨le_refl _, le_refl _⟩
  | succ n ih =>
    intro j argc v fp seek v1 fp1 seek1 h h0 hlt
    rw [initialIndexes_arguments] at h
    cases hg : fgets 128 fp with
    | none => rw [hg] at h; simp at h
    | some r =>
      obtain ⟨buf, fpa⟩ := r
      rw [hg] at h
      dsimp only at h
      have hgl := fgets_length 128 fp buf fpa hg
      have hcl := length_cstr_le buf
      cases hc : cstr buf with
      | nil => rw [hc] at h; simp at h
      | cons c t =>
        rw [hc] at h hcl
        dsimp only at h
        by_cases hd : c ≠ '$'
        · rw [if_pos hd] at h; simp at h
        · rw [if_neg hd] at h
          cases hr : (if (strtol t % 2 ^ 64).toNat = 0 then some (([] : Bytes), fpa)
              else fread (strtol t % 2 ^ 64).toNat fpa) with
          | none => rw [hr] at h; simp at h
          | some r2 =>
            obtain ⟨argsds, fpb⟩ := r2
            rw [hr] at h
            dsimp only at h
            have hrl := fread_or_empty_length _ fpa argsds fpb hr
            cases h2 : fread 2 fpb with
            | none => rw [h2] at h; simp at h
            | some r3 =>
              obtain ⟨crlf, fpc⟩ := r3
              rw [h2] at h
              dsimp only at h
              have h2l := fread_length 2 fpb crlf fpc h2
              have e1 : ((fp.length : Nat) : Int) = buf.length + fpa.length := by
                rw [← hgl]; push_cast; rfl
              have e2 : ((fpa.length : Nat) : Int) = argsds.length + fpb.length := by
                rw [← hrl.2]; push_cast; rfl
              have e3 : ((fpb.length : Nat) : Int) = crlf.length + fpc.length := by
                rw [← h2l.2]; push_cast; rfl
              have e4 : ((c :: t).length : Int) ≤ buf.length := by exact_mod_cast hcl
              have e5 : (crlf.length : Int) = 2 := by exact_mod_cast h2l.1
              have e6 : (((strtol t % 2 ^ 64).toNat : Nat) : Int) = argsds.length := by
                exact_mod_cast hrl.1.symm
              rw [addOffset_three seek _ _ h0 (by omega)] at h
              have := ih _ _ _ _ _ _ _ _ h (by omega) (by push_cast; omega)
              push_cast at this
              omega

theorem initialIndexes_while_seek (replicated : Bool) : ∀ (fuel : Nat) (st : InitialState)
    (fp : Bytes) (st1 : InitialState),
    initialIndexes_while replicated fuel st fp = some st1 →
    0 ≤ st.seek_log_file → st.seek_log_file + fp.length < 2 ^ 63 →
    st.seek_log_file ≤ st1.seek_log_file ∧ st1.seek_log_file ≤ st.seek_log_file + fp.length := by
  intro fuel
  induction fuel with
  | zero => intro st fp st1 h; simp [initialIndexes_while] at h
  | succ fuel ih =>
    intro st fp st1 h h0 hlt
    rw [initialIndexes_while] at h
    cases hg : fgets 128 fp with
    | none =>
      rw [hg] at h
      simp only [Option.some.injEq] at h
      subst h
      omega
    | some r =>
      obtain ⟨buf, fpa⟩ := r
      rw [hg] at h
      dsimp only at h
      have hgl := fgets_length 128 fp buf fpa hg
      have hcl := length_cstr_le buf
      cases hc : cstr buf with
      | nil => rw [hc] at h; simp at h
      | cons c t =>
        rw [hc] at h hcl
        dsimp only at h
        split_ifs at h
        have e1 : ((fp.length : Nat) : Int) = buf.length + fpa.length := by
          rw [← hgl]; push_cast; rfl
        have e4 : ((c :: t).length : Int) ≤ buf.length := by exact_mod_cast hcl
        rw [addOffset_of_lt _ _ h0 (by omega)] at h
        cases ha : initialIndexes_arguments (atoi t).toNat 0 (atoi t)
            { st.v with log_record := c :: t } fpa (st.seek_log_file + ((c :: t).length : Nat)) with
        | none => rw [ha] at h; simp at h
        | some r2 =>
          obtain ⟨va, fpb, seeka⟩ := r2
          rw [ha] at h
          dsimp only at h
          have hm := initialIndexes_arguments_seek _ _ _ _ _ _ _ _ _ ha (by omega) (by omega)
          have := ih _ _ _ h (by rw [initialIndexes_apply_seek]; dsimp only; omega)
            (by rw [initialIndexes_apply_seek]; dsimp only; omega)
          rw [initialIndexes_apply_seek] at this
          dsimp only at this
          omega

/-! ## Offsets stored by the indexer and by startup catch-up -/

theorem writeToIndexedLog_apply_fields (s : IndexerState) (ri : recordToIndex) :
    (writeToIndexedLog_apply s ri).1.final_log_seek = s.final_log_seek ∧
    (writeToIndexedLog_apply s ri).1.seek_log_file = s.seek_log_file := by
  unfold writeToIndexedLog_apply
  split_ifs <;> exact ⟨rfl, rfl⟩

theorem writeToIndexedLog_while_fields (records : List recordToIndex) (s : IndexerState)
    (count_records count_records_indexed : Nat) :
    (writeToIndexedLog_while records s count_records count_records_indexed).1.seek_log_file =
      s.seek_log_file := by
  induction records generalizing s count_records count_records_indexed with
  | nil => rfl
  | cons ri next ih =>
    rw [writeToIndexedLog_while]
    split_ifs
    · rfl
    · dsimp only
      rw [ih, (writeToIndexedLog_apply_fields s ri).2]

theorem writeToIndexedLog_offsets (s : IndexerState) (records : List recordToIndex) (seek : Nat) :
    (writeToIndexedLog s records seek).state.final_log_seek = some seek ∧
    ((writeToIndexedLog s records seek).state.seek_log_file = seek ∨
      (writeToIndexedLog s records seek).state.seek_log_file = s.seek_log_file) := by
  unfold writeToIndexedLog
  have hf := writeToIndexedLog_while_fields records s 0 0
  rcases hw : writeToIndexedLog_while records s 0 0 with ⟨s1, c1, c2, b⟩
  rw [hw] at hf
  cases b
  · exact ⟨rfl, Or.inr hf⟩
  · exact ⟨rfl, Or.inl rfl⟩

/-- A round of the indexer thread never moves its position backwards, and what it stores in
the offset file is the position it has reached. -/
theorem indexesSequentialLogToIndexedLogV2_offsets (mem : Nat → Int × Int) (s : IndexerState)
    (v : IndexerVars) (seek : Nat) (aof : Bytes) (s1 : IndexerState) (v1 : IndexerVars)
    (seek1 : Nat)
    (h : indexesSequentialLogToIndexedLogV2 mem s v seek aof = some (s1, v1, seek1))
    (hs : seek < 2 ^ 63) (ha : aof.length < 2 ^ 63) :
    seek ≤ seek1 ∧ seek1 < 2 ^ 63 ∧
    ((s1.final_log_seek = s.final_log_seek ∧ s1.seek_log_file = s.seek_log_file) ∨
      (s1.final_log_seek = some seek1 ∧
        (s1.seek_log_file = seek1 ∨ s1.seek_log_file = s.seek_log_file))) := by
  unfold indexesSequentialLogToIndexedLogV2 at h
  split_ifs at h
  · simp only [Option.some.injEq, Prod.mk.injEq] at h
    obtain ⟨h1, _, h3⟩ := h
    subst h1; subst h3
    exact ⟨le_refl _, hs, Or.inl ⟨rfl, rfl⟩⟩
  · rw [fseek_of_lt seek hs] at h
    cases hg : fgets 128 (aof.drop seek) with
    | none =>
      rw [hg] at h
      simp only [Option.some.injEq, Prod.mk.injEq] at h
      obtain ⟨h1, _, h3⟩ := h
      subst h1; subst h3
      exact ⟨le_refl _, hs, Or.inl ⟨rfl, rfl⟩⟩
    | some r =>
      obtain ⟨buf, fp⟩ := r
      rw [hg] at h
      dsimp only at h
      have hgl := fgets_length 128 _ buf fp hg
      rw [List.length_drop] at hgl
      have hpos : 0 < buf.length + fp.length := by
        unfold fgets at hg
        cases hd : aof.drop seek with
        | nil => rw [hd] at hg; simp at hg
        | cons c cs =>
          have : (aof.drop seek).length = cs.length + 1 := by rw [hd]; rfl
          rw [List.length_drop] at this
          omega
      cases hr : readRecords mem (aof.length + 1) v [] buf fp seek with
      | none => rw [hr] at h; simp at h
      | some r2 =>
        obtain ⟨v2, list, seek2⟩ := r2
        rw [hr] at h
        have hm := readRecords_seek mem _ _ _ _ _ _ _ _ _ hr (by omega)
        cases list with
        | nil =>
          simp only [Option.some.injEq, Prod.mk.injEq] at h
          obtain ⟨h1, _, h3⟩ := h
          subst h1; subst h3
          exact ⟨hm.1, by omega, Or.inl ⟨rfl, rfl⟩⟩
        | cons ri next =>
          simp only [Option.some.injEq, Prod.mk.injEq] at h
          obtain ⟨h1, _, h3⟩ := h
          subst h1; subst h3
          exact ⟨hm.1, by omega, Or.inr (writeToIndexedLog_offsets s (ri :: next) seek2)⟩

set_option maxRecDepth 512

/-- What `initialIndexesSequentialLogToIndexedLog` stores when it starts at `seek_log_file` on
a sequential log that is not empty: either it returns early and stores nothing, or it stores
the position it has reached, which is not in front of the start position. -/
theorem initialIndexes_index_offsets (w : IRSystem) (seek : Int) (bytes : Bytes) (w1 : IRSystem)
    (n : Nat) (h : initialIndexes_index w seek = some (w1, n)) (haof : w.aof = some bytes)
    (hne : bytes ≠ []) (h0 : 0 ≤ seek) (hs : seek < 2 ^ 63) (ha : bytes.length < 2 ^ 63) :
    w1.checkpoint_log_seek = w.checkpoint_log_seek ∧
    ((w1.final_log_seek = w.final_log_seek ∧ w1.seek_log_file = w.seek_log_file) ∨
      ∃ y : Nat, w1.final_log_seek = some y ∧ w1.seek_log_file = y ∧ seek ≤ y ∧ y < 2 ^ 63) := by
  unfold initialIndexes_index at h
  rw [haof] at h
  rcases ho : openIndexedLog w.indexedlog 'W' with ⟨ok, file⟩
  rw [ho] at h
  cases ok with
  | false =>
    simp only [Option.some.injEq, Prod.mk.injEq] at h
    obtain ⟨h1, _⟩ := h
    subst h1
    exact ⟨rfl, Or.inl ⟨rfl, rfl⟩⟩
  | true =>
    dsimp only at h
    rw [if_neg hne] at h
    generalize (if w.indexedlog_replicated = true then openIndexedLog w.indexedlog_replica 'W'
      else (true, w.indexedlog_replica)) = replica at h
    by_cases hrep : replica.1 = false
    · rw [if_pos hrep] at h; simp at h
    rw [if_neg hrep] at h
    cases hw : initialIndexes_while w.indexedlog_replicated (bytes.length + 1)
        (initialIndexes_init file.records replica.2.records w.calls seek)
        (bytes.drop (fseek seek)) with
    | none => rw [hw] at h; simp at h
    | some st =>
      rw [hw] at h
      simp only [Option.some.injEq, Prod.mk.injEq] at h
      obtain ⟨h1, _⟩ := h
      subst h1
      have hfs : fseek seek = seek.toNat := by
        unfold fseek toInt64
        have e : (seek + 2 ^ 63) % 2 ^ 64 - 2 ^ 63 = seek := by omega
        rw [e, if_neg (by omega)]
      have hdl : ((bytes.drop (fseek seek)).length : Int) ≤ bytes.length := by
        rw [List.length_drop]; omega
      have hm := initialIndexes_while_seek _ _ _ _ _ hw (by simpa [initialIndexes_init] using h0)
        (by
          simp only [initialIndexes_init]
          rw [hfs, List.length_drop]
          omega)
      simp only [initialIndexes_init] at hm
      rw [hfs, List.length_drop] at hm
      refine ⟨rfl, Or.inr ⟨(st.seek_log_file % 2 ^ 64).toNat, rfl, rfl, ?_, ?_⟩⟩
      · omega
      · omega

set_option maxRecDepth 100000

set_option maxRecDepth 512

theorem initialIndexes_start_no_replica (w : IRSystem) (hrep : w.indexedlog_replicated = false)
    (hinv : offsetsOrdered w) :
    initialIndexes_start w = (w, (storedOffset w.final_log_seek : Int)) := by
  obtain ⟨hc, _, hf, _⟩ := hinv
  unfold initialIndexes_start
  cases hfs : w.final_log_seek with
  | none =>
    rw [hfs] at hc
    have hc0 : storedOffset w.checkpoint_log_seek = 0 := by
      simpa [storedOffset] using hc
    rw [readFinalLogSeek_missing]
    simp only [decide_True, Bool.or_true, if_true, hrep]
    by_cases he : (!(openIndexedLog w.indexedlog 'R').1) = false
    · rw [he]
      simp only [Bool.false_eq_true, if_false, if_true]
      cases hcs : w.checkpoint_log_seek with
      | none => simp [readFinalLogSeek_missing, storedOffset]
      | some c =>
        rw [hcs] at hc0
        have : c = 0 := by simpa [storedOffset] using hc0
        subst this
        rw [readFinalLogSeek_offsetFile 0 (by norm_num)]
        simp [storedOffset]
    · have he2 : (!(openIndexedLog w.indexedlog 'R').1) = true := by
        simpa using he
      rw [he2]
      simp [storedOffset]
  | some x =>
    rw [hfs] at hf
    have hx : x < 2 ^ 63 := by simpa [storedOffset] using hf
    rw [readFinalLogSeek_offsetFile x hx]
    have hne : ¬ ((x : Int) = -1) := by omega
    simp only [hne, decide_False, Bool.or_false, hrep, Bool.false_eq_true, if_false]
    by_cases he : (!(openIndexedLog w.indexedlog 'R').1) = true
    · rw [he]
      simp [storedOffset]
    · have he2 : (!(openIndexedLog w.indexedlog 'R').1) = false := by
        simpa using he
      rw [he2]
      simp [storedOffset]

theorem indexesSequentialLogToIndexedLogV2_seek_some (x : Nat) (hx : x < 2 ^ 63) :
    indexesSequentialLogToIndexedLogV2_seek (some x) = x := by
  unfold indexesSequentialLogToIndexedLogV2_seek
  rw [readFinalLogSeek_offsetFile x hx]
  have : ((x : Int)) % 2 ^ 64 = x := by omega
  rw [this, Int.toNat_ofNat]

theorem checkpointProcess_offsets (idCheckpoint : Int) (stop : Option Nat) (elapsed : Int)
    (w : IRSystem) :
    (checkpointProcess idCheckpoint stop elapsed w).final_log_seek = w.final_log_seek ∧
    (checkpointProcess idCheckpoint stop elapsed w).seek_log_file = w.seek_log_file ∧
    (checkpointProcess idCheckpoint stop elapsed w).indexer_seek_log_file =
      w.indexer_seek_log_file ∧
    ((checkpointProcess idCheckpoint stop elapsed w).checkpoint_log_seek =
        w.checkpoint_log_seek ∨
      (checkpointProcess idCheckpoint stop elapsed w).checkpoint_log_seek =
        some w.seek_log_file) := by
  unfold checkpointProcess
  by_cases h1 : w.checkpoint_state = false
  · rw [if_pos h1]; exact ⟨rfl, rfl, rfl, Or.inl rfl⟩
  · rw [if_neg h1]
    by_cases h2 : w.redis_connects = false
    · rw [if_pos h2]; exact ⟨rfl, rfl, rfl, Or.inl rfl⟩
    · rw [if_neg h2]
      refine ⟨rfl, rfl, rfl, ?_⟩
      dsimp only
      split_ifs <;> first | exact Or.inl rfl | exact Or.inr rfl

/-- Every step keeps the ordering of the stored offsets and does not lower the indexed
offset. -/
theorem IRStep_offsets (w w1 : IRSystem) (hinv : offsetsOrdered w) (hstep : IRStep w w1) :
    offsetsOrdered w1 ∧ storedOffset w.final_log_seek ≤ storedOffset w1.final_log_seek := by
  obtain ⟨hc, hs, hf, ht⟩ := hinv
  cases hstep with
  | append aof more haof => exact ⟨⟨hc, hs, hf, ht⟩, le_refl _⟩
  | catchUp w1 n aof haof hne hlen hrep hrun =>
    unfold initialIndexesSequentialLogToIndexedLog at hrun
    rw [initialIndexes_start_no_replica w hrep ⟨hc, hs, hf, ht⟩] at hrun
    have hf' : ((storedOffset w.final_log_seek : Nat) : Int) < 2 ^ 63 := by exact_mod_cast hf
    have ho := initialIndexes_index_offsets w (storedOffset w.final_log_seek : Int) aof w1 n hrun
      haof hne (by omega) hf' hlen
    obtain ⟨hcp, hcase⟩ := ho
    rcases hcase with ⟨h1, h2⟩ | ⟨y, h1, h2, h3, h4⟩
    · refine ⟨⟨?_, ?_, ?_, ?_⟩, ?_⟩
      · show storedOffset w1.checkpoint_log_seek ≤ storedOffset w1.final_log_seek
        rw [hcp, h1]; exact hc
      · show w1.seek_log_file ≤ storedOffset w1.final_log_seek
        rw [h1, h2]; exact hs
      · show storedOffset w1.final_log_seek < 2 ^ 63
        rw [h1]; exact hf
      · intro seek hseek
        exact absurd hseek (by simp [afterCatchUp])
      · show _ ≤ storedOffset w1.final_log_seek
        rw [h1]
    · have hy : storedOffset w.final_log_seek ≤ y := by exact_mod_cast h3
      refine ⟨⟨?_, ?_, ?_, ?_⟩, ?_⟩
      · show storedOffset w1.checkpoint_log_seek ≤ storedOffset w1.final_log_seek
        rw [hcp, h1]; exact le_trans hc hy
      · show w1.seek_log_file ≤ storedOffset w1.final_log_seek
        rw [h1, h2]; exact le_refl _
      · show storedOffset w1.final_log_seek < 2 ^ 63
        rw [h1]; exact h4
      · intro seek hseek
        exact absurd hseek (by simp [afterCatchUp])
      · show _ ≤ storedOffset w1.final_log_seek
        rw [h1]; exact hy
  | indexerStart x file hseek hopen =>
    have hx : x < 2 ^ 63 := by
      rw [hseek] at hf; exact hf
    refine ⟨⟨hc, hs, hf, ?_⟩, le_refl _⟩
    intro seek hthread
    have : seek = x := by
      have h2 := indexesSequentialLogToIndexedLogV2_seek_some x hx
      rw [← hseek] at h2
      simp only [Option.some.injEq] at hthread
      rw [← hthread, h2]
    subst this
    rw [hseek]
    exact ⟨le_refl _, hx⟩
  | round mem v v1 seek seek1 aof s1 hthread haof hlen hrun =>
    obtain ⟨ht1, ht2⟩ := ht seek hthread
    have ho := indexesSequentialLogToIndexedLogV2_offsets mem _ v seek aof s1 v1 seek1 hrun ht2
      hlen
    obtain ⟨h1, h2, hcase⟩ := ho
    rcases hcase with ⟨h3, h4⟩ | ⟨h3, h4⟩
    · have h3' : s1.final_log_seek = w.final_log_seek := h3
      have h4' : s1.seek_log_file = w.seek_log_file := h4
      refine ⟨⟨?_, ?_, ?_, ?_⟩, ?_⟩
      · show storedOffset w.checkpoint_log_seek ≤ storedOffset s1.final_log_seek
        rw [h3']; exact hc
      · show s1.seek_log_file ≤ storedOffset s1.final_log_seek
        rw [h3', h4']; exact hs
      · show storedOffset s1.final_log_seek < 2 ^ 63
        rw [h3']; exact hf
      · intro seek2 hseek2
        have : seek1 = seek2 := by simpa [afterRound] using hseek2
        subst this
        show storedOffset s1.final_log_seek ≤ seek1 ∧ seek1 < 2 ^ 63
        rw [h3']
        exact ⟨le_trans ht1 h1, h2⟩
      · show _ ≤ storedOffset s1.final_log_seek
        rw [h3']
    · have h4' : s1.seek_log_file = seek1 ∨ s1.seek_log_file = w.seek_log_file := h4
      have hle : storedOffset w.final_log_seek ≤ seek1 := le_trans ht1 h1
      refine ⟨⟨?_, ?_, ?_, ?_⟩, ?_⟩
      · show storedOffset w.checkpoint_log_seek ≤ storedOffset s1.final_log_seek
        rw [h3]; exact le_trans hc hle
      · show s1.seek_log_file ≤ storedOffset s1.final_log_seek
        rw [h3]
        rcases h4' with e | e
        · rw [e]; exact le_refl _
        · rw [e]; exact le_trans hs hle
      · show storedOffset s1.final_log_seek < 2 ^ 63
        rw [h3]; exact h2
      · intro seek2 hseek2
        have : seek1 = seek2 := by simpa [afterRound] using hseek2
        subst this
        show storedOffset s1.final_log_seek ≤ seek1 ∧ seek1 < 2 ^ 63
        rw [h3]
        exact ⟨le_refl _, h2⟩
      · show _ ≤ storedOffset s1.final_log_seek
        rw [h3]; exact hle
  | checkpoint idCheckpoint stop elapsed =>
    obtain ⟨h1, h2, h3, h4⟩ := checkpointProcess_offsets idCheckpoint stop elapsed w
    refine ⟨⟨?_, ?_, ?_, ?_⟩, ?_⟩
    · rw [h1]
      rcases h4 with e | e
      · rw [e]; exact hc
      · rw [e]; exact hs
    · rw [h1, h2]; exact hs
    · rw [h1]; exact hf
    · rw [h1, h3]; exact ht
    · rw [h1]

theorem IRStep_reachable (w w1 : IRSystem) (hinv : offsetsOrdered w)
    (hreach : Relation.ReflTransGen IRStep w w1) : offsetsOrdered w1 := by
  induction hreach with
  | refl => exact hinv
  | tail _ hstep ih => exact (IRStep_offsets _ _ ih hstep).1

set_option maxRecDepth 100000

/-! ## The restored-key set during recovery -/

theorem isRestoredTuple_add_of (R : List Bytes) (k1 k : Bytes)
    (h : isRestoredTuple R k = true) : isRestoredTuple (addRestoredTuple R k1) k = true := by
  rw [isRestoredTuple_add, h, Bool.or_true]

theorem loadRecordFromIndexedLog_restored (server : redisServer) (key : Bytes) (r : Nat)
    (server1 : redisServer) (h : loadRecordFromIndexedLog server key = some (r, server1))
    (k : Bytes) (hk : isRestoredTuple server.hash_restored_tuples k = true) :
    isRestoredTuple server1.hash_restored_tuples k = true := by
  unfold loadRecordFromIndexedLog at h
  split_ifs at h
  · simp only [Option.some.injEq, Prod.mk.injEq] at h
    obtain ⟨_, h2⟩ := h
    subst h2; exact hk
  · cases hs : DB_SET server.indexedlog key with
    | none =>
      rw [hs] at h
      simp only [Option.some.injEq, Prod.mk.injEq] at h
      obtain ⟨_, h2⟩ := h
      subst h2
      exact isRestoredTuple_add_of _ _ _ hk
    | some c =>
      rw [hs] at h
      dsimp only at h
      cases hl : loadRecord_scan (c.rest.length + 1) "0".toList c with
      | none => rw [hl] at h; simp at h
      | some valueIR =>
        rw [hl] at h
        simp only [Option.some.injEq, Prod.mk.injEq] at h
        obtain ⟨_, h2⟩ := h
        subst h2
        exact isRestoredTuple_add_of _ _ _ hk

theorem loadDB_scan_restored (replyStr : Bytes → Bytes → Bool) : ∀ (fuel : Nat)
    (server : redisServer) (v : IRVars) (error : Option DBC) (server1 : redisServer)
    (v1 : IRVars), loadDB_scan replyStr fuel server v error = some (server1, v1) →
    ∀ k, isRestoredTuple server.hash_restored_tuples k = true →
      isRestoredTuple server1.hash_restored_tuples k = true := by
  intro fuel
  induction fuel with
  | zero => intro server v error server1 v1 h; simp [loadDB_scan] at h
  | succ fuel ih =>
    intro server v error server1 v1 h k hk
    cases error with
    | none =>
      unfold loadDB_scan at h
      simp only [Option.some.injEq, Prod.mk.injEq] at h
      obtain ⟨h1, _⟩ := h
      subst h1; exact hk
    | some c =>
      unfold loadDB_scan at h
      dsimp only at h
      split_ifs at h with hstop
      · simp only [Option.some.injEq, Prod.mk.injEq] at h
        obtain ⟨h1, _⟩ := h
        subst h1; exact hk
      · cases hsk : loadDB_skip server.hash_restored_tuples (c.rest.length + 1)
            { v with valueIR := "0".toList } c with
        | none => rw [hsk] at h; simp at h
        | some r =>
          obtain ⟨va, e⟩ := r
          rw [hsk] at h
          cases e with
          | none =>
            simp only [Option.some.injEq, Prod.mk.injEq] at h
            obtain ⟨h1, _⟩ := h
            subst h1; exact hk
          | some c1 =>
            dsimp only at h
            cases hco : loadDB_collect (c1.rest.length + 2)
                { va with old_key := va.current_key } c1 with
            | none => rw [hco] at h; simp at h
            | some r2 =>
              obtain ⟨vb, e2⟩ := r2
              rw [hco] at h
              dsimp only at h
              split_ifs at h
              · exact ih _ _ _ _ _ h k (isRestoredTuple_add_of _ _ _ hk)
              · exact ih _ _ _ _ _ h k (isRestoredTuple_add_of _ _ _ hk)
              · exact ih _ _ _ _ _ h k hk

theorem loadDBFromIndexedLog_clears (replyStr : Bytes → Bytes → Bool) (server : redisServer)
    (server1 : redisServer) (h : loadDBFromIndexedLog replyStr server = some server1) :
    server1.hash_restored_tuples = [] := by
  unfold loadDBFromIndexedLog at h
  split_ifs at h
  dsimp only at h
  split at h
  · simp at h
  · simp only [Option.some.injEq] at h
    subst h
    rfl

/-! ## Lemmas on the checkpoint round -/

theorem checkpointProcess_keys_none (i : Nat) (keys : List Bytes) :
    checkpointProcess_keys none i keys = keys.map (fun key => setCheckpointCommand (cstr key)) := by
  induction keys generalizing i with
  | nil => rfl
  | cons key more ih =>
    simp only [checkpointProcess_keys, checkpointStateAt, if_true, List.map_cons, ih]
    rfl

theorem checkpointProcess_keys_some (n i : Nat) (keys : List Bytes) :
    checkpointProcess_keys (some n) i keys =
      (keys.take (n - i)).map (fun key => setCheckpointCommand (cstr key)) := by
  induction keys generalizing i with
  | nil => simp [checkpointProcess_keys]
  | cons key more ih =>
    by_cases h : i < n
    · have e : n - i = (n - (i + 1)) + 1 := by omega
      rw [e]
      simp only [checkpointProcess_keys, checkpointStateAt, h, decide_True, if_true,
        List.take_succ_cons, List.map_cons, ih]
      rfl
    · have e : n - i = 0 := by omega
      rw [e]
      simp [checkpointProcess_keys, checkpointStateAt, h]

theorem map_cstr_of_no_nul (keys : List Bytes) (h : ∀ key ∈ keys, '\x00' ∉ key) :
    keys.map (fun key => setCheckpointCommand (cstr key)) = keys.map setCheckpointCommand := by
  apply List.map_congr_left
  intro key hk
  rw [cstr_of_no_nul key (h key hk)]

theorem cstr_no_nul (s : Bytes) : '\x00' ∉ cstr s := by
  unfold cstr
  intro h
  have := List.mem_takeWhile_imp h
  simp at this

theorem incrementAccessedTuple_no_nul (hash : List (Bytes × Nat)) (key : Bytes)
    (h : ∀ e ∈ hash, '\x00' ∉ e.1) : ∀ e ∈ incrementAccessedTuple hash key, '\x00' ∉ e.1 := by
  intro e he
  unfold incrementAccessedTuple at he
  split_ifs at he
  · rcases List.mem_map.mp he with ⟨e0, he0, rfl⟩
    split_ifs
    · exact h e0 he0
    · exact h e0 he0
  · rcases List.mem_append.mp he with he | he
    · exact h e he
    · simp only [List.mem_singleton] at he
      rw [he]
      exact cstr_no_nul key

set_option maxRecDepth 512

theorem checkpointProcess_commands (idCheckpoint : Int) (stop : Option Nat) (elapsed : Int)
    (w : IRSystem) (hstate : w.checkpoint_state = true) (hconn : w.redis_connects = true) :
    (checkpointProcess idCheckpoint stop elapsed w).commands =
      w.commands ++ checkpointProcess_keys stop 0
        (if w.checkpoints_only_mfu then w.hash_keys_access.map Prod.fst
          else w.dict.map Prod.fst) ++ [checkpointEndCommand idCheckpoint] := by
  unfold checkpointProcess
  rw [if_neg (by simp [hstate]), if_neg (by simp [hconn])]
  rfl

theorem checkpointProcess_checkpoint_log_seek (idCheckpoint : Int) (stop : Option Nat)
    (elapsed : Int) (w : IRSystem) (hstate : w.checkpoint_state = true)
    (hconn : w.redis_connects = true) :
    (checkpointProcess idCheckpoint stop elapsed w).checkpoint_log_seek =
      if checkpointStateAt stop
          (if w.checkpoints_only_mfu then w.hash_keys_access.map Prod.fst
            else w.dict.map Prod.fst).length = true ∧ w.checkpoints_only_mfu = false
      then some w.seek_log_file else w.checkpoint_log_seek := by
  unfold checkpointProcess
  rw [if_neg (by simp [hstate]), if_neg (by simp [hconn])]

theorem checkpointProcess_time_interval (idCheckpoint : Int) (stop : Option Nat)
    (elapsed : Int) (w : IRSystem) (hstate : w.checkpoint_state = true)
    (hconn : w.redis_connects = true) :
    (checkpointProcess idCheckpoint stop elapsed w).checkpoint_time_interval =
      selfTuneCheckpointTimeInterval w.selftune_checkpoint_time_interval
        w.checkpoint_time_interval (toInt32 (Int.tdiv elapsed 1000000)) := by
  unfold checkpointProcess
  rw [if_neg (by simp [hstate]), if_neg (by simp [hconn])]

theorem checkpointProcess_mfu (idCheckpoint : Int) (stop : Option Nat)
    (elapsed : Int) (w : IRSystem) (hstate : w.checkpoint_state = true)
    (hconn : w.redis_connects = true) (hmfu : w.checkpoints_only_mfu = true) :
    checkpointProcess idCheckpoint stop elapsed w =
      { checkpointProcess_scan w with
        commands := w.commands ++ checkpointProcess_keys stop 0 (w.hash_keys_access.map Prod.fst)
          ++ [checkpointEndCommand idCheckpoint]
        hash_keys_access := []
        accessed_tuples_logger_state := true
        checkpoint_state := checkpointStateAt stop w.hash_keys_access.length
        checkpoint_time_interval :=
          selfTuneCheckpointTimeInterval w.selftune_checkpoint_time_interval
            w.checkpoint_time_interval (toInt32 (Int.tdiv elapsed 1000000)) } := by
  unfold checkpointProcess checkpointProcess_scan
  rw [if_neg (by simp [hstate]), if_neg (by simp [hconn])]
  simp only [hmfu, if_true, List.length_map]
  simp [checkpointEndCommand]

set_option maxRecDepth 100000

/-! ## Lemmas on the replay of INCR frames -/

theorem digit_not_space (c : Char) (hc : c.isDigit = true) : isspace c = false := by
  unfold isspace
  have h1 : c ≠ ' ' := by rintro rfl; exact absurd hc (by decide)
  have h2 : c ≠ '\t' := by rintro rfl; exact absurd hc (by decide)
  have h3 : c ≠ '\n' := by rintro rfl; exact absurd hc (by decide)
  have h4 : c ≠ '\x0b' := by rintro rfl; exact absurd hc (by decide)
  have h5 : c ≠ '\x0c' := by rintro rfl; exact absurd hc (by decide)
  have h6 : c ≠ '\r' := by rintro rfl; exact absurd hc (by decide)
  simp [h1, h2, h3, h4, h5, h6]

theorem strtolDigits_toDigits_nil (n : Nat) : strtolDigits 0 (Nat.toDigits 10 n) = n := by
  have h := strtolDigits_toDigits n []
  rw [List.append_nil] at h
  rw [h, strtolDigits]

theorem strtol_toDigits_nil (n : Nat) (h : n < 2 ^ 63) : strtol (Nat.toDigits 10 n) = n := by
  have hne := toDigits_ne_nil n
  have hdig := toDigits_isDigit n
  have hval := strtolDigits_toDigits_nil n
  cases hds : Nat.toDigits 10 n with
  | nil => exact absurd hds hne
  | cons c t =>
    rw [hds] at hdig hval
    have hc : c.isDigit = true := hdig c (by simp)
    have hm : c ≠ '-' := by rintro rfl; exact absurd hc (by decide)
    have hp : c ≠ '+' := by rintro rfl; exact absurd hc (by decide)
    unfold strtol
    rw [List.dropWhile_cons_of_neg (by simp [digit_not_space c hc])]
    unfold strtolSigned
    dsimp only
    rw [if_neg hm, if_neg hp, hval]
    unfold LONG_MAX
    have : (n : Int) < 2 ^ 63 := by exact_mod_cast h
    omega

theorem strtol_sprintf_d (n : Int) (hlo : -(2 ^ 63) ≤ n) (hhi : n < 2 ^ 63) :
    strtol (sprintf_d n) = n := by
  unfold sprintf_d
  by_cases hneg : n < 0
  · rw [if_pos hneg]
    unfold strtol
    rw [List.dropWhile_cons_of_neg (by decide)]
    unfold strtolSigned
    dsimp only
    rw [if_pos rfl, strtolDigits_toDigits_nil]
    unfold LONG_MIN
    omega
  · rw [if_neg hneg, strtol_toDigits_nil _ (by omega)]
    omega

theorem atoi_sprintf_d (n : Int) (hlo : -(2 ^ 31) ≤ n) (hhi : n < 2 ^ 31) :
    atoi (sprintf_d n) = n := by
  unfold atoi
  rw [strtol_sprintf_d n (by omega) (by omega)]
  unfold toInt32
  omega

theorem replayRule_incr (value frame : Bytes) (h : isIncrFrame frame = true) :
    replayRule value frame = sprintf_d (toInt32 (atoi value + 1)) := by
  unfold isIncrFrame at h
  have hc : frameCommand frame = some "INCR".toList := by simpa using h
  unfold replayRule
  rw [hc, if_neg (by decide), if_pos rfl]

theorem replayRule_set (value frame v : Bytes) (h : isSetFrame frame = true)
    (hv : frameValue frame = some v) : replayRule value frame = v := by
  unfold isSetFrame at h
  have hc : frameCommand frame = some "SET".toList := by
    simp only [Bool.and_eq_true, beq_iff_eq] at h
    exact h.1
  unfold replayRule
  rw [if_pos hc, hv]
  rfl

theorem foldl_replayRule_incr (incrs : List Bytes) (h : ∀ f ∈ incrs, isIncrFrame f = true) :
    ∀ n : Int, -(2 ^ 31) ≤ n → n + incrs.length < 2 ^ 31 →
      incrs.foldl replayRule (sprintf_d n) = sprintf_d (n + incrs.length) := by
  induction incrs with
  | nil => intro n _ _; simp
  | cons f more ih =>
    intro n hlo hhi
    simp only [List.length_cons] at hhi
    push_cast at hhi
    rw [List.foldl_cons, replayRule_incr _ _ (h f (by simp)), atoi_sprintf_d n hlo (by omega)]
    have e : toInt32 (n + 1) = n + 1 := by
      unfold toInt32
      omega
    rw [e, ih (fun g hg => h g (List.mem_cons_of_mem _ hg)) (n + 1) (by omega) (by omega)]
    simp only [List.length_cons]
    push_cast
    congr 1
    omega

theorem replayChain_set_incrs (setFrame : Bytes) (incrs : List Bytes) (n : Int)
    (hset : isSetFrame setFrame = true) (hval : frameValue setFrame = some (sprintf_d n))
    (hincr : ∀ f ∈ incrs, isIncrFrame f = true)
    (hlo : -(2 ^ 31) ≤ n) (hhi : n + incrs.length < 2 ^ 31) :
    replayChain (setFrame :: incrs) = sprintf_d (n + incrs.length) := by
  unfold replayChain
  rw [List.foldl_cons, replayRule_set _ _ _ hset hval]
  exact foldl_replayRule_incr incrs hincr n hlo hhi

/-- Both restorers on a key whose chain is made of frames they redo. -/
theorem restore_redo_chain (replyStr : Bytes → Bytes → Bool) (db : DB) (K : Bytes)
    (hs : keySorted db) (hread : ∀ r ∈ db, frameReadable r.2 = true)
    (hne : chainOf db K ≠ [])
    (hredo : ∀ f ∈ chainOf db K, isSetFrame f = true ∨ isIncrFrame f = true) :
    (∃ server1, loadRecordFromIndexedLog (serverAfterRestart db) K = some (1, server1) ∧
      server1.setIR = [(K, replayChain (chainOf db K))]) ∧
    (∃ server2, loadDBFromIndexedLog replyStr (serverAfterRestart db) = some server2 ∧
      server2.setIR.filter (fun x => x.1 == K) = [(K, replayChain (chainOf db K))]) := by
  have hg := grouped_of_keySorted db hs
  constructor
  · obtain ⟨valueIR, hload, hval⟩ :=
      (loadRecordFromIndexedLog_eq (serverAfterRestart db) K rfl (fun r hr _ => hread r hr)).2 hne
    refine ⟨_, hload, ?_⟩
    rw [hval hg]
    rfl
  · obtain ⟨server2, new, hrun, hset, hfil⟩ :=
      loadDBFromIndexedLog_eq replyStr (serverAfterRestart db) rfl rfl rfl hg hread
    refine ⟨server2, hrun, ?_⟩
    rw [hset]
    show ([] ++ new).filter _ = _
    rw [List.nil_append, hfil K]
    have hl : lastIsRedo (chainOf (serverAfterRestart db).indexedlog K) = true :=
      lastIsRedo_of_all _ hne hredo
    rw [if_pos ⟨rfl, hl⟩]
    rfl

/-! ## Lemmas on the exits of the readers -/

theorem readBulkStrings_none_of_error : ∀ (n j : Nat) (v : IndexerVars) (fp : Bytes)
    (seek : Nat) (e : ReadError),
    readBulkStrings_error n fp = some e → readBulkStrings n j v fp seek = none := by
  intro n
  induction n with
  | zero => intro j v fp seek e h; simp [readBulkStrings_error] at h
  | succ n ih =>
    intro j v fp seek e h
    rw [readBulkStrings_error] at h
    rw [readBulkStrings]
    cases hg : fgets 128 fp with
    | none => rfl
    | some r =>
      obtain ⟨buf, fp1⟩ := r
      rw [hg] at h
      dsimp only at h ⊢
      cases hc : cstr buf with
      | nil => rfl
      | cons c t =>
        rw [hc] at h
        dsimp only at h ⊢
        by_cases hd : c ≠ '$'
        · rw [if_pos hd]
        · rw [if_neg hd] at h ⊢
          generalize (if (strtol t % 2 ^ 64).toNat = 0 then some (([] : Bytes), fp1)
            else fread (strtol t % 2 ^ 64).toNat fp1) = r at h ⊢
          cases r with
          | none => rfl
          | some r1 =>
            obtain ⟨argsds, fp2⟩ := r1
            dsimp only at h ⊢
            cases h2 : fread 2 fp2 with
            | none => rfl
            | some r2 =>
              obtain ⟨crlf, fp3⟩ := r2
              rw [h2] at h
              dsimp only at h ⊢
              exact ih _ _ _ _ e h

theorem initialIndexes_arguments_none_of_error : ∀ (n j : Nat) (argc : Int) (v : InitialVars)
    (fp : Bytes) (seek : Int) (e : ReadError),
    readBulkStrings_error n fp = some e →
    initialIndexes_arguments n j argc v fp seek = none := by
  intro n
  induction n with
  | zero => intro j argc v fp seek e h; simp [readBulkStrings_error] at h
  | succ n ih =>
    intro j argc v fp seek e h
    rw [readBulkStrings_error] at h
    rw [initialIndexes_arguments]
    cases hg : fgets 128 fp with
    | none => rfl
    | some r =>
      obtain ⟨buf, fp1⟩ := r
      rw [hg] at h
      dsimp only at h ⊢
      cases hc : cstr buf with
      | nil => rfl
      | cons c t =>
        rw [hc] at h
        dsimp only at h ⊢
        by_cases hd : c ≠ '$'
        · rw [if_pos hd]
        · rw [if_neg hd] at h ⊢
          generalize (if (strtol t % 2 ^ 64).toNat = 0 then some (([] : Bytes), fp1)
            else fread (strtol t % 2 ^ 64).toNat fp1) = r at h ⊢
          cases r with
          | none => rfl
          | some r1 =>
            obtain ⟨argsds, fp2⟩ := r1
            dsimp only at h ⊢
            cases h2 : fread 2 fp2 with
            | none => rfl
            | some r2 =>
              obtain ⟨crlf, fp3⟩ := r2
              rw [h2] at h
              dsimp only at h ⊢
              exact ih _ _ _ _ _ e h

theorem readRecord_none_of_error (buf fp : Bytes) (v : IndexerVars) (seek : Nat) (e : ReadError)
    (h : readRecord_error buf fp = some e) : readRecord buf fp v seek = none := by
  unfold readRecord_error at h
  unfold readRecord
  cases hc : cstr buf with
  | nil => rfl
  | cons c t =>
    rw [hc] at h
    dsimp only at h ⊢
    by_cases h1 : c ≠ '*'
    · rw [if_pos h1]
    · rw [if_neg h1] at h ⊢
      by_cases h2 : t = []
      · rw [if_pos h2]
      · rw [if_neg h2] at h ⊢
        by_cases h3 : atoi t < 1
        · rw [if_pos h3]
        · rw [if_neg h3] at h ⊢
          exact readBulkStrings_none_of_error _ _ _ _ _ e h

theorem readRecords_none_of_error (mem : Nat → Int × Int) : ∀ (fuel : Nat) (v : IndexerVars)
    (list : List recordToIndex) (buf fp : Bytes) (seek : Nat) (e : ReadError),
    readRecords_error mem fuel v list buf fp seek = some e →
    readRecords mem fuel v list buf fp seek = none := by
  intro fuel
  induction fuel with
  | zero => intro v list buf fp seek e h; rfl
  | succ fuel ih =>
    intro v list buf fp seek e h
    rw [readRecords_error] at h
    rw [readRecords]
    cases hr : readRecord buf fp v seek with
    | none => rfl
    | some r =>
      obtain ⟨v1, fp1, seek1⟩ := r
      rw [hr] at h
      dsimp only at h ⊢
      cases ha : addRecordToIndex list v1.command v1.key v1.value (mem list.length) with
      | none => rfl
      | some list1 =>
        rw [ha] at h
        dsimp only at h ⊢
        cases hg : fgets 128 fp1 with
        | none => rw [hg] at h; simp at h
        | some r2 =>
          obtain ⟨buf1, fp2⟩ := r2
          rw [hg] at h
          dsimp only at h ⊢
          exact ih _ _ _ _ _ e h

/-- A round that takes a label has no result: it ends in `exit(1)`. -/
theorem indexesSequentialLogToIndexedLogV2_none_of_exit (mem : Nat → Int × Int)
    (s : IndexerState) (v : IndexerVars) (seek : Nat) (aof : Bytes) (x : ReadError × IndexerState)
    (h : indexesSequentialLogToIndexedLogV2_exit mem s v seek aof = some x) :
    indexesSequentialLogToIndexedLogV2 mem s v seek aof = none := by
  unfold indexesSequentialLogToIndexedLogV2_exit at h
  unfold indexesSequentialLogToIndexedLogV2
  by_cases hs : s.indexer_state = false
  · rw [if_pos hs] at h; simp at h
  · rw [if_neg hs] at h ⊢
    cases hg : fgets 128 (aof.drop (fseek seek)) with
    | none => rw [hg] at h; simp at h
    | some r =>
      obtain ⟨buf, fp⟩ := r
      rw [hg] at h
      dsimp only at h ⊢
      cases he : readRecords_error mem (aof.length + 1) v [] buf fp seek with
      | none => rw [he] at h; simp at h
      | some e => rw [readRecords_none_of_error mem _ _ _ _ _ _ e he]

theorem initialIndexes_while_none_of_exit (replicated : Bool) : ∀ (fuel : Nat)
    (st : InitialState) (fp : Bytes) (x : ReadError × InitialState),
    initialIndexes_while_exit replicated fuel st fp = some x →
    initialIndexes_while replicated fuel st fp = none := by
  intro fuel
  induction fuel with
  | zero => intro st fp x h; rfl
  | succ fuel ih =>
    intro st fp x h
    rw [initialIndexes_while_exit] at h
    rw [initialIndexes_while]
    cases hg : fgets 128 fp with
    | none => rw [hg] at h; simp at h
    | some r =>
      obtain ⟨buf, fp1⟩ := r
      rw [hg] at h
      dsimp only at h ⊢
      cases hc : cstr buf with
      | nil => rfl
      | cons c t =>
        rw [hc] at h
        dsimp only at h ⊢
        by_cases h1 : c ≠ '*'
        · rw [if_pos h1]
        · rw [if_neg h1] at h ⊢
          by_cases h2 : t = []
          · rw [if_pos h2]
          · rw [if_neg h2] at h ⊢
            by_cases h3 : atoi t < 1
            · rw [if_pos h3]
            · rw [if_neg h3] at h ⊢
              cases ha : initialIndexes_arguments (atoi t).toNat 0 (atoi t)
                  { st.v with log_record := c :: t } fp1
                  (addOffset st.seek_log_file (c :: t).length) with
              | none => rfl
              | some r3 =>
                obtain ⟨v1, fp2, seek1⟩ := r3
                rw [ha] at h
                dsimp only at h ⊢
                exact ih _ _ x h

/-! ## A malformed frame after complete frames -/

theorem fgets_head (c : Char) (tail : Bytes) :
    ∃ l fp1, fgets 128 (c :: tail) = some (c :: l, fp1) := by
  unfold fgets
  show ∃ l fp1, some (fgetsLine 127 (c :: tail)) = some (c :: l, fp1)
  by_cases h : c = '\n'
  · exact ⟨[], tail, by simp [fgetsLine, h]⟩
  · exact ⟨(fgetsLine 126 tail).1, (fgetsLine 126 tail).2, by simp [fgetsLine, h]⟩

theorem fgets_eq_none (fp : Bytes) (h : fgets 128 fp = none) : fp = [] := by
  cases fp with
  | nil => rfl
  | cons c t => simp [fgets] at h

theorem cstr_head (c : Char) (l : Bytes) :
    cstr (c :: l) = if c = '\x00' then [] else c :: cstr l := by
  unfold cstr
  by_cases h : c = '\x00'
  · simp [h]
  · simp [h]

theorem readRecord_error_head (c : Char) (l fp : Bytes) (hc : c ≠ '*') :
    readRecord_error (c :: l) fp = some ReadError.fmterr := by
  unfold readRecord_error
  rw [cstr_head]
  by_cases h0 : c = '\x00'
  · rw [if_pos h0]
  · rw [if_neg h0]
    dsimp only
    rw [if_pos hc]

theorem readBulkStrings_error_head (n : Nat) (c : Char) (tail : Bytes) (hc : c ≠ '$') :
    readBulkStrings_error (n + 1) (c :: tail) = some ReadError.fmterr := by
  obtain ⟨l, fp1, hg⟩ := fgets_head c tail
  rw [readBulkStrings_error, hg]
  dsimp only
  rw [cstr_head]
  by_cases h0 : c = '\x00'
  · rw [if_pos h0]
  · rw [if_neg h0]
    dsimp only
    rw [if_pos hc]

theorem readBulkStrings_error_bulkStrings : ∀ (args : List Bytes) (m : Nat) (rest : Bytes),
    (∀ a ∈ args, a.length < 2 ^ 63) →
    readBulkStrings_error (args.length + m) (bulkStrings args ++ rest) =
      readBulkStrings_error m rest := by
  intro args
  induction args with
  | nil =>
    intro m rest _
    simp [bulkStrings]
  | cons a more ih =>
    intro m rest h
    have ha : a.length < 2 ^ 63 := h a (by simp)
    have hlen : (strtol (Nat.toDigits 10 a.length ++ ['\r', '\n']) % 2 ^ 64).toNat = a.length := by
      rw [strtol_toDigits _ ha]
      have : ((a.length : Nat) : Int) % 2 ^ 64 = a.length := by
        apply Int.emod_eq_of_lt (by omega)
        have : (a.length : Int) < 2 ^ 63 := by exact_mod_cast ha
        omega
      rw [this]; simp
    have hfp : bulkStrings (a :: more) ++ rest =
        '$' :: (Nat.toDigits 10 a.length ++
          ('\r' :: '\n' :: (a ++ ('\r' :: '\n' :: (bulkStrings more ++ rest))))) := by
      simp [bulkStrings, bulkString]
    have e : (a :: more).length + m = (more.length + m) + 1 := by
      simp only [List.length_cons]; omega
    rw [hfp, e, readBulkStrings_error, fgets_header '$' a.length _ (by decide) (by omega)]
    dsimp only
    rw [cstr_header '$' _ (by decide)]
    dsimp only
    rw [if_neg (by simp), hlen]
    have hread : (if a.length = 0 then
          some (([] : Bytes), a ++ ('\r' :: '\n' :: (bulkStrings more ++ rest)))
        else fread a.length (a ++ ('\r' :: '\n' :: (bulkStrings more ++ rest)))) =
        some (a, '\r' :: '\n' :: (bulkStrings more ++ rest)) := by
      by_cases h0 : a.length = 0
      · rw [if_pos h0]
        have : a = [] := List.length_eq_zero.mp h0
        subst this; rfl
      · rw [if_neg h0, fread_append]
    rw [hread]
    dsimp only
    have h2 : fread 2 ('\r' :: '\n' :: (bulkStrings more ++ rest)) =
        some (['\r', '\n'], bulkStrings more ++ rest) := fread_append ['\r', '\n'] _
    rw [h2]
    dsimp only
    exact ih m rest (fun b hb => h b (List.mem_cons_of_mem _ hb))

theorem malformedFrame_ne_nil (bad : Bytes) (h : malformedFrame bad) : bad ≠ [] := by
  rcases h with ⟨c, tail, rfl, _⟩ | ⟨n, args, c, tail, rfl, _⟩
  · simp
  · simp [headerLine]

/-- The reads of a malformed frame leave through `fmterr`. -/
theorem malformedFrame_error (bad : Bytes) (h : malformedFrame bad) :
    ∃ buf fp, fgets 128 bad = some (buf, fp) ∧
      readRecord_error buf fp = some ReadError.fmterr := by
  rcases h with ⟨c, tail, rfl, hc⟩ | ⟨n, args, c, tail, rfl, hlt, hn, hargs, hc⟩
  · obtain ⟨l, fp1, hg⟩ := fgets_head c tail
    exact ⟨c :: l, fp1, hg, readRecord_error_head c l fp1 hc⟩
  · have hshape : headerLine '*' n ++ bulkStrings args ++ c :: tail =
        '*' :: (Nat.toDigits 10 n ++ ('\r' :: '\n' :: (bulkStrings args ++ c :: tail))) := by
      simp [headerLine]
    refine ⟨'*' :: (Nat.toDigits 10 n ++ ['\r', '\n']), bulkStrings args ++ c :: tail, ?_, ?_⟩
    · rw [hshape]
      exact fgets_header '*' n _ (by decide) (lt_trans hn (by norm_num))
    · unfold readRecord_error
      rw [cstr_header '*' _ (by decide)]
      dsimp only
      rw [if_neg (by simp), if_neg (by simp), atoi_toDigits _ hn,
        if_neg (by
          have : (1 : Int) ≤ n := by exact_mod_cast (by omega : 1 ≤ n)
          omega), Int.toNat_ofNat]
      have e : n = args.length + ((n - args.length - 1) + 1) := by omega
      rw [e, readBulkStrings_error_bulkStrings args _ _ hargs]
      exact readBulkStrings_error_head _ c tail hc

theorem readRecord_frame (frame : LogFrame) (v : IndexerVars) (rest : Bytes) (seek : Nat)
    (hargc : frame.length < 2 ^ 31) (hargs : ∀ a ∈ frame, a.length < 2 ^ 63)
    (h1 : ¬ frame.length < 1) :
    ∃ seek1, readRecord ('*' :: (Nat.toDigits 10 frame.length ++ ['\r', '\n']))
        (bulkStrings frame ++ rest) v seek = some (readArguments 0 v frame, rest, seek1) := by
  rw [readRecord, cstr_header '*' _ (by decide)]
  dsimp only
  rw [if_neg (by simp), if_neg (by simp), atoi_toDigits _ hargc,
    if_neg (by exact_mod_cast h1), Int.toNat_ofNat,
    readBulkStrings_bulkStrings frame 0 v _ _ hargs (Nat.mod_lt _ (by norm_num))]
  exact ⟨_, rfl⟩

theorem readRecords_error_walBytes (mem : Nat → Int × Int) (bad : Bytes)
    (hbad : malformedFrame bad) : ∀ (good : List LogFrame) (v : IndexerVars)
    (list : List recordToIndex) (seek fuel : Nat) (buf fp : Bytes),
    storeFrames good → (readFrames mem v list good).isSome = true → good.length < fuel →
    fgets 128 (walBytes good ++ bad) = some (buf, fp) →
    readRecords_error mem fuel v list buf fp seek = some ReadError.fmterr := by
  intro good
  induction good with
  | nil =>
    intro v list seek fuel buf fp _ _ hfuel hg
    obtain ⟨buf1, fp1, hg1, he⟩ := malformedFrame_error bad hbad
    have hb : walBytes [] ++ bad = bad := by simp [walBytes]
    rw [hb, hg1] at hg
    have e1 : buf1 = buf := by injection hg with h; exact (Prod.mk.inj h).1
    have e2 : fp1 = fp := by injection hg with h; exact (Prod.mk.inj h).2
    subst e1; subst e2
    cases fuel with
    | zero => simp at hfuel
    | succ fuel =>
      rw [readRecords_error, readRecord_none_of_error _ _ _ _ _ he]
      exact he
  | cons frame more ih =>
    intro v list seek fuel buf fp hwf hread hfuel hg
    obtain ⟨hargc, hargs⟩ := hwf frame (by simp)
    have hwf2 : storeFrames more := fun f hf => hwf f (List.mem_cons_of_mem _ hf)
    have hshape : walBytes (frame :: more) ++ bad =
        '*' :: (Nat.toDigits 10 frame.length ++
          ('\r' :: '\n' :: (bulkStrings frame ++ (walBytes more ++ bad)))) := by
      rw [walBytes_cons]
      simp
    rw [hshape, fgets_header '*' frame.length _ (by decide) (lt_trans hargc (by norm_num))] at hg
    have e1 : '*' :: (Nat.toDigits 10 frame.length ++ ['\r', '\n']) = buf := by
      injection hg with h; exact (Prod.mk.inj h).1
    have e2 : bulkStrings frame ++ (walBytes more ++ bad) = fp := by
      injection hg with h; exact (Prod.mk.inj h).2
    subst e1; subst e2
    rw [readFrames] at hread
    by_cases h1 : frame.length < 1
    · rw [if_pos h1] at hread; simp at hread
    · rw [if_neg h1] at hread
      dsimp only at hread
      cases ha : addRecordToIndex list (readArguments 0 v frame).command
          (readArguments 0 v frame).key (readArguments 0 v frame).value (mem list.length) with
      | none => rw [ha] at hread; simp at hread
      | some list1 =>
        rw [ha] at hread
        dsimp only at hread
        cases fuel with
        | zero => simp at hfuel
        | succ fuel =>
          obtain ⟨seek1, hrec⟩ := readRecord_frame frame v (walBytes more ++ bad) seek hargc
            hargs h1
          rw [readRecords_error, hrec]
          dsimp only
          rw [ha]
          dsimp only
          cases hg2 : fgets 128 (walBytes more ++ bad) with
          | none =>
            have := fgets_eq_none _ hg2
            exact absurd (List.append_eq_nil.mp this).2 (malformedFrame_ne_nil bad hbad)
          | some r =>
            obtain ⟨buf1, fp2⟩ := r
            dsimp only
            exact ih _ list1 seek1 fuel buf1 fp2 hwf2 hread (by simpa using hfuel) hg2

/-- A round of the indexer over complete frames followed by a malformed frame leaves through
`fmterr` with the indexer state of the start of the round. -/
theorem indexesSequentialLogToIndexedLogV2_exit_malformed (mem : Nat → Int × Int)
    (s : IndexerState) (v : IndexerVars) (done : Bytes) (good : List LogFrame) (bad : Bytes)
    (hon : s.indexer_state = true) (hwf : storeFrames good)
    (hread : (readFrames mem v [] good).isSome = true) (hdone : done.length < 2 ^ 63)
    (hbad : malformedFrame bad) :
    indexesSequentialLogToIndexedLogV2_exit mem s v done.length
      (done ++ (walBytes good ++ bad)) = some (ReadError.fmterr, s) := by
  unfold indexesSequentialLogToIndexedLogV2_exit
  rw [if_neg (by simp [hon]), fseek_of_lt _ hdone, List.drop_left]
  cases hg : fgets 128 (walBytes good ++ bad) with
  | none =>
    have := fgets_eq_none _ hg
    exact absurd (List.append_eq_nil.mp this).2 (malformedFrame_ne_nil bad hbad)
  | some r =>
    obtain ⟨buf, fp⟩ := r
    dsimp only
    rw [readRecords_error_walBytes mem bad hbad good v [] done.length _ buf fp hwf hread
      (by
        have := length_le_walBytes good
        simp only [List.length_append]
        omega) hg]

theorem initialIndexes_while_exit_walBytes (replicated : Bool) : ∀ (frames : List LogFrame)
    (st : InitialState) (fuel : Nat) (rest : Bytes), storeFrames frames → commandFrames frames →
    0 ≤ st.seek_log_file → st.seek_log_file + (walBytes frames).length < 2 ^ 63 →
    initialIndexes_while_exit replicated (frames.length + fuel) st (walBytes frames ++ rest) =
      initialIndexes_while_exit replicated fuel
        (frames.foldl (initialIndexes_frame replicated) st) rest := by
  intro frames
  induction frames with
  | nil =>
    intro st fuel rest _ _ _ _
    simp [walBytes]
  | cons frame more ih =>
    intro st fuel rest hwf hcmd h0 hlt
    obtain ⟨hargc, hargs⟩ := hwf frame (by simp)
    have h1 : 1 ≤ frame.length := hcmd frame (by simp)
    have hwf2 : storeFrames more := fun f hf => hwf f (List.mem_cons_of_mem _ hf)
    have hcmd2 : commandFrames more := fun f hf => hcmd f (List.mem_cons_of_mem _ hf)
    have hsize := walBytes_cons_length frame more
    have hfsize : (frameBytes frame).length =
        ('*' :: (Nat.toDigits 10 frame.length ++ ['\r', '\n'])).length +
          (bulkStrings frame).length := by
      simp only [frameBytes, List.length_cons, List.length_append, List.length_nil]
      omega
    have hshape : walBytes (frame :: more) ++ rest =
        '*' :: (Nat.toDigits 10 frame.length ++
          ('\r' :: '\n' :: (bulkStrings frame ++ (walBytes more ++ rest)))) := by
      rw [walBytes_cons]
      simp
    have e : (frame :: more).length + fuel = (more.length + fuel) + 1 := by
      simp only [List.length_cons]; omega
    rw [hshape, e, initialIndexes_while_exit,
      fgets_header '*' frame.length _ (by decide) (lt_trans hargc (by norm_num))]
    dsimp only
    rw [cstr_header '*' _ (by decide)]
    dsimp only
    rw [if_neg (by simp), if_neg (by simp), atoi_toDigits _ hargc,
      if_neg (by
        have : (1 : Int) ≤ frame.length := by exact_mod_cast h1
        omega), Int.toNat_ofNat]
    rw [hsize] at hlt
    push_cast at hlt
    rw [addOffset_of_lt _ _ h0 (by omega),
      initialIndexes_arguments_bulkStrings frame 0 _ _ _ _ hargs (by omega)
        (by push_cast; omega)]
    dsimp only
    rw [List.foldl_cons]
    have hst : initialIndexes_apply replicated
        { st with
          v := initialIndexes_frameArguments frame.length 0
            { st.v with log_record := '*' :: (Nat.toDigits 10 frame.length ++ ['\r', '\n']) }
            frame
          seek_log_file := st.seek_log_file +
            (('*' :: (Nat.toDigits 10 frame.length ++ ['\r', '\n'])).length : Nat) +
            ((bulkStrings frame).length : Nat)
          count_records := st.count_records + 1 } =
        initialIndexes_frame replicated st frame := by
      unfold initialIndexes_frame headerLine
      rw [hfsize]
      push_cast
      rw [add_assoc]
    rw [hst]
    apply ih _ fuel rest hwf2 hcmd2
    · rw [initialIndexes_frame_seek]; omega
    · rw [initialIndexes_frame_seek, hfsize]; push_cast; omega

theorem initialIndexes_while_exit_head (replicated : Bool) (fuel : Nat) (st : InitialState)
    (fp buf fp1 : Bytes) (e : ReadError) (hg : fgets 128 fp = some (buf, fp1))
    (he : readRecord_error buf fp1 = some e) :
    initialIndexes_while_exit replicated (fuel + 1) st fp = some (e, st) := by
  rw [initialIndexes_while_exit, hg]
  dsimp only
  unfold readRecord_error at he
  cases hc : cstr buf with
  | nil =>
    rw [hc] at he
    dsimp only at he ⊢
    rw [← Option.some.inj he]
  | cons c t =>
    rw [hc] at he
    dsimp only at he ⊢
    by_cases h1 : c ≠ '*'
    · rw [if_pos h1] at he ⊢
      rw [← Option.some.inj he]
    · rw [if_neg h1] at he ⊢
      by_cases h2 : t = []
      · rw [if_pos h2] at he ⊢
        rw [← Option.some.inj he]
      · rw [if_neg h2] at he ⊢
        by_cases h3 : atoi t < 1
        · rw [if_pos h3] at he ⊢
          rw [← Option.some.inj he]
        · rw [if_neg h3] at he ⊢
          rw [initialIndexes_arguments_none_of_error _ _ _ _ _ _ e he, he]
          rfl

/-- The loop of startup catch-up over complete frames followed by a malformed frame leaves
through `fmterr` in the state reached after the complete frames. -/
theorem initialIndexes_while_exit_malformed (replicated : Bool) (good : List LogFrame)
    (bad : Bytes) (st : InitialState) (fuel : Nat) (hwf : storeFrames good)
    (hcmd : commandFrames good) (hfuel : good.length < fuel) (h0 : 0 ≤ st.seek_log_file)
    (hlt : st.seek_log_file + (walBytes good).length < 2 ^ 63) (hbad : malformedFrame bad) :
    initialIndexes_while_exit replicated fuel st (walBytes good ++ bad) =
      some (ReadError.fmterr, good.foldl (initialIndexes_frame replicated) st) := by
  obtain ⟨buf, fp1, hg, he⟩ := malformedFrame_error bad hbad
  have e : fuel = good.length + ((fuel - good.length - 1) + 1) := by omega
  rw [e, initialIndexes_while_exit_walBytes replicated good st _ bad hwf hcmd h0 hlt]
  exact initialIndexes_while_exit_head replicated _ _ bad buf fp1 _ hg he

/-! ## Startup catch-up as a whole -/

set_option maxRecDepth 512

/-- Startup catch-up over complete frames: it returns, counts the frames, applies them in
order and stores the length of the sequential log as offset. -/
theorem initialIndexes_catch_up (w : IRSystem) (records : DB) (done : Bytes)
    (frames : List LogFrame)
    (hlog : w.indexedlog = LogFile.db records)
    (hseek : w.final_log_seek = some done.length)
    (haof : w.aof = some (done ++ walBytes frames))
    (hrep : w.indexedlog_replicated = true → w.indexedlog_replica ≠ LogFile.corrupt)
    (hwf : storeFrames frames) (hcmd : commandFrames frames)
    (hsize : (done ++ walBytes frames).length < 2 ^ 63) :
    ∃ w1, initialIndexesSequentialLogToIndexedLog w = some (w1, frames.length) ∧
      w1.final_log_seek = some (done ++ walBytes frames).length ∧
      w1.indexedlog = LogFile.db (frames.foldl (initialIndexes_frame w.indexedlog_replicated)
        (initialIndexes_init records
          (if w.indexedlog_replicated = true then openIndexedLog w.indexedlog_replica 'W'
            else (true, w.indexedlog_replica)).2.records w.calls done.length)).dbp := by
  have hdone : done.length < 2 ^ 63 := by
    rw [List.length_append] at hsize; omega
  have hstart := initialIndexes_start_normal w records done.length hlog hseek hdone
  have hopen : openIndexedLog w.indexedlog 'W' = (true, LogFile.db records) := by
    rw [hlog]; rfl
  unfold initialIndexesSequentialLogToIndexedLog
  rw [hstart]
  by_cases hempty : done ++ walBytes frames = []
  · have hd : done = [] := (List.append_eq_nil.mp hempty).1
    have hf : frames = [] := by
      cases frames with
      | nil => rfl
      | cons f more =>
        have := (List.append_eq_nil.mp hempty).2
        rw [walBytes_cons] at this
        exact absurd this (by simp)
    subst hd; subst hf
    obtain ⟨w1, h1, h2, h3, _⟩ := initialIndexes_index_empty w ((([] : Bytes).length : Nat) : Int)
      _ hopen haof
    exact ⟨w1, h1, h3, h2⟩
  · have hlen := length_le_walBytes frames
    have hwhile := initialIndexes_while_walBytes w.indexedlog_replicated frames
      (initialIndexes_init (LogFile.db records).records
        (if w.indexedlog_replicated = true then openIndexedLog w.indexedlog_replica 'W'
          else (true, w.indexedlog_replica)).2.records w.calls done.length)
      ((done ++ walBytes frames).length + 1) hwf hcmd
      (by rw [List.length_append]; omega) (by simp [initialIndexes_init])
      (by
        rw [List.length_append] at hsize
        simp only [initialIndexes_init]
        have : ((done.length + (walBytes frames).length : Nat) : Int) < 2 ^ 63 := by
          exact_mod_cast hsize
        push_cast at this
        exact this)
    obtain ⟨w1, h1, h2, h3, _⟩ := initialIndexes_index_some w done.length (LogFile.db records)
      (done ++ walBytes frames) _ _ hopen haof hempty rfl (replica_opens w hrep)
      (by rw [fseek_of_lt _ hdone, List.drop_left]; exact hwhile)
    have hfinal : ((frames.foldl (initialIndexes_frame w.indexedlog_replicated)
        (initialIndexes_init (LogFile.db records).records
          (if w.indexedlog_replicated = true then openIndexedLog w.indexedlog_replica 'W'
            else (true, w.indexedlog_replica)).2.records w.calls done.length)).seek_log_file
        % 2 ^ 64).toNat = (done ++ walBytes frames).length := by
      rw [foldl_initialIndexes_frame_seek, List.length_append]
      simp only [initialIndexes_init]
      rw [List.length_append] at hsize
      have h4 : ((done.length : Int) + ((walBytes frames).length : Int)) % 2 ^ 64 =
          ((done.length + (walBytes frames).length : Nat) : Int) := by
        push_cast
        apply Int.emod_eq_of_lt (by omega)
        have : ((done.length + (walBytes frames).length : Nat) : Int) < 2 ^ 63 := by
          exact_mod_cast hsize
        push_cast at this
        omega
      rw [h4, Int.toNat_ofNat]
    rw [foldl_initialIndexes_frame_count] at h1
    rw [hfinal] at h3
    refine ⟨w1, ?_, h3, h2⟩
    rw [h1]
    simp [initialIndexes_init]

theorem initialIndexes_index_none (w : IRSystem) (seek : Int) (file : LogFile) (bytes : Bytes)
    (replica : Bool × LogFile)
    (hopen : openIndexedLog w.indexedlog 'W' = (true, file)) (haof : w.aof = some bytes)
    (hne : bytes ≠ [])
    (hrep : (if w.indexedlog_replicated = true then openIndexedLog w.indexedlog_replica 'W'
      else (true, w.indexedlog_replica)) = replica)
    (hrepl : replica.1 = true)
    (hwhile : initialIndexes_while w.indexedlog_replicated (bytes.length + 1)
      (initialIndexes_init file.records replica.2.records w.calls seek)
      (bytes.drop (fseek seek)) = none) :
    initialIndexes_index w seek = none := by
  unfold initialIndexes_index
  rw [hopen, haof, hrep]
  dsimp only
  rw [if_neg hne, if_neg (by simp [hrepl]), hwhile]

theorem initialIndexes_index_exit_some (w : IRSystem) (seek : Int) (file : LogFile)
    (bytes : Bytes) (replica : Bool × LogFile) (e : ReadError) (st : InitialState)
    (hopen : openIndexedLog w.indexedlog 'W' = (true, file)) (haof : w.aof = some bytes)
    (hne : bytes ≠ [])
    (hrep : (if w.indexedlog_replicated = true then openIndexedLog w.indexedlog_replica 'W'
      else (true, w.indexedlog_replica)) = replica)
    (hrepl : replica.1 = true)
    (hexit : initialIndexes_while_exit w.indexedlog_replicated (bytes.length + 1)
      (initialIndexes_init file.records replica.2.records w.calls seek)
      (bytes.drop (fseek seek)) = some (e, st)) :
    ∃ w1, initialIndexes_index_exit w seek = some (e, w1) ∧
      w1.indexedlog = LogFile.db st.dbp ∧
      w1.final_log_seek = w.final_log_seek ∧
      w1.final_log_seek_replica = w.final_log_seek_replica ∧
      w1.checkpoint_log_seek = w.checkpoint_log_seek ∧
      w1.calls = st.calls := by
  unfold initialIndexes_index_exit
  rw [hopen, haof, hrep]
  dsimp only
  rw [if_neg hne, if_neg (by simp [hrepl]), hexit]
  exact ⟨_, rfl, rfl, rfl, rfl, rfl, rfl⟩

/-- Startup catch-up over complete frames followed by a malformed frame: the function does
not return, it leaves through `fmterr` with the complete frames applied and the offset file
untouched. -/
theorem initialIndexes_exit_malformed (w : IRSystem) (records : DB) (done : Bytes)
    (good : List LogFrame) (bad : Bytes)
    (hlog : w.indexedlog = LogFile.db records)
    (hseek : w.final_log_seek = some done.length)
    (haof : w.aof = some (done ++ (walBytes good ++ bad)))
    (hrep : w.indexedlog_replicated = true → w.indexedlog_replica ≠ LogFile.corrupt)
    (hwf : storeFrames good) (hcmd : commandFrames good)
    (hsize : (done ++ walBytes good).length < 2 ^ 63) (hbad : malformedFrame bad) :
    initialIndexesSequentialLogToIndexedLog w = none ∧
    ∃ w1, initialIndexesSequentialLogToIndexedLog_exit w = some (ReadError.fmterr, w1) ∧
      w1.indexedlog = LogFile.db (good.foldl (initialIndexes_frame w.indexedlog_replicated)
        (initialIndexes_init records
          (if w.indexedlog_replicated = true then openIndexedLog w.indexedlog_replica 'W'
            else (true, w.indexedlog_replica)).2.records w.calls done.length)).dbp ∧
      w1.final_log_seek = w.final_log_seek ∧
      w1.calls = (good.foldl (initialIndexes_frame w.indexedlog_replicated)
        (initialIndexes_init records
          (if w.indexedlog_replicated = true then openIndexedLog w.indexedlog_replica 'W'
            else (true, w.indexedlog_replica)).2.records w.calls done.length)).calls := by
  have hdone : done.length < 2 ^ 63 := by
    rw [List.length_append] at hsize; omega
  have hstart := initialIndexes_start_normal w records done.length hlog hseek hdone
  have hopen : openIndexedLog w.indexedlog 'W' = (true, LogFile.db records) := by
    rw [hlog]; rfl
  have hne : done ++ (walBytes good ++ bad) ≠ [] := by
    intro h
    exact malformedFrame_ne_nil bad hbad
      (List.append_eq_nil.mp (List.append_eq_nil.mp h).2).2
  have hlen := length_le_walBytes good
  have hexit := initialIndexes_while_exit_malformed w.indexedlog_replicated good bad
    (initialIndexes_init (LogFile.db records).records
      (if w.indexedlog_replicated = true then openIndexedLog w.indexedlog_replica 'W'
        else (true, w.indexedlog_replica)).2.records w.calls done.length)
    ((done ++ (walBytes good ++ bad)).length + 1) hwf hcmd
    (by simp only [List.length_append]; omega) (by simp [initialIndexes_init])
    (by
      rw [List.length_append] at hsize
      simp only [initialIndexes_init]
      have : ((done.length + (walBytes good).length : Nat) : Int) < 2 ^ 63 := by
        exact_mod_cast hsize
      push_cast at this
      exact this) hbad
  have hdrop : (done ++ (walBytes good ++ bad)).drop (fseek done.length) =
      walBytes good ++ bad := by
    rw [fseek_of_lt _ hdone, List.drop_left]
  constructor
  · unfold initialIndexesSequentialLogToIndexedLog
    rw [hstart]
    apply initialIndexes_index_none w done.length (LogFile.db records)
      (done ++ (walBytes good ++ bad)) _ hopen haof hne rfl (replica_opens w hrep)
    rw [hdrop]
    exact initialIndexes_while_none_of_exit _ _ _ _ _ hexit
  · unfold initialIndexesSequentialLogToIndexedLog_exit
    rw [hstart]
    obtain ⟨w1, h1, h2, h3, _, _, h6⟩ := initialIndexes_index_exit_some w done.length
      (LogFile.db records) (done ++ (walBytes good ++ bad)) _ ReadError.fmterr _ hopen haof hne rfl
      (replica_opens w hrep) (by rw [hdrop]; exact hexit)
    exact ⟨w1, h1, h2, h3, h6⟩

set_option maxRecDepth 100000

/-! ## A batch of SET and DEL frames applied by the drain and again by startup catch-up -/

theorem frameArguments_three (v : InitialVars) (a b c : Bytes) :
    initialIndexes_frameArguments 3 0 v [a, b, c] =
      { log_record := v.log_record ++ headerLine '$' a.length ++ a ++ ['\n'] ++
          headerLine '$' b.length ++ b ++ ['\n'] ++ headerLine '$' c.length ++ c ++ []
        key := cstr b, command := cstr a } := rfl

theorem initialIndexes_frame_SET (st : InitialState) (K V : Bytes) :
    (initialIndexes_frame false st (frameSET K V)).dbp =
      dbPut (cstr K) (initialIndexes_record (frameSET K V)) (dbDel (cstr K) st.dbp) := rfl

theorem initialIndexes_frame_DEL (st : InitialState) (K : Bytes) :
    (initialIndexes_frame false st (frameDEL K)).dbp = dbDel (cstr K) st.dbp := rfl

theorem toDigits_no_char (n : Nat) (c : Char) (hc : c.isDigit = false) :
    c ∉ Nat.toDigits 10 n := by
  intro h
  have := toDigits_isDigit n c h
  rw [hc] at this
  exact absurd this (by decide)

theorem initialIndexes_record_SET (K V : Bytes) (hK : '\x00' ∉ K) (hV : '\x00' ∉ V) :
    initialIndexes_record (frameSET K V) =
      "*3\r".toList ++ '\n' :: ("$3\r".toList ++ '\n' :: ("SET".toList ++ '\n' ::
        (('$' :: (Nat.toDigits 10 K.length ++ ['\r'])) ++ '\n' :: (K ++ '\n' ::
          (('$' :: (Nat.toDigits 10 V.length ++ ['\r'])) ++ '\n' :: V))))) := by
  have h3 : Nat.toDigits 10 3 = ['3'] := by decide
  have hdK := toDigits_no_char K.length '\x00' (by decide)
  have hdV := toDigits_no_char V.length '\x00' (by decide)
  unfold initialIndexes_record
  show cstr (initialIndexes_frameArguments 3 0 _ ["SET".toList, K, V]).log_record = _
  rw [frameArguments_three]
  show cstr (headerLine '*' 3 ++ headerLine '$' 3 ++ _ ++ _ ++ _ ++ _ ++ _ ++ _ ++ _ ++ _) = _
  unfold headerLine
  rw [h3, cstr_eq_self]
  · simp
  · simp [hK, hV, hdK, hdV]

theorem initialIndexes_record_SET_lines (K V : Bytes) (hK : plainText K) (hV : plainText V) :
    sdssplitlen (initialIndexes_record (frameSET K V)) =
      ["*3\r".toList, "$3\r".toList, "SET".toList,
        '$' :: (Nat.toDigits 10 K.length ++ ['\r']), K,
        '$' :: (Nat.toDigits 10 V.length ++ ['\r']), V] := by
  have hdK := toDigits_no_char K.length '\n' (by decide)
  have hdV := toDigits_no_char V.length '\n' (by decide)
  have h : sdssplitlen (initialIndexes_record (frameSET K V)) =
      splitNewline (initialIndexes_record (frameSET K V)) := by
    rw [initialIndexes_record_SET K V hK.2.1 hV.2.1]; rfl
  rw [h, initialIndexes_record_SET K V hK.2.1 hV.2.1, splitNewline_line _ _ (by decide),
    splitNewline_line _ _ (by decide), splitNewline_line _ _ (by decide),
    splitNewline_line _ _ (by simp [hdK]), splitNewline_line _ _ hK.1,
    splitNewline_line _ _ (by simp [hdV]), splitNewline_plain _ hV.1]

theorem initialIndexes_record_SET_frame (K V : Bytes) (hK : plainText K) (hV : plainText V) :
    isSetFrame (initialIndexes_record (frameSET K V)) = true ∧
    frameValue (initialIndexes_record (frameSET K V)) = some V := by
  have hl := initialIndexes_record_SET_lines K V hK hV
  have hv : frameValue (initialIndexes_record (frameSET K V)) = some V := by
    unfold frameValue
    rw [hl]
    rfl
  have hc : frameCommand (initialIndexes_record (frameSET K V)) = some "SET".toList := by
    unfold frameCommand
    rw [hl]
    simp only [List.getElem?_cons_succ, List.getElem?_cons_zero, Option.map_some']
    rfl
  refine ⟨?_, hv⟩
  unfold isSetFrame
  rw [hc, hv]
  rfl

theorem chainOf_frame_SET (st : InitialState) (hs : keySorted st.dbp) (K1 V K : Bytes)
    (hK : '\x00' ∉ K1) :
    keySorted (initialIndexes_frame false st (frameSET K1 V)).dbp ∧
    chainOf (initialIndexes_frame false st (frameSET K1 V)).dbp K =
      if K1 = K then [initialIndexes_record (frameSET K1 V)] else chainOf st.dbp K := by
  rw [initialIndexes_frame_SET, cstr_of_no_nul K1 hK]
  refine ⟨keySorted_dbPut _ _ _ (keySorted_dbDel _ _ hs), ?_⟩
  rw [chainOf_put_step _ (keySorted_dbDel _ _ hs), chainOf_del_step]
  by_cases h : K1 = K
  · simp [h]
  · simp [h]

theorem chainOf_frame_DEL (st : InitialState) (hs : keySorted st.dbp) (K1 K : Bytes)
    (hK : '\x00' ∉ K1) :
    keySorted (initialIndexes_frame false st (frameDEL K1)).dbp ∧
    chainOf (initialIndexes_frame false st (frameDEL K1)).dbp K =
      if K1 = K then [] else chainOf st.dbp K := by
  rw [initialIndexes_frame_DEL, cstr_of_no_nul K1 hK]
  exact ⟨keySorted_dbDel _ _ hs, chainOf_del_step _ _ _⟩

theorem replayChain_snoc_set (x : List Bytes) (f V : Bytes) (hset : isSetFrame f = true)
    (hval : frameValue f = some V) : replayChain (x ++ [f]) = V := by
  unfold replayChain
  rw [List.foldl_append, List.foldl_cons, List.foldl_nil]
  exact replayRule_set _ _ _ hset hval

theorem lastIsRedo_snoc_set (x : List Bytes) (f : Bytes) (hset : isSetFrame f = true) :
    lastIsRedo (x ++ [f]) = true := by
  unfold lastIsRedo
  rw [List.getLast?_append]
  simp [hset]

theorem sameRestore_refl (x : List Bytes) : sameRestore x x :=
  ⟨rfl, Iff.rfl, rfl, le_refl _⟩

theorem readArguments_SET (v : IndexerVars) (K V : Bytes) (hK : '\x00' ∉ K) (hV : '\x00' ∉ V) :
    readArguments 0 v (frameSET K V) = { command := "SET".toList, key := K, value := V } := by
  simp [readArguments, frameSET, storeArgument, cstr_of_no_nul K hK, cstr_of_no_nul V hV]
  decide

theorem readArguments_DEL (v : IndexerVars) (K : Bytes) (hK : '\x00' ∉ K) :
    readArguments 0 v (frameDEL K) = { command := "DEL".toList, key := K, value := v.value } := by
  simp [readArguments, frameDEL, storeArgument, cstr_of_no_nul K hK]
  decide

theorem setOrDelFrame_store (batch : List LogFrame) (h : ∀ f ∈ batch, setOrDelFrame f) :
    storeFrames batch ∧ commandFrames batch := by
  constructor
  · intro f hf
    rcases h f hf with ⟨K, V, rfl, hK, hV⟩ | ⟨K, rfl, hK⟩
    · refine ⟨by simp [frameSET], ?_⟩
      intro a ha
      simp only [frameSET, List.mem_cons, List.mem_singleton, List.not_mem_nil, or_false] at ha
      rcases ha with rfl | rfl | rfl
      · simp
      · exact lt_trans hK.2.2 (by norm_num)
      · exact lt_trans hV.2.2 (by norm_num)
    · refine ⟨by simp [frameDEL], ?_⟩
      intro a ha
      simp only [frameDEL, List.mem_cons, List.mem_singleton, List.not_mem_nil, or_false] at ha
      rcases ha with rfl | rfl
      · simp
      · exact lt_trans hK.2.2 (by norm_num)
  · intro f hf
    rcases h f hf with ⟨K, V, rfl, _, _⟩ | ⟨K, rfl, _⟩
    · simp [frameSET]
    · simp [frameDEL]

theorem addRecordToIndex_some (list : List recordToIndex) (command key value : Bytes)
    (m : Int × Int) (h : command.length < 20 ∧ key.length < 50 ∧ value.length < 50) :
    ∃ ri, addRecordToIndex list command key value m = some (list ++ [ri]) ∧
      ri.command = command ∧ ri.key = key ∧ ri.value = value := by
  unfold addRecordToIndex
  rw [if_pos ⟨lt_trans h.1 (by norm_num), lt_trans h.2.1 (by norm_num), h.2.2⟩]
  refine ⟨_, rfl, ?_, ?_, rfl⟩
  · show recordToIndex_command command key value = command
    unfold recordToIndex_command
    rw [if_pos h.1]
  · show recordToIndex_key key value = key
    unfold recordToIndex_key
    rw [if_pos h.2.1]

/-- The drain and startup catch-up over the same batch of SET and DEL frames, told on the
chain of one key: when the batch names the key, the two chains restore alike whatever chains
they started from; when it does not, both leave the chain alone. -/
theorem reapply_batch (mem : Nat → Int × Int) : ∀ (batch : List LogFrame) (v : IndexerVars)
    (list : List recordToIndex), v.value.length < 50 → (∀ f ∈ batch, setOrDelFrame f) →
    ∃ v1 recs, readFrames mem v list batch = some (v1, list ++ recs) ∧
      ∀ (st : InitialState) (K : Bytes) (x : List Bytes), keySorted st.dbp →
        keySorted (batch.foldl (initialIndexes_frame false) st).dbp ∧
        ((∃ f ∈ batch, f[1]? = some K) →
          sameRestore (recs.foldl (tableStep K) x)
            (chainOf (batch.foldl (initialIndexes_frame false) st).dbp K)) ∧
        ((¬ ∃ f ∈ batch, f[1]? = some K) →
          recs.foldl (tableStep K) x = x ∧
          chainOf (batch.foldl (initialIndexes_frame false) st).dbp K = chainOf st.dbp K) := by
  intro batch
  induction batch with
  | nil =>
    intro v list _ _
    refine ⟨v, [], by simp [readFrames], ?_⟩
    intro st K x hs
    exact ⟨hs, fun h => by simp at h, fun _ => ⟨rfl, rfl⟩⟩
  | cons f more ih =>
    intro v list hv hbatch
    have hmore : ∀ g ∈ more, setOrDelFrame g := fun g hg => hbatch g (List.mem_cons_of_mem _ hg)
    rcases hbatch f (by simp) with ⟨K1, V, rfl, hK, hV⟩ | ⟨K1, rfl, hK⟩
    · -- SET K1 V
      obtain ⟨ri, hadd, hcmd, hkey, hval⟩ := addRecordToIndex_some list "SET".toList K1 V
        (mem list.length) ⟨by decide, hK.2.2, hV.2.2⟩
      obtain ⟨v1, recs, hread, hprop⟩ := ih { command := "SET".toList, key := K1, value := V }
        (list ++ [ri]) hV.2.2 hmore
      refine ⟨v1, ri :: recs, ?_, ?_⟩
      · rw [readFrames, if_neg (by simp [frameSET]),
          readArguments_SET v K1 V hK.2.1 hV.2.1]
        dsimp only
        rw [hadd]
        dsimp only
        rw [hread]
        simp
      · intro st K x hs
        obtain ⟨hs1, hchain1⟩ := chainOf_frame_SET st hs K1 V K hK.2.1
        obtain ⟨hsf, htouch, hnot⟩ := hprop (initialIndexes_frame false st (frameSET K1 V)) K
          (tableStep K x ri) hs1
        rw [List.foldl_cons, List.foldl_cons]
        refine ⟨hsf, ?_, ?_⟩
        · intro hex
          by_cases hm : ∃ g ∈ more, g[1]? = some K
          · exact htouch hm
          · obtain ⟨e1, e2⟩ := hnot hm
            rw [e1, e2, hchain1]
            have hk : K1 = K := by
              rcases hex with ⟨g, hg, hgk⟩
              rcases List.mem_cons.mp hg with rfl | hg2
              · simpa [frameSET] using hgk
              · exact absurd ⟨g, hg2, hgk⟩ hm
            rw [if_pos hk]
            unfold tableStep
            rw [if_pos (hkey.trans hk),
              if_pos (Or.inl (show ri.command = SET_COMMAND from hcmd))]
            obtain ⟨hset2, hval2⟩ := initialIndexes_record_SET_frame K1 V hK hV
            have hset1 := isSetFrame_aux ri
            have hval1 := frameValue_aux ri (by rw [hkey]; exact hK.1) (by rw [hval]; exact hV.1)
            rw [hval] at hval1
            refine ⟨?_, ?_, ?_, ?_⟩
            · rw [replayChain_snoc_set _ _ V hset1 hval1]
              have := replayChain_snoc_set [] _ V hset2 hval2
              simpa using this.symm
            · simp
            · rw [lastIsRedo_snoc_set _ _ hset1]
              have := lastIsRedo_snoc_set [] _ hset2
              simpa using this.symm
            · simp
        · intro hex
          have hm : ¬ ∃ g ∈ more, g[1]? = some K := by
            rintro ⟨g, hg, hgk⟩
            exact hex ⟨g, List.mem_cons_of_mem _ hg, hgk⟩
          have hk : ¬ K1 = K := by
            intro hk
            exact hex ⟨frameSET K1 V, by simp, by simp [frameSET, hk]⟩
          obtain ⟨e1, e2⟩ := hnot hm
          rw [e1, e2, hchain1, if_neg hk]
          refine ⟨?_, rfl⟩
          unfold tableStep
          rw [if_neg (by rw [hkey]; exact hk)]
    · -- DEL K1
      obtain ⟨ri, hadd, hcmd, hkey, hval⟩ := addRecordToIndex_some list "DEL".toList K1 v.value
        (mem list.length) ⟨by decide, hK.2.2, hv⟩
      obtain ⟨v1, recs, hread, hprop⟩ := ih
        { command := "DEL".toList, key := K1, value := v.value } (list ++ [ri]) hv hmore
      refine ⟨v1, ri :: recs, ?_, ?_⟩
      · rw [readFrames, if_neg (by simp [frameDEL]), readArguments_DEL v K1 hK.2.1]
        dsimp only
        rw [hadd]
        dsimp only
        rw [hread]
        simp
      · intro st K x hs
        obtain ⟨hs1, hchain1⟩ := chainOf_frame_DEL st hs K1 K hK.2.1
        obtain ⟨hsf, htouch, hnot⟩ := hprop (initialIndexes_frame false st (frameDEL K1)) K
          (tableStep K x ri) hs1
        rw [List.foldl_cons, List.foldl_cons]
        refine ⟨hsf, ?_, ?_⟩
        · intro hex
          by_cases hm : ∃ g ∈ more, g[1]? = some K
          · exact htouch hm
          · obtain ⟨e1, e2⟩ := hnot hm
            rw [e1, e2, hchain1]
            have hk : K1 = K := by
              rcases hex with ⟨g, hg, hgk⟩
              rcases List.mem_cons.mp hg with rfl | hg2
              · simpa [frameDEL] using hgk
              · exact absurd ⟨g, hg2, hgk⟩ hm
            rw [if_pos hk]
            have ht : tableStep K x ri = [] := by
              unfold tableStep
              rw [if_pos (hkey.trans hk), hcmd, if_neg (by decide), if_pos (by decide)]
            rw [ht]
            exact sameRestore_refl []
        · intro hex
          have hm : ¬ ∃ g ∈ more, g[1]? = some K := by
            rintro ⟨g, hg, hgk⟩
            exact hex ⟨g, List.mem_cons_of_mem _ hg, hgk⟩
          have hk : ¬ K1 = K := by
            intro hk
            exact hex ⟨frameDEL K1, by simp, by simp [frameDEL, hk]⟩
          obtain ⟨e1, e2⟩ := hnot hm
          rw [e1, e2, hchain1, if_neg hk]
          refine ⟨?_, rfl⟩
          unfold tableStep
          rw [if_neg (by rw [hkey]; exact hk)]

/-! ## The drain that dies before its offset write, and the restart -/

theorem indexesSequentialLogToIndexedLogV2_batch (mem : Nat → Int × Int) (s : IndexerState)
    (v v1 : IndexerVars) (done : Bytes) (batch : List LogFrame) (recs : List recordToIndex)
    (hon : s.indexer_state = true) (hs : keySorted s.dbp) (hdone : done.length < 2 ^ 63)
    (hwf : storeFrames batch) (hread : readFrames mem v [] batch = some (v1, recs)) :
    ∃ s1 seek1, indexesSequentialLogToIndexedLogV2 mem s v done.length
        (done ++ walBytes batch) = some (s1, v1, seek1) ∧
      keySorted s1.dbp ∧
      ∀ K, chainOf s1.dbp K = recs.foldl (tableStep K) (chainOf s.dbp K) := by
  rw [indexesSequentialLogToIndexedLogV2_walBytes mem s v done batch hon hwf hdone]
  unfold indexFrames
  rw [if_neg (by simp [hon]), hread]
  cases recs with
  | nil => exact ⟨s, _, rfl, hs, fun _ => rfl⟩
  | cons ri next =>
    exact ⟨_, _, rfl, writeToIndexedLog_sorted s _ _ hon hs,
      fun K => writeToIndexedLog_chain s _ _ hon hs K⟩

set_option maxRecDepth 512

theorem drainWithoutOffsetWrite_some (mem : Nat → Int × Int) (w : IRSystem) (v v1 : IndexerVars)
    (seek seek1 : Nat) (aof : Bytes) (s1 : IndexerState) (haof : w.aof = some aof)
    (hround : indexesSequentialLogToIndexedLogV2 mem (indexerOf w) v seek aof =
      some (s1, v1, seek1)) :
    ∃ crashed, drainWithoutOffsetWrite mem w v seek = some crashed ∧
      crashed.indexedlog = LogFile.db s1.dbp ∧
      crashed.final_log_seek = w.final_log_seek ∧
      crashed.checkpoint_log_seek = w.checkpoint_log_seek ∧
      crashed.aof = w.aof ∧
      crashed.indexedlog_replicated = w.indexedlog_replicated ∧
      crashed.indexedlog_replica = w.indexedlog_replica := by
  have h : w.aof.bind (indexesSequentialLogToIndexedLogV2 mem (indexerOf w) v seek) =
      some (s1, v1, seek1) := by
    rw [haof, Option.some_bind]
    exact hround
  unfold drainWithoutOffsetWrite
  rw [h, Option.map_some']
  exact ⟨_, rfl, rfl, rfl, rfl, rfl, rfl, rfl⟩

/-- A batch of SET and DEL frames applied by the drain, the process dying before the offset
write, and applied again by startup catch-up from the old offset: every key is restored
alike from the indexed log before and after the restart. -/
theorem reapplied_batch (mem : Nat → Int × Int) (w : IRSystem) (records : DB) (done : Bytes)
    (batch : List LogFrame) (v : IndexerVars)
    (hlog : w.indexedlog = LogFile.db records) (hsorted : keySorted records)
    (hseek : w.final_log_seek = some done.length)
    (haof : w.aof = some (done ++ walBytes batch))
    (hrep : w.indexedlog_replicated = false)
    (hbatch : ∀ f ∈ batch, setOrDelFrame f) (hv : v.value.length < 50)
    (hsize : (done ++ walBytes batch).length < 2 ^ 63) :
    ∃ crashed restarted, drainWithoutOffsetWrite mem w v done.length = some crashed ∧
      crashed.final_log_seek = some done.length ∧
      initialIndexesSequentialLogToIndexedLog crashed = some (restarted, batch.length) ∧
      restarted.final_log_seek = some (done ++ walBytes batch).length ∧
      ∀ K, sameRestore (chainOf crashed.indexedlog.records K)
        (chainOf restarted.indexedlog.records K) := by
  obtain ⟨hwf, hcmdf⟩ := setOrDelFrame_store batch hbatch
  obtain ⟨v1, recs, hread, hprop⟩ := reapply_batch mem batch v [] hv hbatch
  rw [List.nil_append] at hread
  have hdone : done.length < 2 ^ 63 := by
    rw [List.length_append] at hsize; omega
  have hs0 : keySorted (indexerOf w).dbp := by
    show keySorted w.indexedlog.records
    rw [hlog]
    exact hsorted
  obtain ⟨s1, seek1, hround, hs1, hchain⟩ := indexesSequentialLogToIndexedLogV2_batch mem
    (indexerOf w) v v1 done batch recs rfl hs0 hdone hwf hread
  obtain ⟨crashed, hcrash, hc1, hc2, _, hc4, hc5, _⟩ := drainWithoutOffsetWrite_some mem w v v1
    done.length seek1 _ s1 haof hround
  obtain ⟨restarted, hrun, hoff, hres⟩ := initialIndexes_catch_up crashed s1.dbp done batch hc1
    (hc2.trans hseek) (hc4.trans haof) (fun h => by rw [hc5, hrep] at h; exact absurd h (by decide))
    hwf hcmdf hsize
  refine ⟨crashed, restarted, hcrash, hc2.trans hseek, hrun, hoff, ?_⟩
  intro K
  have hrepc : crashed.indexedlog_replicated = false := hc5.trans hrep
  have key : ∀ R : DB, sameRestore (chainOf s1.dbp K)
      (chainOf (batch.foldl (initialIndexes_frame false)
        (initialIndexes_init s1.dbp R crashed.calls done.length)).dbp K) := by
    intro R
    obtain ⟨_, htouch, hnot⟩ := hprop (initialIndexes_init s1.dbp R crashed.calls done.length)
      K (chainOf (indexerOf w).dbp K) hs1
    rw [hchain K]
    by_cases ht : ∃ f ∈ batch, f[1]? = some K
    · exact htouch ht
    · obtain ⟨e1, e2⟩ := hnot ht
      rw [e1, e2]
      show sameRestore (chainOf (indexerOf w).dbp K) (chainOf s1.dbp K)
      rw [hchain K, e1]
      exact sameRestore_refl _
  rw [hres, hc1, hrepc]
  exact key _

set_option maxRecDepth 100000

/-! ## Claims on the restorers -/

/-- C1: for a key outside the restored-key set whose chain in the indexed log is non-empty and
made of SET and INCR frames, `loadDBFromIndexedLog` (log and store reachable, no stop signal,
keys contiguous, every frame readable) returns and hands the store exactly one `SETIR key value`
for that key, the value being the left fold of the replay rule over the chain, in chain order,
from "0".  The rule takes the value argument of a SET frame and the decimal text of
`atoi(value)+1` for an INCR frame, and `atoi` of a text without leading integer is 0. -/
theorem C1_incremental_replay_is_left_fold (replyStr : Bytes → Bytes → Bool)
    (server : redisServer) (key : Bytes)
    (hopen : server.indexedlog_opens = true) (hconn : server.redis_connects = true)
    (hstop : server.instant_recovery_performing_stop = false)
    (hg : grouped server.indexedlog = true)
    (hread : ∀ r ∈ server.indexedlog, frameReadable r.2 = true)
    (hkey : isRestoredTuple server.hash_restored_tuples key = false)
    (hne : chainOf server.indexedlog key ≠ [])
    (hchain : ∀ frame ∈ chainOf server.indexedlog key,
      isSetFrame frame = true ∨ isIncrFrame frame = true) :
    (∃ server1 new, loadDBFromIndexedLog replyStr server = some server1 ∧
      server1.setIR = server.setIR ++ new ∧
      new.filter (fun x => x.1 == key) =
        [(key, (chainOf server.indexedlog key).foldl replayRule "0".toList)]) ∧
    (∀ value frame, isSetFrame frame = true →
      frameValue frame = some (replayRule value frame)) ∧
    (∀ value frame, isIncrFrame frame = true →
      replayRule value frame = sprintf_d (toInt32 (atoi value + 1))) ∧
    (∀ value, noLeadingInteger value = true → atoi value = 0) := by
  refine ⟨?_, ?_, ?_, atoi_noLeadingInteger⟩
  · obtain ⟨server1, new, hrun, hset, hfil⟩ :=
      loadDBFromIndexedLog_eq replyStr server hopen hconn hstop hg hread
    refine ⟨server1, new, hrun, hset, ?_⟩
    rw [hfil key, if_pos ⟨hkey, lastIsRedo_of_all _ hne hchain⟩]
    rfl
  · intro value frame h
    unfold isSetFrame at h
    simp only [Bool.and_eq_true, beq_iff_eq] at h
    unfold replayRule
    rw [if_pos h.1]
    obtain ⟨x, hx⟩ := Option.isSome_iff_exists.1 h.2
    rw [hx]
    rfl
  · intro value frame h
    unfold isIncrFrame at h
    simp only [beq_iff_eq] at h
    unfold replayRule
    rw [h, if_neg (by decide), if_pos rfl]

set_option maxRecDepth 100000 in
/-- Witness of C1 on the sample log, key `a`: the restorer submits `SETIR a 6`. -/
theorem C1_incremental_replay_is_left_fold_witness :
    (∃ server1 new, loadDBFromIndexedLog replyOK (serverAfterRestart sampleLog) = some server1 ∧
      server1.setIR = (serverAfterRestart sampleLog).setIR ++ new ∧
      new.filter (fun x => x.1 == "a".toList) = [("a".toList, "6".toList)]) :=
  (C1_incremental_replay_is_left_fold replyOK (serverAfterRestart sampleLog) "a".toList
    rfl rfl rfl (by decide) (by decide) (by decide) (by decide) (by decide)).1

/-- C7: for every key with a non-empty chain in the indexed log (log and store reachable, no
stop signal, keys contiguous, frames readable), the on-demand restorer returns 1 and submits
`SETIR key value` where `value` is the value of every `SETIR` that the incremental restorer
submits for that key on the same log; and the incremental restorer does submit exactly one such
command when the key is not yet restored and the chain ends with a SET or INCR frame. -/
theorem C7_on_demand_value_equals_incremental_value (replyStr : Bytes → Bytes → Bool)
    (server : redisServer) (key : Bytes)
    (hopen : server.indexedlog_opens = true) (hconn : server.redis_connects = true)
    (hstop : server.instant_recovery_performing_stop = false)
    (hg : grouped server.indexedlog = true)
    (hread : ∀ r ∈ server.indexedlog, frameReadable r.2 = true)
    (hne : chainOf server.indexedlog key ≠ []) :
    ∃ value serverD serverI new,
      loadRecordFromIndexedLog server key = some (1, serverD) ∧
      serverD.setIR = server.setIR ++ [(key, value)] ∧
      loadDBFromIndexedLog replyStr server = some serverI ∧
      serverI.setIR = server.setIR ++ new ∧
      (∀ x ∈ new, x.1 = key → x.2 = value) ∧
      (isRestoredTuple server.hash_restored_tuples key = false →
        lastIsRedo (chainOf server.indexedlog key) = true →
        new.filter (fun x => x.1 == key) = [(key, value)]) := by
  obtain ⟨serverI, new, hrun, hset, hfil⟩ :=
    loadDBFromIndexedLog_eq replyStr server hopen hconn hstop hg hread
  obtain ⟨valueIR, hload, hval⟩ :=
    (loadRecordFromIndexedLog_eq server key hopen (fun r hr _ => hread r hr)).2 hne
  refine ⟨valueIR, _, serverI, new, hload, rfl, hrun, hset, ?_, ?_⟩
  · intro x hx hxk
    have hmem : x ∈ new.filter (fun y => y.1 == key) := by
      rw [List.mem_filter]
      exact ⟨hx, by simp [hxk]⟩
    rw [hfil key] at hmem
    split at hmem
    · rw [List.mem_singleton.1 hmem, hval hg]
    · simp at hmem
  · intro hkey hlast
    rw [hfil key, if_pos ⟨hkey, hlast⟩, hval hg]

/-- Witness of C7 on the sample log, key `a`. -/
theorem C7_on_demand_value_equals_incremental_value_witness :
    ∃ value serverD serverI new,
      loadRecordFromIndexedLog (serverAfterRestart sampleLog) "a".toList = some (1, serverD) ∧
      serverD.setIR = (serverAfterRestart sampleLog).setIR ++ [("a".toList, value)] ∧
      loadDBFromIndexedLog replyOK (serverAfterRestart sampleLog) = some serverI ∧
      serverI.setIR = (serverAfterRestart sampleLog).setIR ++ new ∧
      (∀ x ∈ new, x.1 = "a".toList → x.2 = value) ∧
      (isRestoredTuple (serverAfterRestart sampleLog).hash_restored_tuples "a".toList = false →
        lastIsRedo (chainOf (serverAfterRestart sampleLog).indexedlog "a".toList) = true →
        new.filter (fun x => x.1 == "a".toList) = [("a".toList, value)]) :=
  C7_on_demand_value_equals_incremental_value replyOK (serverAfterRestart sampleLog) "a".toList
    rfl rfl rfl (by decide) (by decide) (by decide)

/-- C8: when the indexed log opens (and the frames stored under the key are readable),
`loadRecordFromIndexedLog` returns, and it returns 1 exactly when the key has at least one record
in the indexed log; for a key without record it returns 0, submits no redo command and adds the
key to the restored-key set. -/
theorem C8_on_demand_return_signal (server : redisServer) (key : Bytes)
    (hopen : server.indexedlog_opens = true)
    (hread : ∀ r ∈ server.indexedlog, r.1 = key → frameReadable r.2 = true) :
    ∃ ret server1, loadRecordFromIndexedLog server key = some (ret, server1) ∧
      (ret = 1 ↔ chainOf server.indexedlog key ≠ []) ∧
      (chainOf server.indexedlog key = [] →
        ret = 0 ∧ server1.setIR = server.setIR ∧
          isRestoredTuple server1.hash_restored_tuples key = true) := by
  obtain ⟨h0, h1⟩ := loadRecordFromIndexedLog_eq server key hopen hread
  by_cases hc : chainOf server.indexedlog key = []
  · refine ⟨0, _, h0 hc, ?_, ?_⟩
    · simp [hc]
    · intro _
      refine ⟨rfl, rfl, ?_⟩
      simp [isRestoredTuple, addRestoredTuple]
  · obtain ⟨valueIR, hload, -⟩ := h1 hc
    refine ⟨1, _, hload, ?_, ?_⟩
    · simp [hc]
    · intro h
      exact absurd h hc

/-- Witness of C8 on the sample log, key `zz`, which has no record. -/
theorem C8_on_demand_return_signal_witness :
    ∃ ret server1,
      loadRecordFromIndexedLog (serverAfterRestart sampleLog) "zz".toList = some (ret, server1) ∧
      (ret = 1 ↔ chainOf (serverAfterRestart sampleLog).indexedlog "zz".toList ≠ []) ∧
      (chainOf (serverAfterRestart sampleLog).indexedlog "zz".toList = [] →
        ret = 0 ∧ server1.setIR = (serverAfterRestart sampleLog).setIR ∧
          isRestoredTuple server1.hash_restored_tuples "zz".toList = true) :=
  C8_on_demand_return_signal (serverAfterRestart sampleLog) "zz".toList rfl (by decide)

/-- C9 as stated fails on the code: `loadRecordFromIndexedLog` does not look at the restored-key
set.  Called for key `a`, already in the set and present in the sample log, it returns 1, submits
`SETIR a 6`, counts one more on-demand load and adds a second entry for `a`. -/
theorem C9_counterexample :
    isRestoredTuple ["a".toList] "a".toList = true ∧
    (loadRecordFromIndexedLog
        (serverRecovering sampleLog ["a".toList])
        "a".toList).map
      (fun r => (r.1, r.2.setIR, r.2.count_tuples_loaded_ondemand, r.2.hash_restored_tuples)) =
      some (1, [("a".toList, "6".toList)], 1, ["a".toList, "a".toList]) :=
  ⟨by decide, rfl⟩

/-- C9, amended: a key already in the restored-key set makes `isRestoredTuple` true, and the
dispatcher step `materialize`, which tests it before calling `loadRecordFromIndexedLog`, returns
at once: the server state (redo commands, restored-key set, counters) is unchanged. -/
theorem C9_materialize_returns_for_restored_key (server : redisServer) (key : Bytes)
    (h : key ∈ server.hash_restored_tuples) :
    isRestoredTuple server.hash_restored_tuples key = true ∧ materialize server key = some server := by
  have hr : isRestoredTuple server.hash_restored_tuples key = true := by
    simpa [isRestoredTuple] using h
  refine ⟨hr, ?_⟩
  unfold materialize
  rw [if_pos hr]

/-- Witness of the amended C9: key `a` in the restored-key set over the sample log. -/
theorem C9_materialize_returns_for_restored_key_witness :
    isRestoredTuple ["a".toList] "a".toList = true ∧
    materialize (serverRecovering sampleLog ["a".toList])
        "a".toList =
      some (serverRecovering sampleLog ["a".toList]) :=
  C9_materialize_returns_for_restored_key
    (serverRecovering sampleLog ["a".toList]) "a".toList
    (by decide)

/-- C10: on an indexed log whose frames are SET and INCR frames (keys contiguous, log and store
reachable, no stop signal, restored-key set changed by nobody else), `loadDBFromIndexedLog`
returns, and the keys of the `SETIR` commands it submits are pairwise distinct and are exactly
the keys of the log that are not in the restored-key set it started with. -/
theorem C10_incremental_restores_exactly_pending_keys (replyStr : Bytes → Bytes → Bool)
    (server : redisServer)
    (hopen : server.indexedlog_opens = true) (hconn : server.redis_connects = true)
    (hstop : server.instant_recovery_performing_stop = false)
    (hg : grouped server.indexedlog = true)
    (hframes : ∀ r ∈ server.indexedlog, isSetFrame r.2 = true ∨ isIncrFrame r.2 = true) :
    ∃ server1 new, loadDBFromIndexedLog replyStr server = some server1 ∧
      server1.setIR = server.setIR ++ new ∧
      (new.map Prod.fst).Nodup ∧
      (∀ k, k ∈ new.map Prod.fst ↔
        (k ∈ server.indexedlog.map Prod.fst ∧ k ∉ server.hash_restored_tuples)) := by
  have hread : ∀ r ∈ server.indexedlog, frameReadable r.2 = true := by
    intro r hr
    apply frameReadable_of_redo
    simpa using hframes r hr
  obtain ⟨server1, new, hrun, hset, hfil⟩ :=
    loadDBFromIndexedLog_eq replyStr server hopen hconn hstop hg hread
  have hlast : ∀ k, lastIsRedo (chainOf server.indexedlog k) = true ↔
      k ∈ server.indexedlog.map Prod.fst := by
    intro k
    rw [mem_keys_iff_chainOf_ne_nil]
    constructor
    · intro h e
      rw [e] at h
      exact absurd h (by simp [lastIsRedo_nil])
    · intro h
      apply lastIsRedo_of_all _ h
      intro frame hf
      exact hframes (k, frame) ((mem_chainOf _ _ _).1 hf)
  refine ⟨server1, new, hrun, hset, ?_, ?_⟩
  · apply nodup_keys_of_filter
    intro k
    rw [hfil k]
    split <;> simp
  · intro k
    have hmem : k ∈ new.map Prod.fst ↔ new.filter (fun x => x.1 == k) ≠ [] := by
      rw [Ne, List.filter_eq_nil_iff]
      simp only [List.mem_map, beq_iff_eq]
      constructor
      · rintro ⟨x, hx, rfl⟩ h
        exact h x hx rfl
      · intro h
        by_contra hcon
        apply h
        intro x hx e
        exact hcon ⟨x, hx, e⟩
    rw [hmem, hfil k, ← hlast k]
    have hR : isRestoredTuple server.hash_restored_tuples k = false ↔
        k ∉ server.hash_restored_tuples := by
      simp [isRestoredTuple]
    rw [← hR]
    by_cases hc : isRestoredTuple server.hash_restored_tuples k = false ∧
        lastIsRedo (chainOf server.indexedlog k) = true
    · rw [if_pos hc]
      simp [hc.1, hc.2]
    · rw [if_neg hc]
      simp only [ne_eq, not_true_eq_false, false_iff]
      intro h
      exact hc ⟨h.2, h.1⟩

/-- Witness of C10: the sample log with key `b` already restored. -/
theorem C10_incremental_restores_exactly_pending_keys_witness :
    ∃ server1 new,
      loadDBFromIndexedLog replyOK
        (serverRecovering sampleLog ["b".toList]) = some server1 ∧
      server1.setIR = [] ++ new ∧
      (new.map Prod.fst).Nodup ∧
      (∀ k, k ∈ new.map Prod.fst ↔
        (k ∈ sampleLog.map Prod.fst ∧ k ∉ ["b".toList])) :=
  C10_incremental_restores_exactly_pending_keys replyOK
    (serverRecovering sampleLog ["b".toList])
    rfl rfl rfl (by decide) (by decide)

/-! ## Claims on the asynchronous indexer -/

/-- C2 as stated fails on the code.  For the log file holding the frame of `SET k V`, with `V`
made of the two lines `a` and `b`, the indexer stores the value inside a newline-separated text,
and both restorers, which take line 6 of that text, submit `SETIR k a`.  A value `a NUL b` is cut at the NUL by the
indexer and comes back as `a`.  A key of 50 bytes fills `char key[50]` in `addRecordToIndex`
without a NUL, so the node's key reads as the key followed by the value: the record of
`SET K v` is stored under `K` followed by `v`, and restoring `K` is a miss. -/
theorem C2_counterexample :
    (indexedLogOf sampleMem (walBytes [frameSET "k".toList "a\nb".toList])).bind
        (fun db => (loadDBFromIndexedLog replyOK (serverAfterRestart db)).map (fun s => s.setIR)) =
      some [("k".toList, "a".toList)] ∧
    (indexedLogOf sampleMem (walBytes [frameSET "k".toList "a\nb".toList])).bind
        (fun db => (loadRecordFromIndexedLog (serverAfterRestart db) "k".toList).map
          (fun r => (r.1, r.2.setIR))) =
      some (1, [("k".toList, "a".toList)]) ∧
    "a".toList ≠ "a\nb".toList ∧
    (indexedLogOf sampleMem (walBytes [frameSET "k".toList ['a', '\x00', 'b']])).bind
        (fun db => (loadDBFromIndexedLog replyOK (serverAfterRestart db)).map (fun s => s.setIR)) =
      some [("k".toList, "a".toList)] ∧
    (indexedLogOf longKeyMem (walBytes [frameSET longKey "v".toList])).map
        (fun db => db.map Prod.fst) = some [longKey ++ "v".toList] ∧
    (indexedLogOf longKeyMem (walBytes [frameSET longKey "v".toList])).bind
        (fun db => (loadRecordFromIndexedLog (serverAfterRestart db) longKey).map
          (fun r => (r.1, r.2.setIR))) =
      some (0, []) :=
  ⟨rfl, rfl, by decide, rfl, by decide, by decide⟩

/-- C2, amended: for a key and values without newline and without NUL, shorter than 50 bytes,
the asynchronous indexer, reading the bytes of the log file, turns the log `SET K V1; SET K V2`
into an indexed log from which the on-demand restorer and the incremental restorer each submit
exactly `SETIR K V2`, and the log `SET K V` into one from which they submit exactly
`SETIR K V`. -/
theorem C2_last_SET_wins_for_plain_text (mem : Nat → Int × Int)
    (replyStr : Bytes → Bytes → Bool) (K V V1 V2 : Bytes)
    (hK : plainText K) (hV : plainText V) (hV1 : plainText V1) (hV2 : plainText V2) :
    (∃ db, indexedLogOf mem (walBytes [frameSET K V1, frameSET K V2]) = some db ∧
      (∃ server1, loadRecordFromIndexedLog (serverAfterRestart db) K = some (1, server1) ∧
        server1.setIR = [(K, V2)]) ∧
      (∃ server2, loadDBFromIndexedLog replyStr (serverAfterRestart db) = some server2 ∧
        server2.setIR = [(K, V2)])) ∧
    (∃ db, indexedLogOf mem (walBytes [frameSET K V]) = some db ∧
      (∃ server1, loadRecordFromIndexedLog (serverAfterRestart db) K = some (1, server1) ∧
        server1.setIR = [(K, V)]) ∧
      (∃ server2, loadDBFromIndexedLog replyStr (serverAfterRestart db) = some server2 ∧
        server2.setIR = [(K, V)])) := by
  obtain ⟨hKn, hK0, hKl⟩ := hK
  obtain ⟨hVn, hV0, hVl⟩ := hV
  obtain ⟨hV1n, hV10, hV1l⟩ := hV1
  obtain ⟨hV2n, hV20, hV2l⟩ := hV2
  have hcmd : sdstoupper (cstr "SET".toList) = SET_COMMAND := by decide
  have hcl : (sdstoupper (cstr "SET".toList)).length < 20 := by decide
  have hsl : "SET".toList.length < 2 ^ 63 := by decide
  have hwf2 : storeFrames [frameSET K V1, frameSET K V2] :=
    storeFrames_three _ _ _ _ hsl (by omega) (by omega)
      (storeFrames_three _ _ _ _ hsl (by omega) (by omega) storeFrames_nil)
  have hwf1 : storeFrames [frameSET K V] :=
    storeFrames_three _ _ _ _ hsl (by omega) (by omega) storeFrames_nil
  constructor
  · have hread : readFrames mem initialIndexerVars [] [frameSET K V1, frameSET K V2] =
        some ({ command := SET_COMMAND, key := K, value := V2 },
          [{ command := SET_COMMAND, key := K, value := V1,
             sdslen_key := (mem 0).1, sdslen_value := (mem 0).2 },
           { command := SET_COMMAND, key := K, value := V2,
             sdslen_key := (mem 1).1, sdslen_value := (mem 1).2 }]) := by
      unfold frameSET
      rw [readFrames_three mem _ _ _ _ _ _ hcl (by rw [cstr_of_no_nul K hK0]; exact hKl)
        (by rw [cstr_of_no_nul V1 hV10]; exact hV1l)]
      rw [readFrames_three mem _ _ _ _ _ _ hcl (by rw [cstr_of_no_nul K hK0]; exact hKl)
        (by rw [cstr_of_no_nul V2 hV20]; exact hV2l)]
      rw [hcmd, cstr_of_no_nul K hK0, cstr_of_no_nul V1 hV10, cstr_of_no_nul V2 hV20]
      rfl
    refine ⟨_, (indexedLogOf_walBytes mem _ hwf2).trans
      (indexedLogOf_of_readFrames mem _ _ _ _ hread), ?_⟩
    have hres := restore_single_key replyStr
      (writeToIndexedLog emptyIndexer
        [{ command := SET_COMMAND, key := K, value := V1,
           sdslen_key := (mem 0).1, sdslen_value := (mem 0).2 },
         { command := SET_COMMAND, key := K, value := V2,
           sdslen_key := (mem 1).1, sdslen_value := (mem 1).2 }] 0).state.dbp K
      [{ command := SET_COMMAND, key := K, value := V1,
         sdslen_key := (mem 0).1, sdslen_value := (mem 0).2 },
       { command := SET_COMMAND, key := K, value := V2,
         sdslen_key := (mem 1).1, sdslen_value := (mem 1).2 }]
      (writeToIndexedLog_sorted _ _ _ rfl keySorted_nil) (by simp)
      (by
        rw [writeToIndexedLog_chain _ _ _ rfl keySorted_nil]
        simp [tableStep, chainOf, emptyIndexer])
      (by
        intro k hk
        have hk2 : ¬ K = k := fun e => hk e.symm
        rw [writeToIndexedLog_chain _ _ _ rfl keySorted_nil]
        simp [tableStep, chainOf, emptyIndexer, hk2])
    simp only [List.map_cons, List.map_nil] at hres
    rw [replayChain_two_sets _ _ hKn hV2n] at hres
    exact hres
  · have hread : readFrames mem initialIndexerVars [] [frameSET K V] =
        some ({ command := SET_COMMAND, key := K, value := V },
          [{ command := SET_COMMAND, key := K, value := V,
             sdslen_key := (mem 0).1, sdslen_value := (mem 0).2 }]) := by
      unfold frameSET
      rw [readFrames_three mem _ _ _ _ _ _ hcl (by rw [cstr_of_no_nul K hK0]; exact hKl)
        (by rw [cstr_of_no_nul V hV0]; exact hVl)]
      rw [hcmd, cstr_of_no_nul K hK0, cstr_of_no_nul V hV0]
      rfl
    refine ⟨_, (indexedLogOf_walBytes mem _ hwf1).trans
      (indexedLogOf_of_readFrames mem _ _ _ _ hread), ?_⟩
    have hres := restore_single_key replyStr
      (writeToIndexedLog emptyIndexer
        [{ command := SET_COMMAND, key := K, value := V,
           sdslen_key := (mem 0).1, sdslen_value := (mem 0).2 }] 0).state.dbp K
      [{ command := SET_COMMAND, key := K, value := V,
         sdslen_key := (mem 0).1, sdslen_value := (mem 0).2 }]
      (writeToIndexedLog_sorted _ _ _ rfl keySorted_nil) (by simp)
      (by
        rw [writeToIndexedLog_chain _ _ _ rfl keySorted_nil]
        simp [tableStep, chainOf, emptyIndexer])
      (by
        intro k hk
        have hk2 : ¬ K = k := fun e => hk e.symm
        rw [writeToIndexedLog_chain _ _ _ rfl keySorted_nil]
        simp [tableStep, chainOf, emptyIndexer, hk2])
    simp only [List.map_cons, List.map_nil] at hres
    rw [replayChain_one_set _ hKn hVn] at hres
    exact hres

/-- Witness of the amended C2: key `k`, values `v`, `1` and `2`. -/
theorem C2_last_SET_wins_for_plain_text_witness :
    (∃ db, indexedLogOf sampleMem
        (walBytes [frameSET "k".toList "1".toList, frameSET "k".toList "2".toList]) = some db ∧
      (∃ server1, loadRecordFromIndexedLog (serverAfterRestart db) "k".toList = some (1, server1) ∧
        server1.setIR = [("k".toList, "2".toList)]) ∧
      (∃ server2, loadDBFromIndexedLog replyOK (serverAfterRestart db) = some server2 ∧
        server2.setIR = [("k".toList, "2".toList)])) ∧
    (∃ db, indexedLogOf sampleMem (walBytes [frameSET "k".toList "v".toList]) = some db ∧
      (∃ server1, loadRecordFromIndexedLog (serverAfterRestart db) "k".toList = some (1, server1) ∧
        server1.setIR = [("k".toList, "v".toList)]) ∧
      (∃ server2, loadDBFromIndexedLog replyOK (serverAfterRestart db) = some server2 ∧
        server2.setIR = [("k".toList, "v".toList)])) :=
  C2_last_SET_wins_for_plain_text sampleMem replyOK "k".toList "v".toList "1".toList "2".toList
    ⟨by decide, by decide, by decide⟩ ⟨by decide, by decide, by decide⟩
    ⟨by decide, by decide, by decide⟩ ⟨by decide, by decide, by decide⟩

/-- C3 on the code: for the log file of `SET k 0; INCR k; INCR k` the `INCR` branch of
`writeToIndexedLog` stores, like the `SET` branch, a `SET` text carrying the content of the value
buffer, which still holds the `0` of the preceding `SET`.  The chain of `k` is three `SET`
frames of value `0`, and both restorers submit `SETIR k 0`, not `2`. -/
theorem C3_INCR_is_stored_as_SET_of_stale_value :
    (indexedLogOf sampleMem
        (walBytes [frameSET "k".toList "0".toList, frameINCR "k".toList, frameINCR "k".toList])).map
        (fun db => chainOf db "k".toList) =
      some ["*3\n$3\nSET\n$1\nk\n$1\n0".toList, "*3\n$3\nSET\n$1\nk\n$1\n0".toList,
        "*3\n$3\nSET\n$1\nk\n$1\n0".toList] ∧
    (indexedLogOf sampleMem
        (walBytes [frameSET "k".toList "0".toList, frameINCR "k".toList, frameINCR "k".toList])).bind
        (fun db => (loadDBFromIndexedLog replyOK (serverAfterRestart db)).map (fun s => s.setIR)) =
      some [("k".toList, "0".toList)] ∧
    (indexedLogOf sampleMem
        (walBytes [frameSET "k".toList "0".toList, frameINCR "k".toList, frameINCR "k".toList])).bind
        (fun db => (loadRecordFromIndexedLog (serverAfterRestart db) "k".toList).map
          (fun r => (r.1, r.2.setIR))) =
      some (1, [("k".toList, "0".toList)]) :=
  ⟨rfl, rfl, rfl⟩

/-- C5 as stated fails on the code: after the `SETCHECKPOINT` record for key `k` whose value is
the two lines `a` and `b`, the chain of `k` is one text that carries the whole value, yet both
restorers, which take line 6 of the text, submit `SETIR k a`.  After the `SETCHECKPOINT` record
whose key is the two lines `a` and `b` and whose value is `v`, line 6 of the stored text is the
length header `$1`, which is what the on-demand restorer submits as value. -/
theorem C5_counterexample :
    sampleCheckpoint.value = "a\nb".toList ∧
    chainOf (writeToIndexedLog emptyIndexer [sampleCheckpoint] 0).state.dbp "k".toList =
      ["*3\n$3\nSET\n$1\nk\n$3\na\nb".toList] ∧
    (loadRecordFromIndexedLog
        (serverAfterRestart (writeToIndexedLog emptyIndexer [sampleCheckpoint] 0).state.dbp)
        "k".toList).map (fun r => (r.1, r.2.setIR)) = some (1, [("k".toList, "a".toList)]) ∧
    (loadDBFromIndexedLog replyOK
        (serverAfterRestart (writeToIndexedLog emptyIndexer [sampleCheckpoint] 0).state.dbp)).map
      (fun s => s.setIR) = some [("k".toList, "a".toList)] ∧
    "a".toList ≠ "a\nb".toList ∧
    (loadRecordFromIndexedLog
        (serverAfterRestart (writeToIndexedLog emptyIndexer [sampleCheckpointKey] 0).state.dbp)
        "a\nb".toList).map (fun r => (r.1, r.2.setIR)) =
      some (1, [("a\nb".toList, "$1".toList)]) :=
  ⟨rfl, rfl, rfl, rfl, by decide, rfl⟩

/-- C5, amended: draining one `SETCHECKPOINT K V` record with `writeToIndexedLog` (indexer not
stopped, keys of the log in order) leaves, whatever the prior chain of `K`, exactly one frame in
the chain of `K`, a SET frame, and leaves the chain of every other key unchanged; when `K` and
`V` contain no newline the value argument of that frame is `V`, the on-demand restorer replays
the chain to `SETIR K V`, and so does the incremental restorer when the frames already in the log
are readable. -/
theorem C5_checkpoint_collapses_chain (replyStr : Bytes → Bytes → Bool) (s : IndexerState)
    (ri : recordToIndex) (seek_log_file : Nat)
    (hon : s.indexer_state = true) (hs : keySorted s.dbp)
    (hcmd : ri.command = SETCHECKPOINT_COMMAND)
    (hk : '\n' ∉ ri.key) (hv : '\n' ∉ ri.value) :
    chainOf (writeToIndexedLog s [ri] seek_log_file).state.dbp ri.key =
      [writeToIndexedLog_aux ri] ∧
    isSetFrame (writeToIndexedLog_aux ri) = true ∧
    frameValue (writeToIndexedLog_aux ri) = some ri.value ∧
    (∃ server1,
      loadRecordFromIndexedLog
        (serverAfterRestart (writeToIndexedLog s [ri] seek_log_file).state.dbp) ri.key =
          some (1, server1) ∧
      server1.setIR = [(ri.key, ri.value)]) ∧
    ((∀ r ∈ s.dbp, frameReadable r.2 = true) →
      ∃ server2,
        loadDBFromIndexedLog replyStr
          (serverAfterRestart (writeToIndexedLog s [ri] seek_log_file).state.dbp) = some server2 ∧
        server2.setIR.filter (fun x => x.1 == ri.key) = [(ri.key, ri.value)]) ∧
    (∀ K, K ≠ ri.key →
      chainOf (writeToIndexedLog s [ri] seek_log_file).state.dbp K = chainOf s.dbp K) := by
  have hCS : SETCHECKPOINT_COMMAND ≠ SET_COMMAND := by decide
  have hCI : SETCHECKPOINT_COMMAND ≠ INCR_COMMAND := by decide
  have hCD : SETCHECKPOINT_COMMAND ≠ DEL_COMMAND := by decide
  have hchain : chainOf (writeToIndexedLog s [ri] seek_log_file).state.dbp ri.key =
      [writeToIndexedLog_aux ri] := by
    rw [writeToIndexedLog_chain _ _ _ hon hs]
    simp [tableStep, hcmd, hCS, hCI, hCD]
  have hother : ∀ K, K ≠ ri.key →
      chainOf (writeToIndexedLog s [ri] seek_log_file).state.dbp K = chainOf s.dbp K := by
    intro K hK
    have hK2 : ¬ ri.key = K := fun e => hK e.symm
    rw [writeToIndexedLog_chain _ _ _ hon hs]
    simp [tableStep, hK2]
  have hsorted := writeToIndexedLog_sorted s [ri] seek_log_file hon hs
  have hg := grouped_of_keySorted _ hsorted
  have hne : chainOf (writeToIndexedLog s [ri] seek_log_file).state.dbp ri.key ≠ [] := by
    rw [hchain]; simp
  have hreadK : ∀ r ∈ (writeToIndexedLog s [ri] seek_log_file).state.dbp,
      r.1 = ri.key → frameReadable r.2 = true := by
    intro r hr hrk
    have hmem : r.2 ∈ chainOf (writeToIndexedLog s [ri] seek_log_file).state.dbp r.1 :=
      (mem_chainOf _ r.1 r.2).2 hr
    rw [hrk, hchain] at hmem
    rw [List.mem_singleton.1 hmem]
    exact frameReadable_of_redo _ (by simp [isSetFrame_aux ri])
  refine ⟨hchain, isSetFrame_aux ri, frameValue_aux ri hk hv, ?_, ?_, hother⟩
  · obtain ⟨valueIR, hload, hval⟩ :=
      (loadRecordFromIndexedLog_eq
        (serverAfterRestart (writeToIndexedLog s [ri] seek_log_file).state.dbp) ri.key rfl
        hreadK).2 hne
    refine ⟨_, hload, ?_⟩
    rw [hval hg]
    show [] ++ [(ri.key, replayChain
      (chainOf (writeToIndexedLog s [ri] seek_log_file).state.dbp ri.key))] = _
    rw [hchain, replayChain_one_set ri hk hv]
    rfl
  · intro hprior
    have hread : ∀ r ∈ (writeToIndexedLog s [ri] seek_log_file).state.dbp,
        frameReadable r.2 = true := by
      intro r hr
      by_cases hrk : r.1 = ri.key
      · exact hreadK r hr hrk
      · have hmem : r.2 ∈ chainOf (writeToIndexedLog s [ri] seek_log_file).state.dbp r.1 :=
          (mem_chainOf _ r.1 r.2).2 hr
        rw [hother r.1 hrk] at hmem
        exact hprior r ((mem_chainOf _ _ _).1 hmem)
    obtain ⟨server2, new, hrun, hset, hfil⟩ :=
      loadDBFromIndexedLog_eq replyStr
        (serverAfterRestart (writeToIndexedLog s [ri] seek_log_file).state.dbp) rfl rfl rfl hg hread
    refine ⟨server2, hrun, ?_⟩
    rw [hset]
    show List.filter (fun x : Bytes × Bytes => x.1 == ri.key) ([] ++ new) = _
    rw [List.nil_append, hfil ri.key]
    have hl : lastIsRedo (chainOf
        (serverAfterRestart (writeToIndexedLog s [ri] seek_log_file).state.dbp).indexedlog
        ri.key) = true := by
      show lastIsRedo (chainOf (writeToIndexedLog s [ri] seek_log_file).state.dbp ri.key) = true
      rw [hchain]
      simp [lastIsRedo, isSetFrame_aux ri]
    rw [if_pos ⟨rfl, hl⟩]
    show [(ri.key, replayChain
      (chainOf (writeToIndexedLog s [ri] seek_log_file).state.dbp ri.key))] = _
    rw [hchain, replayChain_one_set ri hk hv]

/-- Witness of the amended C5: the record `SETCHECKPOINT a 9` drained into the sample log. -/
theorem C5_checkpoint_collapses_chain_witness :
    ∃ server1,
      loadRecordFromIndexedLog
        (serverAfterRestart (writeToIndexedLog { emptyIndexer with dbp := sampleLog }
          [{ command := SETCHECKPOINT_COMMAND, key := "a".toList, value := "9".toList,
             sdslen_key := 1, sdslen_value := 1 }] 0).state.dbp) "a".toList =
          some (1, server1) ∧
      server1.setIR = [("a".toList, "9".toList)] :=
  (C5_checkpoint_collapses_chain replyOK { emptyIndexer with dbp := sampleLog }
    { command := SETCHECKPOINT_COMMAND, key := "a".toList, value := "9".toList,
      sdslen_key := 1, sdslen_value := 1 } 0 rfl (by unfold keySorted; decide) rfl
    (by decide) (by decide)).2.2.2.1

set_option maxRecDepth 512

/-- C14: when the indexed log opens, the offset file holds a position `done.length` of the
sequential log, and the bytes from that position to the end are complete frames with at least
one argument each (the file being shorter than `2 ^ 63` bytes), startup catch-up returns, its
return value is the number of frames, the indexed log holds the effect of every frame in
order, and the offset file holds the length of the sequential log. -/
theorem C14_catch_up_reads_to_end_of_log (w : IRSystem) (records : DB) (done : Bytes)
    (frames : List LogFrame)
    (hlog : w.indexedlog = LogFile.db records)
    (hseek : w.final_log_seek = some done.length)
    (haof : w.aof = some (done ++ walBytes frames))
    (hrep : w.indexedlog_replicated = true → w.indexedlog_replica ≠ LogFile.corrupt)
    (hwf : storeFrames frames) (hcmd : commandFrames frames)
    (hsize : (done ++ walBytes frames).length < 2 ^ 63) :
    ∃ w1, initialIndexesSequentialLogToIndexedLog w = some (w1, frames.length) ∧
      w1.final_log_seek = some (done ++ walBytes frames).length ∧
      w1.indexedlog = LogFile.db (frames.foldl (initialIndexes_frame w.indexedlog_replicated)
        (initialIndexes_init records
          (if w.indexedlog_replicated = true then openIndexedLog w.indexedlog_replica 'W'
            else (true, w.indexedlog_replica)).2.records w.calls done.length)).dbp :=
  initialIndexes_catch_up w records done frames hlog hseek haof hrep hwf hcmd hsize

set_option maxRecDepth 100000

/-- Witness of C14: catch-up over the frames of `SET k 1; INCR k` from position 0 returns 2 and
stores the offset 48, the length of the sequential log. -/
theorem C14_catch_up_reads_to_end_of_log_witness :
    (∃ w1, initialIndexesSequentialLogToIndexedLog sampleCatchUp =
        some (w1, sampleFrames.length) ∧
      w1.final_log_seek = some (([] : Bytes) ++ walBytes sampleFrames).length ∧
      w1.indexedlog = LogFile.db (sampleFrames.foldl
        (initialIndexes_frame sampleCatchUp.indexedlog_replicated)
        (initialIndexes_init []
          (if sampleCatchUp.indexedlog_replicated = true then
            openIndexedLog sampleCatchUp.indexedlog_replica 'W'
            else (true, sampleCatchUp.indexedlog_replica)).2.records sampleCatchUp.calls
          (([] : Bytes).length : Nat))).dbp) ∧
    (([] : Bytes) ++ walBytes sampleFrames).length = 48 :=
  ⟨C14_catch_up_reads_to_end_of_log sampleCatchUp [] [] sampleFrames rfl rfl rfl
    (fun h => absurd h (by decide)) (by decide) (by decide) (by decide), by decide⟩

/-! ## Claims on the restored-key set and on the order of the storage calls -/

/-- C11 as stated fails on the code: `loadDBFromIndexedLog` ends with
`clearHashRestoredTuples()`.  Over the sample log with key `b` in the restored-key set, the
incremental restorer submits `SETIR a 6`, returns, and leaves the set empty: `b` is no longer
in it. -/
theorem C11_counterexample :
    isRestoredTuple (serverRecovering sampleLog ["b".toList]).hash_restored_tuples "b".toList =
      true ∧
    (loadDBFromIndexedLog replyOK (serverRecovering sampleLog ["b".toList])).map
        (fun s => (s.setIR, s.hash_restored_tuples,
          isRestoredTuple s.hash_restored_tuples "b".toList)) =
      some ([("a".toList, "6".toList)], [], false) := by
  refine ⟨by decide, by decide⟩

/-- C11, amended: a key of the restored-key set is still in the set when the on-demand restorer
returns and when the scanning loop of the incremental restorer ends; the completion of the
incremental restorer empties the set. -/
theorem C11_restored_keys_stay_until_completion (server : redisServer) (k : Bytes)
    (hk : isRestoredTuple server.hash_restored_tuples k = true) :
    (∀ key r server1, loadRecordFromIndexedLog server key = some (r, server1) →
      isRestoredTuple server1.hash_restored_tuples k = true) ∧
    (∀ replyStr fuel v error server1 v1,
      loadDB_scan replyStr fuel server v error = some (server1, v1) →
        isRestoredTuple server1.hash_restored_tuples k = true) ∧
    (∀ replyStr server1, loadDBFromIndexedLog replyStr server = some server1 →
      server1.hash_restored_tuples = []) :=
  ⟨fun key r server1 h => loadRecordFromIndexedLog_restored server key r server1 h k hk,
   fun replyStr fuel v error server1 v1 h =>
     loadDB_scan_restored replyStr fuel server v error server1 v1 h k hk,
   fun replyStr server1 h => loadDBFromIndexedLog_clears replyStr server server1 h⟩

/-- Witness of the amended C11: over the sample log with `b` restored, the on-demand restore of
`a` returns 1 and `b` is still in the set. -/
theorem C11_restored_keys_stay_until_completion_witness :
    ∃ server1,
      loadRecordFromIndexedLog (serverRecovering sampleLog ["b".toList]) "a".toList =
        some (1, server1) ∧
      isRestoredTuple server1.hash_restored_tuples "b".toList = true :=
  ⟨_, rfl,
    (C11_restored_keys_stay_until_completion (serverRecovering sampleLog ["b".toList])
      "b".toList (by decide)).1 "a".toList 1 _ rfl⟩

/-- C12 on the code: the indexer thread reads the 27 bytes of `SET k 1` into one record and
hands it to `writeToIndexedLog` with the position 27.  When the stop signal is on at the head
of the loop, `writeToIndexedLog` syncs and stores the offset 27 although the record has not
reached the indexed log.  On normal completion the order is put, sync, offset write.  Startup
catch-up stores the offset before it closes the indexed log and never syncs it. -/
theorem C12_stop_signal_stores_offset_of_unapplied_record :
    (fgets 128 (walBytes [frameSET "k".toList "1".toList])).bind
        (fun r => readRecords sampleMem 28 initialIndexerVars [] r.1 r.2 0) =
      some ({ command := SET_COMMAND, key := "k".toList, value := "1".toList },
        [sampleRecord], 27) ∧
    (writeToIndexedLog stoppedIndexer [sampleRecord] 27).signal = false ∧
    (writeToIndexedLog stoppedIndexer [sampleRecord] 27).state.dbp = [] ∧
    (writeToIndexedLog stoppedIndexer [sampleRecord] 27).state.final_log_seek = some 27 ∧
    (writeToIndexedLog stoppedIndexer [sampleRecord] 27).state.calls =
      [StorageCall.sync, StorageCall.writeFinalLogSeek 27] ∧
    (writeToIndexedLog emptyIndexer [sampleRecord] 27).state.calls =
      [StorageCall.put "k".toList "*3\n$3\nSET\n$1\nk\n$1\n1".toList, StorageCall.sync,
        StorageCall.writeFinalLogSeek 27] ∧
    (initialIndexesSequentialLogToIndexedLog
        { sampleSystem with aof := some (walBytes [frameSET "k".toList "1".toList]) }).map
        (fun r => r.1.calls) =
      some [StorageCall.del "k".toList,
        StorageCall.put "k".toList "*3\r\n$3\r\nSET\n$1\r\nk\n$1\r\n1".toList,
        StorageCall.writeFinalLogSeek 27, StorageCall.close] := by
  refine ⟨by decide, by decide, by decide, by decide, by decide, by decide, by decide⟩

set_option maxRecDepth 100000

/-- C15 on the code: startup catch-up has branches for `SET`, `INCR` and `DEL` only.  Over the
sequential log `SETCHECKPOINT k v` and an empty indexed log it returns with the offset at the
end of the file and no record for `k`, where the asynchronous indexer stores one `SET` frame
for the same file.  Its `SET` branch deletes the values of the key first: after
`SET k 1; SET k 2` the chain of `k` holds one frame, where the asynchronous indexer leaves
two. -/
theorem C15_catch_up_has_no_SETCHECKPOINT_branch :
    (initialIndexesSequentialLogToIndexedLog
        { sampleSystem with
          aof := some (walBytes [frameSETCHECKPOINT "k".toList "v".toList]) }).map
        (fun r => (r.1.indexedlog, r.1.final_log_seek, r.2)) =
      some (LogFile.db [], some 38, 1) ∧
    (walBytes [frameSETCHECKPOINT "k".toList "v".toList]).length = 38 ∧
    indexedLogOf sampleMem (walBytes [frameSETCHECKPOINT "k".toList "v".toList]) =
      some [("k".toList, "*3\n$3\nSET\n$1\nk\n$1\nv".toList)] ∧
    (initialIndexesSequentialLogToIndexedLog
        { sampleSystem with
          aof := some (walBytes [frameSET "k".toList "1".toList,
            frameSET "k".toList "2".toList]) }).map
        (fun r => chainOf r.1.indexedlog.records "k".toList) =
      some ["*3\r\n$3\r\nSET\n$1\r\nk\n$1\r\n2".toList] ∧
    (indexedLogOf sampleMem
        (walBytes [frameSET "k".toList "1".toList, frameSET "k".toList "2".toList])).map
        (fun db => chainOf db "k".toList) =
      some ["*3\n$3\nSET\n$1\nk\n$1\n1".toList, "*3\n$3\nSET\n$1\nk\n$1\n2".toList] := by
  refine ⟨by decide, by decide, by decide, by decide, by decide⟩

/-- C16 on the code: `synchronousIndexing` reaches the indexed log for `SET` only.  The buffer
`SET k 1; DEL k` leaves the `SET` record of `k` in an empty indexed log, where the asynchronous
indexer leaves no record for the same bytes; a buffer `INCR k`, `DEL k` or `SETCHECKPOINT k 2`
leaves an indexed log that holds one record of `k` as it was. -/
theorem C16_synchronous_indexing_applies_only_SET :
    (synchronousIndexing true true (LogFile.db [])
        (walBytes [frameSET "k".toList "1".toList, frameDEL "k".toList])).map
        (fun f => chainOf f.records "k".toList) =
      some ["*3\n$3\nSET\n$1\nk\n$1\n1".toList] ∧
    (indexedLogOf sampleMem
        (walBytes [frameSET "k".toList "1".toList, frameDEL "k".toList])).map
        (fun db => chainOf db "k".toList) = some [] ∧
    synchronousIndexing true true (LogFile.db [("k".toList, "*3\n$3\nSET\n$1\nk\n$1\n1".toList)])
        (walBytes [frameINCR "k".toList]) =
      some (LogFile.db [("k".toList, "*3\n$3\nSET\n$1\nk\n$1\n1".toList)]) ∧
    synchronousIndexing true true (LogFile.db [("k".toList, "*3\n$3\nSET\n$1\nk\n$1\n1".toList)])
        (walBytes [frameDEL "k".toList]) =
      some (LogFile.db [("k".toList, "*3\n$3\nSET\n$1\nk\n$1\n1".toList)]) ∧
    synchronousIndexing true true (LogFile.db [("k".toList, "*3\n$3\nSET\n$1\nk\n$1\n1".toList)])
        (walBytes [frameSETCHECKPOINT "k".toList "2".toList]) =
      some (LogFile.db [("k".toList, "*3\n$3\nSET\n$1\nk\n$1\n1".toList)]) := by
  refine ⟨by decide, by decide, by decide, by decide, by decide⟩

/-- C17 on the code: the indexed log file is missing, replication is off, the offset file holds
27 and the checkpoint offset file holds 0.  The test `errorLog == 0` in front of the checkpoint
fallback still sees the error of the failed open, so catch-up starts at 27, not at the
checkpoint offset 0: the indexed log is created empty and only the record after position 27
reaches it.  With a replica configured whose rename fails the test passes and catch-up starts
at the checkpoint offset. -/
theorem C17_missing_log_without_replica_starts_at_indexed_offset :
    sampleLogMissing.indexedlog = LogFile.missing ∧
    sampleLogMissing.indexedlog_replicated = false ∧
    sampleLogMissing.checkpoint_log_seek = some 0 ∧
    (initialIndexes_start sampleLogMissing).2 = 27 ∧
    (initialIndexesSequentialLogToIndexedLog sampleLogMissing).map
        (fun r => (r.1.indexedlog, r.1.final_log_seek)) =
      some (LogFile.db [("k".toList, "*3\r\n$3\r\nSET\n$1\r\nk\n$1\r\n1".toList)], some 54) ∧
    (initialIndexes_start { sampleLogMissing with indexedlog_replicated := true }).2 = 0 := by
  refine ⟨rfl, rfl, rfl, by decide, by decide, by decide⟩

/-- C18 on the code: `readFinalLogSeek` returns -1 for a missing file.  The indexer thread stores
that in its `unsigned long long seek_log_file`, which becomes `2 ^ 64 - 1`.  `fseek` fails on
this offset and the file is read from position 0, but the positions are counted from
`2 ^ 64 - 1`: after the 27 bytes of `SET k 1` the thread holds and stores 26, and its next round
starts inside the frame and ends in `exit(1)`.  Startup catch-up turns the same -1 into 0. -/
theorem C18_missing_offset_file_reads_as_minus_one :
    readFinalLogSeek none = -1 ∧
    indexesSequentialLogToIndexedLogV2_seek none = 2 ^ 64 - 1 ∧
    fseek ((2 ^ 64 - 1 : Nat) : Int) = 0 ∧
    (walBytes [frameSET "k".toList "1".toList]).length = 27 ∧
    (indexesSequentialLogToIndexedLogV2 sampleMem emptyIndexer initialIndexerVars
        (indexesSequentialLogToIndexedLogV2_seek none)
        (walBytes [frameSET "k".toList "1".toList])).map
        (fun r => (r.1.dbp, r.1.final_log_seek, r.2.2)) =
      some ([("k".toList, "*3\n$3\nSET\n$1\nk\n$1\n1".toList)], some 26, 26) ∧
    indexesSequentialLogToIndexedLogV2 sampleMem emptyIndexer initialIndexerVars 26
        (walBytes [frameSET "k".toList "1".toList]) = none ∧
    (initialIndexes_start { sampleSystem with final_log_seek := none }).2 = 0 := by
  refine ⟨rfl, by decide, by decide, by decide, by decide, by decide, by decide⟩

/-- C19 as stated fails on the code: `readFinalLogSeek` returns a `long long`.  After
`writeFinalLogSeek(f, 2 ^ 64 - 1)` it returns -1, the value it returns for a missing file, and
after `writeFinalLogSeek(f, 2 ^ 63)` it returns `-(2 ^ 63)`. -/
theorem C19_counterexample :
    readFinalLogSeek (some (writeFinalLogSeek (2 ^ 64 - 1))) = readFinalLogSeek none ∧
    readFinalLogSeek (some (writeFinalLogSeek (2 ^ 63))) = -(2 ^ 63) := by
  refine ⟨by decide, by decide⟩

/-- C19, amended: for every offset `x < 2 ^ 64`, `writeFinalLogSeek` stores the 8 bytes of `x`,
lowest byte first, and a following `readFinalLogSeek` returns `x` converted to `long long`;
for `x < 2 ^ 63` that is `x` itself, which is not the -1 returned for a missing file. -/
theorem C19_offset_file_round_trip (x : Nat) (hx : x < 2 ^ 64) :
    writeFinalLogSeek x =
      [x % 256, x / 256 % 256, x / 256 ^ 2 % 256, x / 256 ^ 3 % 256, x / 256 ^ 4 % 256,
        x / 256 ^ 5 % 256, x / 256 ^ 6 % 256, x / 256 ^ 7 % 256] ∧
    readFinalLogSeek (some (writeFinalLogSeek x)) = toInt64 x ∧
    (x < 2 ^ 63 → readFinalLogSeek (some (writeFinalLogSeek x)) = x ∧
      readFinalLogSeek (some (writeFinalLogSeek x)) ≠ readFinalLogSeek none) := by
  refine ⟨?_, ?_, ?_⟩
  · unfold writeFinalLogSeek
    rw [Nat.mod_eq_of_lt hx]
    simp only [objectBytes, Nat.div_div_eq_div_mul]
    norm_num
  · rw [readFinalLogSeek_writeFinalLogSeek, Nat.mod_eq_of_lt hx]
  · intro h63
    rw [readFinalLogSeek_writeFinalLogSeek, Nat.mod_eq_of_lt hx, toInt64_of_lt x h63]
    refine ⟨rfl, ?_⟩
    show (x : Int) ≠ -1
    omega

/-- Witness of the amended C19: the offset 258. -/
theorem C19_offset_file_round_trip_witness :
    writeFinalLogSeek 258 = [2, 1, 0, 0, 0, 0, 0, 0] ∧
    readFinalLogSeek (some (writeFinalLogSeek 258)) = 258 :=
  ⟨by decide, ((C19_offset_file_round_trip 258 (by decide)).2.2 (by decide)).1⟩

/-! ## Claims on the ordering of the stored offsets -/

/-- C13 as stated fails on the code: when the sequential log is empty (the case "sequential log
was removed" of lines 3372-3385) startup catch-up stores 0 as indexed offset, whatever the
offset file held; here it held 100. -/
theorem C13_counterexample :
    sampleLogRemoved.final_log_seek = some 100 ∧
    sampleLogRemoved.aof = some [] ∧
    (initialIndexesSequentialLogToIndexedLog sampleLogRemoved).map
        (fun r => (r.1.final_log_seek, r.1.calls)) =
      some (some 0, [StorageCall.writeFinalLogSeek 0, StorageCall.close]) := by
  refine ⟨rfl, rfl, by decide⟩

/-- C13, amended: as long as the sequential log is kept (it is not emptied; it is shorter than
`2 ^ 63` bytes) and the stored offsets are ordered, no step lowers the indexed offset: not a
round of the indexer thread, which stores the position it has reached, and not startup
catch-up without replica over a sequential log that is not empty. -/
theorem C13_indexed_offset_does_not_decrease (w w1 : IRSystem) (hinv : offsetsOrdered w)
    (hstep : IRStep w w1) :
    storedOffset w.final_log_seek ≤ storedOffset w1.final_log_seek :=
  (IRStep_offsets w w1 hinv hstep).2

/-- Witness of the amended C13: startup catch-up over the frames of `SET k 1; INCR k` with the
offset file holding 0 stores 48. -/
theorem C13_indexed_offset_does_not_decrease_witness :
    storedOffset sampleCatchUp.final_log_seek ≤
      storedOffset (afterCatchUp sampleAfterCatchUp).final_log_seek ∧
    (afterCatchUp sampleAfterCatchUp).final_log_seek = some 48 :=
  ⟨C13_indexed_offset_does_not_decrease sampleCatchUp (afterCatchUp sampleAfterCatchUp)
    ⟨by decide, by decide, by decide, fun _ h => Option.noConfusion h⟩
    (IRStep.catchUp sampleCatchUp sampleAfterCatchUp 2 (walBytes sampleFrames) rfl (by decide)
      (by decide) rfl (by decide)), by decide⟩

/-- C20 as stated fails on the code: when the sequential log is empty (the case "sequential log
was removed" of lines 3372-3385) startup catch-up stores 0 as indexed offset and leaves the
checkpoint offset file alone.  From the ordered offsets 100 and 40 it leaves the checkpoint
offset 40 above the indexed offset 0. -/
theorem C20_counterexample :
    offsetsOrdered sampleLogRemoved ∧
    sampleLogRemoved.final_log_seek = some 100 ∧
    sampleLogRemoved.checkpoint_log_seek = some 40 ∧
    (initialIndexesSequentialLogToIndexedLog sampleLogRemoved).map
        (fun r => (r.1.final_log_seek, r.1.checkpoint_log_seek,
          decide (storedOffset r.1.checkpoint_log_seek ≤ storedOffset r.1.final_log_seek))) =
      some (some 0, some 40, false) := by
  refine ⟨⟨by decide, by decide, by decide, fun _ h => Option.noConfusion h⟩, rfl, rfl,
    by decide⟩

/-- C20, amended: as long as the sequential log is kept (it is not emptied; it is shorter than
`2 ^ 63` bytes), every state reached from a state with ordered offsets through appends to the
sequential log, startup catch-up without replica, starts and rounds of the indexer thread and
checkpoint rounds has its checkpoint offset at or below its indexed offset (a missing offset
file counting as 0). -/
theorem C20_checkpoint_offset_at_most_indexed_offset (w w1 : IRSystem)
    (hinv : offsetsOrdered w) (hreach : Relation.ReflTransGen IRStep w w1) :
    storedOffset w1.checkpoint_log_seek ≤ storedOffset w1.final_log_seek :=
  (IRStep_reachable w w1 hinv hreach).1

/-- Witness of the amended C20: startup catch-up over the frames of `SET k 1; INCR k`, then a
full checkpoint round, which stores the checkpoint offset 48. -/
theorem C20_checkpoint_offset_at_most_indexed_offset_witness :
    storedOffset (checkpointProcess 1 none 0
        (afterCatchUp sampleAfterCatchUp)).checkpoint_log_seek ≤
      storedOffset (checkpointProcess 1 none 0 (afterCatchUp sampleAfterCatchUp)).final_log_seek ∧
    (checkpointProcess 1 none 0 (afterCatchUp sampleAfterCatchUp)).checkpoint_log_seek =
      some 48 :=
  ⟨C20_checkpoint_offset_at_most_indexed_offset sampleCatchUp
    (checkpointProcess 1 none 0 (afterCatchUp sampleAfterCatchUp))
    ⟨by decide, by decide, by decide, fun _ h => Option.noConfusion h⟩
    (Relation.ReflTransGen.tail
      (Relation.ReflTransGen.single
        (IRStep.catchUp sampleCatchUp sampleAfterCatchUp 2 (walBytes sampleFrames) rfl
          (by decide) (by decide) rfl (by decide)))
      (IRStep.checkpoint (afterCatchUp sampleAfterCatchUp) 1 none 0)), by decide⟩

/-! ## Claims on the checkpointer -/

/-- C21, the claim fails on a key with a NUL byte: the store holds the one key `a\0b`; the Full
round submits `SETCHECKPOINT a NULL`, a command for `a`, which is not a key of the store, and
no command for the key itself. -/
theorem C21_counterexample :
    (checkpointProcess 1 none 0
        { sampleStore with dict := [(['a', '\x00', 'b'], "1".toList)] }).commands =
      [setCheckpointCommand "a".toList, checkpointEndCommand 1] ∧
    "a".toList ∉ [(['a', '\x00', 'b'], "1".toList)].map Prod.fst ∧
    setCheckpointCommand ['a', '\x00', 'b'] ∉
      (checkpointProcess 1 none 0
        { sampleStore with dict := [(['a', '\x00', 'b'], "1".toList)] }).commands := by
  decide

set_option maxRecDepth 512

/-- C21 (amended): in a Full checkpoint round that starts with the checkpointer enabled and
the connection to the store open, and that is not cancelled, if no key of the store holds a
NUL byte then `checkpointProcess` submits, after the commands sent before, one
`SETCHECKPOINT key NULL` for each key of the store in iteration order and for nothing else,
then one `checkpointEnd id NULL` with the decimal text of the round's id, and the
checkpoint-offset file holds `server.seek_log_file` as read at the start of the round. -/
theorem C21_full_round_checkpoints_every_key (idCheckpoint elapsed : Int) (w : IRSystem)
    (hstate : w.checkpoint_state = true) (hconn : w.redis_connects = true)
    (hfull : w.checkpoints_only_mfu = false) (hkeys : ∀ e ∈ w.dict, '\x00' ∉ e.1) :
    (checkpointProcess idCheckpoint none elapsed w).commands =
      w.commands ++ (w.dict.map Prod.fst).map setCheckpointCommand ++
        [checkpointEndCommand idCheckpoint] ∧
    checkpointEndCommand idCheckpoint =
      ["checkpointEnd".toList, sprintf_d idCheckpoint, "NULL".toList] ∧
    (checkpointProcess idCheckpoint none elapsed w).checkpoint_log_seek =
      some w.seek_log_file := by
  refine ⟨?_, rfl, ?_⟩
  · rw [checkpointProcess_commands idCheckpoint none elapsed w hstate hconn,
      checkpointProcess_keys_none]
    simp only [hfull, Bool.false_eq_true, if_false]
    rw [map_cstr_of_no_nul]
    intro key hk
    rcases List.mem_map.mp hk with ⟨e, he, rfl⟩
    exact hkeys e he
  · rw [checkpointProcess_checkpoint_log_seek idCheckpoint none elapsed w hstate hconn]
    simp [hfull, checkpointStateAt]

set_option maxRecDepth 100000

/-- Witness of C21 (amended): the Full round number 7 over the store with the keys `a` and
`b` and `server.seek_log_file = 54`. -/
theorem C21_full_round_checkpoints_every_key_witness :
    (checkpointProcess 7 none 0 sampleStore).commands =
      [] ++ ["a".toList, "b".toList].map setCheckpointCommand ++ [checkpointEndCommand 7] ∧
    checkpointEndCommand 7 = ["checkpointEnd".toList, sprintf_d 7, "NULL".toList] ∧
    (checkpointProcess 7 none 0 sampleStore).checkpoint_log_seek = some 54 :=
  C21_full_round_checkpoints_every_key 7 0 sampleStore rfl rfl rfl (by decide)

/-- C22, the claim fails: the store holds `a = 1` and `b = 2`; the Full round submits
`SETCHECKPOINT a NULL` and `SETCHECKPOINT b NULL`, the value arguments are the text `NULL`
and not the values `1` and `2`. -/
theorem C22_counterexample :
    sampleStore.dict = [("a".toList, "1".toList), ("b".toList, "2".toList)] ∧
    (checkpointProcess 1 none 0 sampleStore).commands =
      [["SETCHECKPOINT".toList, "a".toList, "NULL".toList],
       ["SETCHECKPOINT".toList, "b".toList, "NULL".toList],
       ["checkpointEnd".toList, "1".toList, "NULL".toList]] := by
  decide

set_option maxRecDepth 512

/-- C22 (amended): in every checkpoint round (Full or MFU, cancelled or not) that starts with
the checkpointer enabled and the connection open, each command submitted before
`checkpointEnd` is `SETCHECKPOINT key NULL` for a key of the iteration: its value argument is
the text `NULL`, and the commands are the same for two stores that hold the same keys with
different values. -/
theorem C22_value_argument_is_the_text_NULL (idCheckpoint elapsed : Int) (stop : Option Nat)
    (w : IRSystem) (values : Bytes × Bytes → Bytes)
    (hstate : w.checkpoint_state = true) (hconn : w.redis_connects = true) :
    (∃ keys : List Bytes,
      (checkpointProcess idCheckpoint stop elapsed w).commands =
        w.commands ++ keys.map (fun key => ["SETCHECKPOINT".toList, key, "NULL".toList]) ++
          [["checkpointEnd".toList, sprintf_d idCheckpoint, "NULL".toList]]) ∧
    (checkpointProcess idCheckpoint stop elapsed
        { w with dict := w.dict.map (fun e => (e.1, values e)) }).commands =
      (checkpointProcess idCheckpoint stop elapsed w).commands := by
  constructor
  · rw [checkpointProcess_commands idCheckpoint stop elapsed w hstate hconn]
    cases stop with
    | none =>
      rw [checkpointProcess_keys_none]
      exact ⟨_, by rw [List.map_map]; rfl⟩
    | some n =>
      rw [checkpointProcess_keys_some]
      exact ⟨_, by rw [List.map_map]; rfl⟩
  · have h1 := checkpointProcess_commands idCheckpoint stop elapsed
      { w with dict := w.dict.map (fun e => (e.1, values e)) } hstate hconn
    rw [h1, checkpointProcess_commands idCheckpoint stop elapsed w hstate hconn]
    simp only [List.map_map]
    rfl

set_option maxRecDepth 100000

/-- Witness of C22 (amended): the Full round over the store with `a = 1` and `b = 2`, and
over the same store with both values replaced by `9`. -/
theorem C22_value_argument_is_the_text_NULL_witness :
    (∃ keys : List Bytes,
      (checkpointProcess 1 none 0 sampleStore).commands =
        sampleStore.commands ++
          keys.map (fun key => ["SETCHECKPOINT".toList, key, "NULL".toList]) ++
          [["checkpointEnd".toList, sprintf_d 1, "NULL".toList]]) ∧
    (checkpointProcess 1 none 0
        { sampleStore with
          dict := sampleStore.dict.map (fun e => (e.1, (fun _ => "9".toList) e)) }).commands =
      (checkpointProcess 1 none 0 sampleStore).commands :=
  C22_value_argument_is_the_text_NULL 1 0 none sampleStore (fun _ => "9".toList) rfl rfl

set_option maxRecDepth 512

/-- C23: a checkpoint round (Full or MFU) that starts with the checkpointer enabled and the
connection open, and in which `server.checkpoint_state` is turned off right before the test
of the `n`-th key of the iteration (`n` at most the number of keys, the last case being the
test after the loop), submits the `SETCHECKPOINT` commands of the first `n` keys and no
further one, then one `checkpointEnd id NULL`, and leaves the checkpoint-offset file as it
was. -/
theorem C23_cancelled_round_ends_without_offset (idCheckpoint elapsed : Int) (n : Nat)
    (w : IRSystem) (keys : List Bytes)
    (hstate : w.checkpoint_state = true) (hconn : w.redis_connects = true)
    (hkeys : keys = if w.checkpoints_only_mfu then w.hash_keys_access.map Prod.fst
      else w.dict.map Prod.fst)
    (hn : n ≤ keys.length) :
    (checkpointProcess idCheckpoint (some n) elapsed w).commands =
      w.commands ++ (keys.take n).map (fun key => setCheckpointCommand (cstr key)) ++
        [["checkpointEnd".toList, sprintf_d idCheckpoint, "NULL".toList]] ∧
    (checkpointProcess idCheckpoint (some n) elapsed w).checkpoint_log_seek =
      w.checkpoint_log_seek ∧
    (checkpointProcess idCheckpoint (some n) elapsed w).checkpoint_state = false := by
  refine ⟨?_, ?_, ?_⟩
  · rw [checkpointProcess_commands idCheckpoint (some n) elapsed w hstate hconn,
      checkpointProcess_keys_some, ← hkeys]
    rfl
  · rw [checkpointProcess_checkpoint_log_seek idCheckpoint (some n) elapsed w hstate hconn,
      ← hkeys]
    have h : checkpointStateAt (some n) keys.length = false := by
      simp [checkpointStateAt, hn]
    rw [h]
    simp
  · unfold checkpointProcess
    rw [if_neg (by simp [hstate]), if_neg (by simp [hconn])]
    show checkpointStateAt (some n) (if w.checkpoints_only_mfu then
      w.hash_keys_access.map Prod.fst else w.dict.map Prod.fst).length = false
    rw [← hkeys]
    simp [checkpointStateAt, hn]

set_option maxRecDepth 100000

/-- Witness of C23: the Full round number 3 over the store with the keys `a` and `b`,
cancelled before the test of the second key, where the checkpoint-offset file is missing. -/
theorem C23_cancelled_round_ends_without_offset_witness :
    (checkpointProcess 3 (some 1) 0 sampleStore).commands =
      sampleStore.commands ++
        (["a".toList, "b".toList].take 1).map (fun key => setCheckpointCommand (cstr key)) ++
        [["checkpointEnd".toList, sprintf_d 3, "NULL".toList]] ∧
    (checkpointProcess 3 (some 1) 0 sampleStore).checkpoint_log_seek =
      sampleStore.checkpoint_log_seek ∧
    (checkpointProcess 3 (some 1) 0 sampleStore).checkpoint_state = false :=
  C23_cancelled_round_ends_without_offset 3 0 1 sampleStore ["a".toList, "b".toList]
    rfl rfl rfl (by decide)

set_option maxRecDepth 512

/-- C24: an MFU checkpoint round that starts with the checkpointer enabled and the connection
open, over an access-counter map whose ids hold no NUL byte (they are made by `sdsnew`):
during the key loop the access-logger flag is OFF and nothing else of the server state has
changed; if the round is not cancelled it submits one `SETCHECKPOINT id NULL` for each id of
the map and for nothing else, then `checkpointEnd id NULL`; cancelled or not, the round
leaves the map empty, the access-logger flag ON and the checkpoint-offset file as it was.
The state after the round is the state of the key loop with the commands sent, the map
emptied, the flag switched ON, and the checkpoint state and interval updated. -/
theorem C24_mfu_round (idCheckpoint elapsed : Int) (stop : Option Nat) (w : IRSystem)
    (hstate : w.checkpoint_state = true) (hconn : w.redis_connects = true)
    (hmfu : w.checkpoints_only_mfu = true) (hids : ∀ e ∈ w.hash_keys_access, '\x00' ∉ e.1) :
    (checkpointProcess_scan w).accessed_tuples_logger_state = false ∧
    checkpointProcess_scan w = { w with accessed_tuples_logger_state := false } ∧
    (checkpointProcess idCheckpoint none elapsed w).commands =
      w.commands ++ (w.hash_keys_access.map Prod.fst).map setCheckpointCommand ++
        [checkpointEndCommand idCheckpoint] ∧
    (checkpointProcess idCheckpoint stop elapsed w).hash_keys_access = [] ∧
    (checkpointProcess idCheckpoint stop elapsed w).accessed_tuples_logger_state = true ∧
    (checkpointProcess idCheckpoint stop elapsed w).checkpoint_log_seek =
      w.checkpoint_log_seek ∧
    checkpointProcess idCheckpoint stop elapsed w =
      { checkpointProcess_scan w with
        commands := w.commands ++ checkpointProcess_keys stop 0 (w.hash_keys_access.map Prod.fst)
          ++ [checkpointEndCommand idCheckpoint]
        hash_keys_access := []
        accessed_tuples_logger_state := true
        checkpoint_state := checkpointStateAt stop w.hash_keys_access.length
        checkpoint_time_interval :=
          selfTuneCheckpointTimeInterval w.selftune_checkpoint_time_interval
            w.checkpoint_time_interval (toInt32 (Int.tdiv elapsed 1000000)) } := by
  have hscan : checkpointProcess_scan w = { w with accessed_tuples_logger_state := false } := by
    unfold checkpointProcess_scan
    rw [if_pos hmfu]
  refine ⟨?_, hscan, ?_, ?_, ?_, ?_,
    checkpointProcess_mfu idCheckpoint stop elapsed w hstate hconn hmfu⟩
  · rw [hscan]
  · rw [checkpointProcess_commands idCheckpoint none elapsed w hstate hconn,
      checkpointProcess_keys_none]
    simp only [hmfu, if_true]
    rw [map_cstr_of_no_nul]
    intro key hk
    rcases List.mem_map.mp hk with ⟨e, he, rfl⟩
    exact hids e he
  · rw [checkpointProcess_mfu idCheckpoint stop elapsed w hstate hconn hmfu]
  · rw [checkpointProcess_mfu idCheckpoint stop elapsed w hstate hconn hmfu]
  · rw [checkpointProcess_checkpoint_log_seek idCheckpoint stop elapsed w hstate hconn]
    simp [hmfu]

set_option maxRecDepth 100000

/-- Witness of C24: the MFU round number 2 over the store whose access-counter map was filled
by the accesses `b, a, b`. -/
theorem C24_mfu_round_witness :
    sampleStoreMFU.hash_keys_access = [("b".toList, 2), ("a".toList, 1)] ∧
    (checkpointProcess_scan sampleStoreMFU).accessed_tuples_logger_state = false ∧
    checkpointProcess_scan sampleStoreMFU =
      { sampleStoreMFU with accessed_tuples_logger_state := false } ∧
    (checkpointProcess 2 none 0 sampleStoreMFU).commands =
      sampleStoreMFU.commands ++
        (sampleStoreMFU.hash_keys_access.map Prod.fst).map setCheckpointCommand ++
        [checkpointEndCommand 2] ∧
    (checkpointProcess 2 none 0 sampleStoreMFU).hash_keys_access = [] ∧
    (checkpointProcess 2 none 0 sampleStoreMFU).accessed_tuples_logger_state = true ∧
    (checkpointProcess 2 none 0 sampleStoreMFU).checkpoint_log_seek =
      sampleStoreMFU.checkpoint_log_seek :=
  have h := C24_mfu_round 2 0 none sampleStoreMFU rfl rfl rfl (by decide)
  ⟨by decide, h.1, h.2.1, h.2.2.1, h.2.2.2.1, h.2.2.2.2.1, h.2.2.2.2.2.1⟩

set_option maxRecDepth 512

/-- C25: for every duration `d` with `0 ≤ d` passed as `time_interval`, with self-tuning ON
`selfTuneCheckpointTimeInterval` sets `server.checkpoint_time_interval` to `max 60 (d / 2)`
(integer division; 120 gives 60 and 10 gives 60), with self-tuning OFF it leaves the value
unchanged; and `checkpointProcess` passes it the whole seconds of the round, so a round that
took `elapsed` microseconds (fewer than `2 ^ 31` seconds) ends with the interval
`max 60 (elapsed / 1000000 / 2)` when self-tuning is ON and with the old interval when it is
OFF. -/
theorem C25_self_tuned_interval (d current elapsed : Int) (hd : 0 ≤ d) (he : 0 ≤ elapsed)
    (hlt : elapsed < 2 ^ 31 * 1000000) :
    selfTuneCheckpointTimeInterval true current d = max 60 (d / 2) ∧
    selfTuneCheckpointTimeInterval false current d = current ∧
    selfTuneCheckpointTimeInterval true current 120 = 60 ∧
    selfTuneCheckpointTimeInterval true current 10 = 60 ∧
    (∀ (idCheckpoint : Int) (stop : Option Nat) (w : IRSystem),
      w.checkpoint_state = true → w.redis_connects = true →
      (checkpointProcess idCheckpoint stop elapsed w).checkpoint_time_interval =
        if w.selftune_checkpoint_time_interval then max 60 (elapsed / 1000000 / 2)
        else w.checkpoint_time_interval) := by
  have key : ∀ (c x : Int), 0 ≤ x →
      selfTuneCheckpointTimeInterval true c x = max 60 (x / 2) := by
    intro c x hx
    unfold selfTuneCheckpointTimeInterval
    rw [Int.tdiv_eq_ediv hx (by norm_num)]
    simp only [if_true]
    split_ifs with h
    · rw [max_eq_left (le_of_lt h)]
    · rw [max_eq_right (not_lt.mp h)]
  refine ⟨key current d hd, rfl, ?_, ?_, ?_⟩
  · rw [key current 120 (by norm_num)]; rfl
  · rw [key current 10 (by norm_num)]; rfl
  · intro idCheckpoint stop w hstate hconn
    rw [checkpointProcess_time_interval idCheckpoint stop elapsed w hstate hconn]
    have e1 : Int.tdiv elapsed 1000000 = elapsed / 1000000 :=
      Int.tdiv_eq_ediv he (by norm_num)
    have h0 : 0 ≤ elapsed / 1000000 := Int.ediv_nonneg he (by norm_num)
    have h1 : elapsed / 1000000 < 2 ^ 31 := by
      apply Int.ediv_lt_of_lt_mul (by norm_num)
      exact hlt
    have e2 : toInt32 (elapsed / 1000000) = elapsed / 1000000 := by
      unfold toInt32
      omega
    rw [e1, e2]
    cases hs : w.selftune_checkpoint_time_interval
    · rfl
    · simp only [if_true]
      exact key _ _ h0

set_option maxRecDepth 100000

/-- Witness of C25: a duration of 250 seconds, and a round of 250 seconds and a half. -/
theorem C25_self_tuned_interval_witness :
    selfTuneCheckpointTimeInterval true 300 250 = max 60 (250 / 2) ∧
    selfTuneCheckpointTimeInterval false 300 250 = 300 ∧
    selfTuneCheckpointTimeInterval true 300 120 = 60 ∧
    selfTuneCheckpointTimeInterval true 300 10 = 60 ∧
    (∀ (idCheckpoint : Int) (stop : Option Nat) (w : IRSystem),
      w.checkpoint_state = true → w.redis_connects = true →
      (checkpointProcess idCheckpoint stop 250500000 w).checkpoint_time_interval =
        if w.selftune_checkpoint_time_interval then max 60 ((250500000 : Int) / 1000000 / 2)
        else w.checkpoint_time_interval) :=
  C25_self_tuned_interval 250 300 250500000 (by decide) (by decide) (by decide)

/-! ## Claims on malformed and partial frames -/

set_option maxRecDepth 512

/-- C26: the unread part of the sequential log is made of complete frames followed by a
malformed frame (first byte not `*`, or an argument header that does not start with `$`) and
anything after it.  A round of the asynchronous indexer does not complete: it leaves through
`fmterr`, which ends in `exit(1)`, with the indexer state of the start of the round, so
nothing is applied and the offset file is not written.  Startup catch-up does not return: it
leaves through `fmterr` with the frames before the malformed one applied to the indexed log,
nothing of the malformed frame or after it, and the offset file as it was. -/
theorem C26_malformed_frame_is_fatal (mem : Nat → Int × Int) (s : IndexerState)
    (v : IndexerVars) (w : IRSystem) (records : DB) (done : Bytes) (good : List LogFrame)
    (bad : Bytes)
    (hbad : malformedFrame bad) (hwf : storeFrames good) (hcmd : commandFrames good)
    (hsize : (done ++ walBytes good).length < 2 ^ 63)
    (hon : s.indexer_state = true) (hread : (readFrames mem v [] good).isSome = true)
    (hlog : w.indexedlog = LogFile.db records) (hseek : w.final_log_seek = some done.length)
    (haof : w.aof = some (done ++ (walBytes good ++ bad)))
    (hrep : w.indexedlog_replicated = true → w.indexedlog_replica ≠ LogFile.corrupt) :
    (indexesSequentialLogToIndexedLogV2 mem s v done.length (done ++ (walBytes good ++ bad)) =
        none ∧
      indexesSequentialLogToIndexedLogV2_exit mem s v done.length
        (done ++ (walBytes good ++ bad)) = some (ReadError.fmterr, s)) ∧
    (initialIndexesSequentialLogToIndexedLog w = none ∧
      ∃ w1, initialIndexesSequentialLogToIndexedLog_exit w = some (ReadError.fmterr, w1) ∧
        w1.indexedlog = LogFile.db (good.foldl (initialIndexes_frame w.indexedlog_replicated)
          (initialIndexes_init records
            (if w.indexedlog_replicated = true then openIndexedLog w.indexedlog_replica 'W'
              else (true, w.indexedlog_replica)).2.records w.calls done.length)).dbp ∧
        w1.final_log_seek = w.final_log_seek ∧
        w1.calls = (good.foldl (initialIndexes_frame w.indexedlog_replicated)
          (initialIndexes_init records
            (if w.indexedlog_replicated = true then openIndexedLog w.indexedlog_replica 'W'
              else (true, w.indexedlog_replica)).2.records w.calls done.length)).calls) := by
  have hdone : done.length < 2 ^ 63 := by
    rw [List.length_append] at hsize; omega
  have hexit := indexesSequentialLogToIndexedLogV2_exit_malformed mem s v done good bad hon hwf
    hread hdone hbad
  exact ⟨⟨indexesSequentialLogToIndexedLogV2_none_of_exit mem s v _ _ _ hexit, hexit⟩,
    initialIndexes_exit_malformed w records done good bad hlog hseek haof hrep hwf hcmd hsize
      hbad⟩

set_option maxRecDepth 100000

/-- Witness of C26: the sequential log holds the frame of `SET a 1`, then the text `+OK`,
then the frame of `SET b 2`; the indexer round and startup catch-up both start at
position 0. -/
theorem C26_malformed_frame_is_fatal_witness :
    (indexesSequentialLogToIndexedLogV2 sampleMem emptyIndexer initialIndexerVars
        ([] : Bytes).length ([] ++ (walBytes [frameSET "a".toList "1".toList] ++
          ("+OK\r\n".toList ++ walBytes [frameSET "b".toList "2".toList]))) = none ∧
      indexesSequentialLogToIndexedLogV2_exit sampleMem emptyIndexer initialIndexerVars
        ([] : Bytes).length ([] ++ (walBytes [frameSET "a".toList "1".toList] ++
          ("+OK\r\n".toList ++ walBytes [frameSET "b".toList "2".toList]))) =
        some (ReadError.fmterr, emptyIndexer)) ∧
    (initialIndexesSequentialLogToIndexedLog
        { sampleSystem with aof := some sampleMalformedLog } = none ∧
      ∃ w1, initialIndexesSequentialLogToIndexedLog_exit
          { sampleSystem with aof := some sampleMalformedLog } = some (ReadError.fmterr, w1) ∧
        w1.indexedlog = LogFile.db ([frameSET "a".toList "1".toList].foldl
          (initialIndexes_frame false)
          (initialIndexes_init [] [] [] (([] : Bytes).length : Nat))).dbp ∧
        w1.final_log_seek = some 0 ∧
        w1.calls = ([frameSET "a".toList "1".toList].foldl
          (initialIndexes_frame false)
          (initialIndexes_init [] [] [] (([] : Bytes).length : Nat))).calls) :=
  C26_malformed_frame_is_fatal sampleMem emptyIndexer initialIndexerVars
    { sampleSystem with aof := some sampleMalformedLog } [] []
    [frameSET "a".toList "1".toList]
    ("+OK\r\n".toList ++ walBytes [frameSET "b".toList "2".toList])
    (Or.inl ⟨'+', "OK\r\n".toList ++ walBytes [frameSET "b".toList "2".toList], rfl,
      by decide⟩)
    (by decide) (by decide) (by decide) rfl (by decide) rfl rfl rfl
    (fun h => absurd h (by decide))

/-- C27, the asynchronous indexer fails on a trailing partial frame: the sequential log
holds the complete frame of `SET k 1` and then the first 18 bytes of the next frame.  The
round that starts at position 0 does not complete: `fgets` returns NULL inside the partial
frame, the code goes to `readerr`, sets `server.indexer_state = IR_OFF` and, the stream being
at its end, falls through to `fmterr` and `exit(1)`; the complete record is not applied (the
indexed log is still empty, no storage call was made) and no offset is stored.  The same
round over the complete frame alone applies the record and stores the offset 27. -/
theorem C27_partial_tail_ends_in_exit :
    samplePartialLog = walBytes [frameSET "k".toList "1".toList] ++
      (walBytes [frameSET "k".toList "2".toList]).take 18 ∧
    indexesSequentialLogToIndexedLogV2 sampleMem emptyIndexer initialIndexerVars 0
      samplePartialLog = none ∧
    indexesSequentialLogToIndexedLogV2_exit sampleMem emptyIndexer initialIndexerVars 0
      samplePartialLog =
        some (ReadError.readerr,
          { dbp := [], final_log_seek := none, seek_log_file := 0, indexer_state := false,
            calls := [] }) ∧
    (indexesSequentialLogToIndexedLogV2 sampleMem emptyIndexer initialIndexerVars 0
      (walBytes [frameSET "k".toList "1".toList])).map
        (fun r => (r.1.dbp, r.1.final_log_seek)) =
      some ([("k".toList, "*3\n$3\nSET\n$1\nk\n$1\n1".toList)], some 27) := by
  decide

/-! ## Claim on a batch applied twice -/

/-- C28, the claim fails: the sequential log holds `SET k 5; INCR k`, the indexed log is
empty and the offset file holds 0.  After the drain that dies before its offset write the
chain of `k` is two copies of the text stored for `SET k 5` and replays to 5; after the
restart, startup catch-up has applied the batch again from offset 0 and the chain of `k` is
the original SET frame followed by the original INCR frame, which replays to 6.  The second
chain is not the first one with a duplicate added. -/
theorem C28_counterexample :
    (drainWithoutOffsetWrite sampleMem sampleCrash initialIndexerVars 0).map
        (fun crashed => chainOf crashed.indexedlog.records "k".toList) =
      some ["*3\n$3\nSET\n$1\nk\n$1\n5".toList, "*3\n$3\nSET\n$1\nk\n$1\n5".toList] ∧
    ((drainWithoutOffsetWrite sampleMem sampleCrash initialIndexerVars 0).bind
        initialIndexesSequentialLogToIndexedLog).map
        (fun r => chainOf r.1.indexedlog.records "k".toList) =
      some ["*3\r\n$3\r\nSET\n$1\r\nk\n$1\r\n5".toList, "*2\r\n$4\r\nINCR\n$1\r\nk".toList] ∧
    replayChain ["*3\n$3\nSET\n$1\nk\n$1\n5".toList, "*3\n$3\nSET\n$1\nk\n$1\n5".toList] =
      "5".toList ∧
    replayChain ["*3\r\n$3\r\nSET\n$1\r\nk\n$1\r\n5".toList, "*2\r\n$4\r\nINCR\n$1\r\nk".toList] =
      "6".toList := by
  decide

set_option maxRecDepth 512

/-- C28 (amended): the indexed log opens and is sorted by key, there is no replica, the
offset file holds the position `done.length`, and the sequential log from that position on
is a batch of complete `SET key value` and `DEL key` frames with plain keys and values.  The
drain applies the batch and the process dies before the offset write; at the restart startup
catch-up returns, applies the same batch again from the old offset and stores the length of
the sequential log.  For every key the chain after the restart and the chain before it
restore alike: the replay gives the same value, both chains are empty or none is, both end
or none ends in a frame that is redone, and the chain after the restart is not longer. -/
theorem C28_reapplied_SET_DEL_batch_restores_alike (mem : Nat → Int × Int) (w : IRSystem)
    (records : DB) (done : Bytes) (batch : List LogFrame) (v : IndexerVars)
    (hlog : w.indexedlog = LogFile.db records) (hsorted : keySorted records)
    (hseek : w.final_log_seek = some done.length)
    (haof : w.aof = some (done ++ walBytes batch))
    (hrep : w.indexedlog_replicated = false)
    (hbatch : ∀ f ∈ batch, setOrDelFrame f) (hv : v.value.length < 50)
    (hsize : (done ++ walBytes batch).length < 2 ^ 63) :
    ∃ crashed restarted, drainWithoutOffsetWrite mem w v done.length = some crashed ∧
      crashed.final_log_seek = some done.length ∧
      initialIndexesSequentialLogToIndexedLog crashed = some (restarted, batch.length) ∧
      restarted.final_log_seek = some (done ++ walBytes batch).length ∧
      ∀ K, sameRestore (chainOf crashed.indexedlog.records K)
        (chainOf restarted.indexedlog.records K) :=
  reapplied_batch mem w records done batch v hlog hsorted hseek haof hrep hbatch hv hsize

set_option maxRecDepth 100000

/-- Witness of C28 (amended): the indexed log holds a record of key `a`, the sequential log
holds `SET k 1; DEL a; SET k 2`, the offset file holds 0. -/
theorem C28_reapplied_SET_DEL_batch_restores_alike_witness :
    ∃ crashed restarted,
      drainWithoutOffsetWrite sampleMem sampleBatch initialIndexerVars ([] : Bytes).length =
        some crashed ∧
      crashed.final_log_seek = some ([] : Bytes).length ∧
      initialIndexesSequentialLogToIndexedLog crashed =
        some (restarted, [frameSET "k".toList "1".toList, frameDEL "a".toList,
          frameSET "k".toList "2".toList].length) ∧
      restarted.final_log_seek = some (([] : Bytes) ++ walBytes [frameSET "k".toList "1".toList,
        frameDEL "a".toList, frameSET "k".toList "2".toList]).length ∧
      ∀ K, sameRestore (chainOf crashed.indexedlog.records K)
        (chainOf restarted.indexedlog.records K) :=
  C28_reapplied_SET_DEL_batch_restores_alike sampleMem sampleBatch
    [("a".toList, "*3\n$3\nSET\n$1\na\n$1\n7".toList)] []
    [frameSET "k".toList "1".toList, frameDEL "a".toList, frameSET "k".toList "2".toList]
    initialIndexerVars rfl (by decide) rfl rfl rfl
    (by
      intro f hf
      simp only [List.mem_cons, List.mem_singleton, List.not_mem_nil, or_false] at hf
      rcases hf with rfl | rfl | rfl
      · exact Or.inl ⟨_, _, rfl, ⟨by decide, by decide, by decide⟩,
          ⟨by decide, by decide, by decide⟩⟩
      · exact Or.inr ⟨_, rfl, ⟨by decide, by decide, by decide⟩⟩
      · exact Or.inl ⟨_, _, rfl, ⟨by decide, by decide, by decide⟩,
          ⟨by decide, by decide, by decide⟩⟩)
    (by decide) (by decide)

/-! ## Claims on the replay of stored frames -/

/-- C29, the claim fails for a sum that does not fit `int`: the sequential log holds
`SET k 2147483647; INCR k`; after startup catch-up the chain of `k` is the SET frame followed
by the INCR frame, and both restorers submit `SETIR k -2147483648`, while `n + m` is
2147483648. -/
theorem C29_counterexample :
    sampleOverflowLog =
      [("k".toList, "*3\r\n$3\r\nSET\n$1\r\nk\n$10\r\n2147483647".toList),
       ("k".toList, "*2\r\n$4\r\nINCR\n$1\r\nk".toList)] ∧
    (loadRecordFromIndexedLog (serverAfterRestart sampleOverflowLog) "k".toList).map
        (fun r => r.2.setIR) = some [("k".toList, "-2147483648".toList)] ∧
    (loadDBFromIndexedLog replyOK (serverAfterRestart sampleOverflowLog)).map
        (fun r => r.setIR) = some [("k".toList, "-2147483648".toList)] ∧
    sprintf_d (2147483647 + 1) = "2147483648".toList := by
  decide

/-- C29 (amended): for every integer `n` and every `m` with `-2^31 ≤ n` and `n + m < 2^31`,
when the chain of key `K` in the indexed log is a SET frame whose value is the decimal text of
`n` followed by `m` INCR frames (the log being sorted by key and made of readable frames),
the replay of the chain is the decimal text of `n + m`, the on-demand restorer submits
`SETIR K (n + m)` and the incremental restorer submits `SETIR K (n + m)` for `K`. -/
theorem C29_SET_then_INCRs_within_int (replyStr : Bytes → Bytes → Bool) (db : DB)
    (K setFrame : Bytes) (incrs : List Bytes) (n : Int) (m : Nat)
    (hs : keySorted db) (hread : ∀ r ∈ db, frameReadable r.2 = true)
    (hchain : chainOf db K = setFrame :: incrs)
    (hset : isSetFrame setFrame = true) (hval : frameValue setFrame = some (sprintf_d n))
    (hincr : ∀ f ∈ incrs, isIncrFrame f = true) (hm : incrs.length = m)
    (hlo : -(2 ^ 31) ≤ n) (hhi : n + m < 2 ^ 31) :
    replayChain (setFrame :: incrs) = sprintf_d (n + m) ∧
    (∃ server1, loadRecordFromIndexedLog (serverAfterRestart db) K = some (1, server1) ∧
      server1.setIR = [(K, sprintf_d (n + m))]) ∧
    (∃ server2, loadDBFromIndexedLog replyStr (serverAfterRestart db) = some server2 ∧
      server2.setIR.filter (fun x => x.1 == K) = [(K, sprintf_d (n + m))]) := by
  subst hm
  have hreplay := replayChain_set_incrs setFrame incrs n hset hval hincr hlo hhi
  have hredo : ∀ f ∈ chainOf db K, isSetFrame f = true ∨ isIncrFrame f = true := by
    intro f hf
    rw [hchain] at hf
    rcases List.mem_cons.mp hf with e | e
    · exact Or.inl (e ▸ hset)
    · exact Or.inr (hincr f e)
  have h := restore_redo_chain replyStr db K hs hread (by rw [hchain]; simp) hredo
  rw [hchain, hreplay] at h
  exact ⟨hreplay, h⟩

/-- Witness of C29 (amended): key `a` of the sample log, whose chain is `SET a 5` followed by
one INCR frame, is restored to 6. -/
theorem C29_SET_then_INCRs_within_int_witness :
    replayChain ["*3\n$3\nSET\n$1\na\n$1\n5".toList, "*2\r\n$4\r\nINCR\n$1\r\na".toList] =
      sprintf_d (5 + (1 : Nat)) ∧
    (∃ server1, loadRecordFromIndexedLog (serverAfterRestart sampleLog) "a".toList =
        some (1, server1) ∧
      server1.setIR = [("a".toList, sprintf_d (5 + (1 : Nat)))]) ∧
    (∃ server2, loadDBFromIndexedLog replyOK (serverAfterRestart sampleLog) = some server2 ∧
      server2.setIR.filter (fun x => x.1 == "a".toList) =
        [("a".toList, sprintf_d (5 + (1 : Nat)))]) :=
  C29_SET_then_INCRs_within_int replyOK sampleLog "a".toList
    "*3\n$3\nSET\n$1\na\n$1\n5".toList ["*2\r\n$4\r\nINCR\n$1\r\na".toList] 5 1
    (by decide) (by decide) (by decide) (by decide) (by decide) (by decide) (by decide)
    (by decide) (by decide)

/-- C30: for every SET record with key `K` and value `V` without a newline, whatever the two
numbers `sdslen(ri->key)` and `sdslen(ri->value)` printed into the length headers are, the
text that `writeToIndexedLog` stores for the record is put under `K` in the indexed log, its
split on newline has the line `SET` at index 2 and exactly `V` at index 6, and the loop
bodies of both restorers read it as a SET that sets `valueIR` to `V`. -/
theorem C30_stored_SET_text_decodes (ri : recordToIndex) (valueIR : Bytes) (s : IndexerState)
    (v : IRVars) (hcmd : ri.command = SET_COMMAND) (hk : '\n' ∉ ri.key)
    (hv : '\n' ∉ ri.value) :
    (writeToIndexedLog_apply s ri).1.dbp =
      addRecordIndexedLog s.dbp ri.key (writeToIndexedLog_aux ri) ∧
    writeToIndexedLog_aux ri =
      "*3\n$3\nSET\n$".toList ++ sprintf_d ri.sdslen_key ++ "\n".toList ++ ri.key ++
        "\n$".toList ++ sprintf_d ri.sdslen_value ++ "\n".toList ++ ri.value ∧
    (sdssplitlen (writeToIndexedLog_aux ri))[2]? = some "SET".toList ∧
    (sdssplitlen (writeToIndexedLog_aux ri))[6]? = some ri.value ∧
    loadRecord_redo valueIR (writeToIndexedLog_aux ri) = some ri.value ∧
    loadDB_redo v (writeToIndexedLog_aux ri) =
      some { v with commandIR := "SET".toList, keyIR := v.current_key, valueIR := ri.value } := by
  have h6 := frameValue_aux ri hk hv
  unfold frameValue at h6
  have h2 : (sdssplitlen (writeToIndexedLog_aux ri))[2]? = some "SET".toList := by
    rw [sdssplitlen_aux]
    simp only [List.getElem?_cons_succ, List.getElem?_cons_zero]
  refine ⟨?_, rfl, h2, h6, ?_, ?_⟩
  · unfold writeToIndexedLog_apply
    rw [if_pos hcmd]
  · unfold loadRecord_redo
    simp only [h2, h6]
    rfl
  · unfold loadDB_redo
    simp only [h2, h6]
    rfl

/-- Witness of C30: the key `k` and the value `v 1`, with the length headers `-7` and
`123456`. -/
theorem C30_stored_SET_text_decodes_witness :
    (sdssplitlen (writeToIndexedLog_aux
        { command := SET_COMMAND, key := "k".toList, value := "v 1".toList,
          sdslen_key := -7, sdslen_value := 123456 }))[6]? = some "v 1".toList :=
  (C30_stored_SET_text_decodes
    { command := SET_COMMAND, key := "k".toList, value := "v 1".toList,
      sdslen_key := -7, sdslen_value := 123456 } [] emptyIndexer
    { commandIR := [], keyIR := [], valueIR := [], current_key := [], old_key := [],
      count_tuples_loaded := 0, count_inconsistent_load := 0 }
    rfl (by decide) (by decide)).2.2.2.1

end InstantRecovery
